import Mathlib

/-! # Streaming transaction parser of `eos_stream.c`

A shallow embedding of the incremental field parser and hash accumulator of
`src/eos_stream.c`, followed by the properties proved about it.

Conventions of the embedding.

* Bytes and the `uint32_t` counters are natural numbers.  The only counter
  update that can wrap in C is `tlvBufferPos++`; it is reduced modulo `2^32`.
  Every other addition or subtraction of the source is guarded by a comparison
  that excludes wrap-around (`currentFieldPos < currentFieldLength` before
  `currentFieldLength - currentFieldPos`, `length <= commandLength` before
  `commandLength -= length`).
* The pair `(workBuffer, commandLength)` is a pointer/length view of the part of
  the chunk not read yet; it is the list `workBuffer`, and `commandLength` is its
  length.
* The SHA-256 context is represented by the sequence of bytes passed to
  `cx_hash` since `cx_sha256_init`; the digest is a function of that sequence.
* `THROW(EXCEPTION)` is the result `none` of a consumer; a loop that does not
  come to an end is the result `none` of the fuelled driver for every fuel.
* `tempHeaderValue` is an integer.  `processHeaderField2` copies the bytes of a
  cached field through the pointer it makes from the value of `tempHeaderValue`
  (line 137, no `&`), to addresses outside the context; these writes are logged
  in `strayWrites` and `tempHeaderValue` itself is not written.
-/

namespace EosStream

/-- Result of a call of the parser: the three values of `parserStatus_e` that
`eos_stream.c` returns. -/
inductive parserStatus_e where
  | STREAM_PROCESSING
  | STREAM_FINISHED
  | STREAM_FAULT
  deriving DecidableEq, Repr

open parserStatus_e

/-- Modelled from the spec: the enumeration `txProcessingState_e` is declared in
`eos_stream.h`, which is not among the sources.  The spec gives its order
(ChainId, HeaderExpiration, HeaderRefBlockNum, HeaderRefBlockPrefix,
HeaderMaxNetUsageWords, HeaderMaxCpuUsageMs, HeaderDelaySec, ContextFreeActions,
Actions, TransactionExtensions, ContextFreeData, Done); `state++` of the source
is `+ 1` on these consecutive values. -/
abbrev TLV_TX_CHAIN_ID : Nat := 0

/-- Second state of the enumeration (the spelling is the one of the source). -/
abbrev TLV_TX_HEADER_EXPITATION : Nat := 1

/-- Third state of the enumeration. -/
abbrev TLV_TX_HEADER_REF_BLOCK_NUM : Nat := 2

/-- Fourth state of the enumeration. -/
abbrev TLV_TX_HEADER_REF_BLOCK_PREFIX : Nat := 3

/-- Fifth state of the enumeration. -/
abbrev TLV_TX_HEADER_MAX_NET_USAGE_WORDS : Nat := 4

/-- Sixth state of the enumeration. -/
abbrev TLV_TX_HEADER_MAX_CPU_USAGE_MS : Nat := 5

/-- Seventh state of the enumeration. -/
abbrev TLV_TX_HEADER_DELAY_SEC : Nat := 6

/-- Eighth state of the enumeration. -/
abbrev TLV_TX_CONTEXT_FREE_ACTIONS : Nat := 7

/-- Ninth state of the enumeration. -/
abbrev TLV_TX_ACTIONS : Nat := 8

/-- Tenth state of the enumeration. -/
abbrev TLV_TX_TRANSACTION_EXTENSIONS : Nat := 9

/-- Eleventh state of the enumeration. -/
abbrev TLV_TX_CONTEXT_FREE_DATA : Nat := 10

/-- Terminal state of the enumeration. -/
abbrev TLV_TX_DONE : Nat := 11

/-- Modelled from the spec: `chain_id_t` is declared in `eos_types.h`, which is
not among the sources; the chain id of the spec is 32 bytes wide. -/
abbrev sizeof_chain_id_t : Nat := 32

/-- Width of `uint32_t` in bytes. -/
abbrev sizeof_uint32_t : Nat := 4

/-- Width of `uint16_t` in bytes. -/
abbrev sizeof_uint16_t : Nat := 2

/-- Width of `uint8_t` in bytes. -/
abbrev sizeof_uint8_t : Nat := 1

/-- What one call of `tlvTryDecode` delivers: its return value `decoded`, the
flag written through `valid`, and the values written through the
`fieldLength` and `isSequence` pointers (`none` when the pointee is left as it
was). -/
structure TlvResult where
  decoded : Bool
  valid : Bool
  fieldLength : Option Nat
  isSequence : Option Bool
  deriving DecidableEq, Repr

/-- The declarations used by `eos_stream.c` whose definitions are in files that
are not among the sources (`eos_utils.c`, `eos_types.h`, `eos_stream.h`).  They
are parameters of the embedding.

* `tlvTryDecode bytes` is the call `tlvTryDecode(tlvBuffer, tlvBufferPos, ...)`
  where `bytes` are the first `tlvBufferPos` bytes of `tlvBuffer`;
* `pack_fc_unsigned_int v` is the list of bytes that
  `pack_fc_unsigned_int(v, tmp)` writes to `tmp` (its return value is the length
  of that list);
* `sizeof_fc_unsigned_int_t` is `sizeof(fc_unsigned_int_t)`;
* `sizeof_tlvBuffer` is `sizeof(context->tlvBuffer)`. -/
structure Platform where
  tlvTryDecode : List Nat → TlvResult
  pack_fc_unsigned_int : Nat → List Nat
  sizeof_fc_unsigned_int_t : Nat
  sizeof_tlvBuffer : Nat

/-- Modelled from the spec: the structure `txProcessingContext_t` is declared in
`eos_stream.h`, which is not among the sources.  Its fields are the ones
`eos_stream.c` uses, with the meaning the data model of the spec gives them:
`sha256` is the running hash, held as the bytes fed to it so far; `workBuffer`
is the unread part of the current chunk; `tlvBuffer` is the whole scratch
array; `tempHeaderValue` is the cached scalar, an integer of type
`fc_unsigned_int_t` (line 150 passes it to `pack_fc_unsigned_int` without a
cast, where lines 172 and 197 pass the integer 0), held as the bytes of the
object; its value is `loadLE` of them.  The `content` pointer is never read by
`eos_stream.c` and is left out.

The last component, `strayWrites`, is not a member of the structure.  Line 137
makes a byte pointer out of the value of `tempHeaderValue` (there is no `&`),
and line 138 writes through it: to addresses that are not those of the context
(from `initTxContext` the value is 0, and the addresses are 0, 1, ...).
`strayWrites` is the memory outside the context, held as the log of the bytes
written to it, each with its address.  The embedding takes such a write to
touch nothing that `eos_stream.c` reads. -/
structure txProcessingContext_t where
  state : Nat
  sha256 : List Nat
  currentFieldLength : Nat
  currentFieldPos : Nat
  isSequence : Bool
  processingField : Bool
  tlvBuffer : List Nat
  tlvBufferPos : Nat
  workBuffer : List Nat
  tempHeaderValue : List Nat
  strayWrites : List (Nat × Nat)
  deriving DecidableEq, Repr

/-- The number of unread bytes of the current chunk. -/
def txProcessingContext_t.commandLength (c : txProcessingContext_t) : Nat :=
  c.workBuffer.length

/-- The same context with `extra` unread bytes behind the unread bytes it has. -/
def txProcessingContext_t.extend (c : txProcessingContext_t) (extra : List Nat) :
    txProcessingContext_t :=
  { c with workBuffer := c.workBuffer ++ extra }

/-- The function `initTxContext` (lines 7 to 15): everything zero, state
`TLV_TX_CHAIN_ID`, a fresh hash. -/
def initTxContext (E : Platform) : txProcessingContext_t :=
  { state := TLV_TX_CHAIN_ID
    sha256 := []
    currentFieldLength := 0
    currentFieldPos := 0
    isSequence := false
    processingField := false
    tlvBuffer := List.replicate E.sizeof_tlvBuffer 0
    tlvBufferPos := 0
    workBuffer := []
    tempHeaderValue := List.replicate E.sizeof_fc_unsigned_int_t 0
    strayWrites := [] }

/-- The function `readTxByte` (lines 17 to 27): the next byte of the chunk, or
`none` for the underflow exception. -/
def readTxByte (c : txProcessingContext_t) : Option (Nat × txProcessingContext_t) :=
  match c.workBuffer with
  | [] => none
  | data :: rest => some (data, { c with workBuffer := rest })

/-- The function `hashTxData` (lines 33 to 35): feed the first `length` bytes of
`buffer` to the hash. -/
def hashTxData (c : txProcessingContext_t) (buffer : List Nat) (length : Nat) :
    txProcessingContext_t :=
  { c with sha256 := c.sha256 ++ buffer.take length }

/-- The call `os_memmove(address, src, |src|)` with a destination outside the
context: each byte of `src` is logged behind `memory`, with the address it is
written to. -/
def os_memmove (memory : List (Nat × Nat)) (address : Nat) :
    List Nat → List (Nat × Nat)
  | [] => memory
  | b :: bs => os_memmove (memory ++ [(address, b)]) (address + 1) bs

/-- The integer held by an object read on the little-endian target. -/
def loadLE : List Nat → Nat
  | [] => 0
  | b :: bs => b + 256 * loadLE bs

/-- The consumer `processChainId` (lines 41 to 69): a scalar of the width of
`chain_id_t`, hashed as it arrives. -/
def processChainId (c : txProcessingContext_t) : Option txProcessingContext_t :=
  if c.isSequence then none
  else if sizeof_chain_id_t ≠ c.currentFieldLength then none
  else
    let c1 :=
      if c.currentFieldPos < c.currentFieldLength then
        let length :=
          if c.commandLength < c.currentFieldLength - c.currentFieldPos
          then c.commandLength
          else c.currentFieldLength - c.currentFieldPos
        let c0 := hashTxData c c.workBuffer length
        { c0 with
          workBuffer := c0.workBuffer.drop length
          currentFieldPos := c0.currentFieldPos + length }
      else c
    if c1.currentFieldPos = c1.currentFieldLength then
      some { c1 with state := c1.state + 1, processingField := false }
    else some c1

/-- The consumer `processHeaderField` (lines 74 to 113): a scalar of the width
its state requires, hashed as it arrives. -/
def processHeaderField (c : txProcessingContext_t) : Option txProcessingContext_t :=
  if c.isSequence then none
  else if (c.state = TLV_TX_HEADER_EXPITATION ∨
      c.state = TLV_TX_HEADER_REF_BLOCK_PREFIX) ∧
      c.currentFieldLength ≠ sizeof_uint32_t then none
  else if c.state = TLV_TX_HEADER_REF_BLOCK_NUM ∧
      c.currentFieldLength ≠ sizeof_uint16_t then none
  else if c.state = TLV_TX_HEADER_MAX_CPU_USAGE_MS ∧
      c.currentFieldLength ≠ sizeof_uint8_t then none
  else
    let c1 :=
      if c.currentFieldPos < c.currentFieldLength then
        let length :=
          if c.commandLength < c.currentFieldLength - c.currentFieldPos
          then c.commandLength
          else c.currentFieldLength - c.currentFieldPos
        let c0 := hashTxData c c.workBuffer length
        { c0 with
          workBuffer := c0.workBuffer.drop length
          currentFieldPos := c0.currentFieldPos + length }
      else c
    if c1.currentFieldPos = c1.currentFieldLength then
      some { c1 with state := c1.state + 1, processingField := false }
    else some c1

/-- The consumer `processHeaderField2` (lines 118 to 153): a scalar of the width
of `fc_unsigned_int_t`.  Its bytes are copied to `fieldByteOffset`, the address
that is the value of `tempHeaderValue` plus the position (line 137 casts the
value to a pointer); `tempHeaderValue` itself is not written.  Once the field is
complete the packed value of `tempHeaderValue` is hashed (line 150). -/
def processHeaderField2 (E : Platform) (c : txProcessingContext_t) :
    Option txProcessingContext_t :=
  if c.isSequence then none
  else if (c.state = TLV_TX_HEADER_MAX_NET_USAGE_WORDS ∨
      c.state = TLV_TX_HEADER_DELAY_SEC) ∧
      c.currentFieldLength ≠ E.sizeof_fc_unsigned_int_t then none
  else
    let c1 :=
      if c.currentFieldPos < c.currentFieldLength then
        let length :=
          if c.commandLength < c.currentFieldLength - c.currentFieldPos
          then c.commandLength
          else c.currentFieldLength - c.currentFieldPos
        let fieldByteOffset := loadLE c.tempHeaderValue + c.currentFieldPos
        { c with
          strayWrites := os_memmove c.strayWrites fieldByteOffset (c.workBuffer.take length)
          workBuffer := c.workBuffer.drop length
          currentFieldPos := c.currentFieldPos + length }
      else c
    if c1.currentFieldPos = c1.currentFieldLength then
      let c2 := { c1 with state := c1.state + 1, processingField := false }
      let tmp := E.pack_fc_unsigned_int (loadLE c2.tempHeaderValue)
      some (hashTxData c2 tmp tmp.length)
    else some c1

/-- The consumer `processCtxFreeActions` (lines 160 to 178): a sequence of count
0, for which the packed value of 0 is hashed. -/
def processCtxFreeActions (E : Platform) (c : txProcessingContext_t) :
    Option txProcessingContext_t :=
  if !c.isSequence then none
  else if c.currentFieldLength ≠ 0 then none
  else
    let tmp := E.pack_fc_unsigned_int 0
    let c1 := hashTxData c tmp tmp.length
    some { c1 with state := c1.state + 1, processingField := false }

/-- The consumer `processTxExtensions` (lines 185 to 203): a sequence of count 0,
for which the packed value of 0 is hashed. -/
def processTxExtensions (E : Platform) (c : txProcessingContext_t) :
    Option txProcessingContext_t :=
  if !c.isSequence then none
  else if c.currentFieldLength ≠ 0 then none
  else
    let tmp := E.pack_fc_unsigned_int 0
    let c1 := hashTxData c tmp tmp.length
    some { c1 with state := c1.state + 1, processingField := false }

/-- The consumer `processCtxFreeData` (lines 209 to 226): a sequence of count 0,
for which 32 zero bytes are hashed. -/
def processCtxFreeData (c : txProcessingContext_t) : Option txProcessingContext_t :=
  if !c.isSequence then none
  else if c.currentFieldLength ≠ 0 then none
  else
    let empty := List.replicate 32 0
    let c1 := hashTxData c empty empty.length
    some { c1 with state := c1.state + 1, processingField := false }

/-- The consumer `processActions` (lines 231 to 243): the two checks, and
nothing else. -/
def processActions (c : txProcessingContext_t) : Option txProcessingContext_t :=
  if !c.isSequence then none
  else if c.currentFieldLength ≠ 1 then none
  else some c

/-- How a call of `processTxInternal` comes to an end: a `return` with a status,
or an exception that leaves the function. -/
inductive Completion where
  | returned (status : parserStatus_e) (c : txProcessingContext_t)
  | raised (c : txProcessingContext_t)
  deriving DecidableEq, Repr

/-- Outcome of one pass through the body of the `for(;;)` loop. -/
inductive Iteration where
  | leave (r : Completion)
  | again (c : txProcessingContext_t)
  deriving DecidableEq, Repr

/-- Outcome of the inner `while (context->commandLength != 0)` loop. -/
inductive TlvLoop where
  | fault (c : txProcessingContext_t)
  | raised (c : txProcessingContext_t)
  | decoded (c : txProcessingContext_t)
  | pending (c : txProcessingContext_t)
  deriving DecidableEq, Repr

/-- The inner loop of `processTxInternal` that feeds the scratch buffer until
the tag can be decoded.  The first argument is the unread part of the chunk
(`c.workBuffer` at the call); the loop runs once per byte of it. -/
def tlvDecodeLoop (E : Platform) : List Nat → txProcessingContext_t → TlvLoop
  | [], c => .pending { c with workBuffer := [] }
  | data :: rest, c =>
    match readTxByte { c with workBuffer := data :: rest } with
    | none => .raised c
    | some (byte, c0) =>
      let c1 := { c0 with
        tlvBuffer := c0.tlvBuffer.set c0.tlvBufferPos byte
        tlvBufferPos := (c0.tlvBufferPos + 1) % 4294967296 }
      let r := E.tlvTryDecode (c1.tlvBuffer.take c1.tlvBufferPos)
      let c2 := { c1 with
        currentFieldLength := r.fieldLength.getD c1.currentFieldLength
        isSequence := r.isSequence.getD c1.isSequence }
      if !r.valid then .fault c2
      else if r.decoded then .decoded c2
      else if c2.tlvBufferPos = E.sizeof_tlvBuffer then .fault c2
      else tlvDecodeLoop E rest c2

/-- Turn the result of a field consumer into the outcome of the loop body. -/
def afterConsumer (c : txProcessingContext_t) :
    Option txProcessingContext_t → Iteration
  | none => .leave (.raised c)
  | some c1 => .again c1

/-- The `switch (context->state)` of `processTxInternal`. -/
def dispatch (E : Platform) (c : txProcessingContext_t) : Iteration :=
  if c.state = TLV_TX_CHAIN_ID then afterConsumer c (processChainId c)
  else if c.state = TLV_TX_HEADER_EXPITATION ∨
      c.state = TLV_TX_HEADER_REF_BLOCK_NUM ∨
      c.state = TLV_TX_HEADER_REF_BLOCK_PREFIX ∨
      c.state = TLV_TX_HEADER_MAX_CPU_USAGE_MS then
    afterConsumer c (processHeaderField c)
  else if c.state = TLV_TX_HEADER_MAX_NET_USAGE_WORDS ∨
      c.state = TLV_TX_HEADER_DELAY_SEC then
    afterConsumer c (processHeaderField2 E c)
  else if c.state = TLV_TX_CONTEXT_FREE_ACTIONS then
    afterConsumer c (processCtxFreeActions E c)
  else if c.state = TLV_TX_ACTIONS then afterConsumer c (processActions c)
  else if c.state = TLV_TX_TRANSACTION_EXTENSIONS then
    afterConsumer c (processTxExtensions E c)
  else if c.state = TLV_TX_CONTEXT_FREE_DATA then
    afterConsumer c (processCtxFreeData c)
  else .leave (.returned STREAM_FAULT c)

/-- The head of the body of the `for(;;)` loop, up to the `switch`: the two
exits at the top and, when no field is in progress, the decoding of the next
tag.  The result is the completion of the call, or (`again`) the context with
which the `switch` is entered. -/
def loopHead (E : Platform) (c : txProcessingContext_t) : Iteration :=
  if c.state = TLV_TX_DONE then .leave (.returned STREAM_FINISHED c)
  else if c.commandLength = 0 then .leave (.returned STREAM_PROCESSING c)
  else if !c.processingField then
    match tlvDecodeLoop E c.workBuffer c with
    | .fault c1 => .leave (.returned STREAM_FAULT c1)
    | .raised c1 => .leave (.raised c1)
    | .pending c1 => .leave (.returned STREAM_PROCESSING c1)
    | .decoded c1 =>
      .again { c1 with currentFieldPos := 0, tlvBufferPos := 0, processingField := true }
  else .again c

/-- One pass through the body of the `for(;;)` loop of `processTxInternal`: the
head, then the `switch`. -/
def loopBody (E : Platform) (c : txProcessingContext_t) : Iteration :=
  match loopHead E c with
  | .leave r => .leave r
  | .again c1 => dispatch E c1

/-- The function `processTxInternal` (lines 245 to 318): the `for(;;)` loop, run
for at most `fuel` passes; `none` when the loop has not been left by then. -/
def processTxInternal (E : Platform) : Nat → txProcessingContext_t → Option Completion
  | 0, _ => none
  | fuel + 1, c =>
    match loopBody E c with
    | .leave r => some r
    | .again c1 => processTxInternal E fuel c1

/-- The function `parseTx` (lines 328 to 344): install the chunk, run
`processTxInternal`, and map an exception to `STREAM_FAULT`.  The result is the
status with the context as the call left it; `none` when the call has not
returned within `fuel` passes of the loop. -/
def parseTx (E : Platform) (fuel : Nat) (c : txProcessingContext_t) (buffer : List Nat) :
    Option (parserStatus_e × txProcessingContext_t) :=
  match processTxInternal E fuel { c with workBuffer := buffer } with
  | none => none
  | some (.returned status c1) => some (status, c1)
  | some (.raised c1) => some (STREAM_FAULT, c1)

/-- Successive calls of `parseTx`, one per chunk, each with the context the
previous call left: the statuses returned and the last context. -/
def feedChunks (E : Platform) (fuel : Nat) :
    txProcessingContext_t → List (List Nat) →
      Option (List parserStatus_e × txProcessingContext_t)
  | c, [] => some ([], c)
  | c, buffer :: more =>
    match parseTx E fuel c buffer with
    | none => none
    | some (status, c1) =>
      match feedChunks E fuel c1 more with
      | none => none
      | some (statuses, c2) => some (status :: statuses, c2)

/-- Modelled from the spec: the varint codec (`pack_fc_unsigned_int` of
`eos_utils.c`, not among the sources): little-endian base 128, seven data bits
per byte, the continuation bit set on all bytes but the last.  The first
argument bounds the number of bytes. -/
def varintEncode : Nat → Nat → List Nat
  | 0, _ => []
  | n + 1, v => if v < 128 then [v] else (v % 128 + 128) :: varintEncode n (v / 128)

/-- A tag decoder used to instantiate the parameters on concrete inputs: a tag
is a kind byte (4 for a scalar, 48 for a sequence) followed by one length byte. -/
def demoTlvTryDecode : List Nat → TlvResult
  | [k] => ⟨false, k = 4 ∨ k = 48, none, none⟩
  | [k, n] =>
    if k = 4 then ⟨true, true, some n, some false⟩
    else if k = 48 then ⟨true, true, some n, some true⟩
    else ⟨false, false, none, none⟩
  | _ => ⟨false, false, none, none⟩

/-- A concrete choice of the parameters: the two-byte tags of
`demoTlvTryDecode`, the varint codec of the spec on 32-bit values, a 4-byte
`fc_unsigned_int_t` and a 5-byte scratch buffer. -/
def demoPlatform : Platform :=
  { tlvTryDecode := demoTlvTryDecode
    pack_fc_unsigned_int := fun v => varintEncode 5 (v % 4294967296)
    sizeof_fc_unsigned_int_t := 4
    sizeof_tlvBuffer := 5 }

/-- Cut a byte string into chunks of `n + 1` bytes (the last one may be
shorter); the first argument bounds the number of chunks. -/
def chunksOf (n : Nat) : Nat → List Nat → List (List Nat)
  | 0, _ => []
  | _, [] => []
  | k + 1, b :: bs => (b :: bs).take (n + 1) :: chunksOf n k ((b :: bs).drop (n + 1))

/-- The end-to-end stream of the spec under the tags of `demoTlvTryDecode`:
chain id (32 bytes 0xAB), expiration, ref-block-num, ref-block-prefix,
max-net-usage-words, max-cpu-usage-ms, delay-sec, then the four sequence tags
with counts 0, 1, 0, 0. -/
def endToEndStream : List Nat :=
  [4, 32] ++ List.replicate 32 171 ++
  [4, 4, 0, 0, 0, 0] ++ [4, 2, 0, 0] ++ [4, 4, 0, 0, 0, 0] ++
  [4, 4, 0, 0, 0, 0] ++ [4, 1, 0] ++ [4, 4, 0, 0, 0, 0] ++
  [48, 0] ++ [48, 1] ++ [48, 0] ++ [48, 0]


/-- The context of `demoPlatform` after the first 34 two-byte chunks of
`endToEndStream` (68 bytes: everything up to the kind byte of the actions tag).
The bytes of the two cached fields have been written to the addresses 0 to 3. -/
def endToEndMidActionsTag : txProcessingContext_t :=
  { state := TLV_TX_ACTIONS
    sha256 := List.replicate 32 171 ++ List.replicate 14 0
    currentFieldLength := 0
    currentFieldPos := 0
    isSequence := true
    processingField := false
    tlvBuffer := [48, 0, 0, 0, 0]
    tlvBufferPos := 1
    workBuffer := []
    tempHeaderValue := [0, 0, 0, 0]
    strayWrites := [(0, 0), (1, 0), (2, 0), (3, 0), (0, 0), (1, 0), (2, 0), (3, 0)] }

/-- The relation between the context given to a scalar consumer and the one it
returns: the state is unchanged while the field is incomplete, and is increased
by one, with `processingField` cleared, when the field is complete. -/
def StepsWhenComplete (c c1 : txProcessingContext_t) : Prop :=
  (c1.state = c.state ∧ c1.currentFieldPos ≠ c1.currentFieldLength) ∨
  (c1.state = c.state + 1 ∧ c1.currentFieldPos = c1.currentFieldLength ∧
    c1.processingField = false)

/-- The width a scalar field must have in each scalar state, as the
specification lists them: 32 for the chain id, 4, 2, 4 and 1 for expiration,
ref-block-num, ref-block-prefix and max-cpu-usage-ms, and the width of
`fc_unsigned_int_t` for max-net-usage-words and delay-sec. -/
def requiredWidth (E : Platform) (state : Nat) : Option Nat :=
  if state = TLV_TX_CHAIN_ID then some 32
  else if state = TLV_TX_HEADER_EXPITATION then some 4
  else if state = TLV_TX_HEADER_REF_BLOCK_NUM then some 2
  else if state = TLV_TX_HEADER_REF_BLOCK_PREFIX then some 4
  else if state = TLV_TX_HEADER_MAX_NET_USAGE_WORDS then some E.sizeof_fc_unsigned_int_t
  else if state = TLV_TX_HEADER_MAX_CPU_USAGE_MS then some 1
  else if state = TLV_TX_HEADER_DELAY_SEC then some E.sizeof_fc_unsigned_int_t
  else none

/-- The kind of tag each non-terminal state requires, as the specification
lists them: a sequence for context-free actions, actions, transaction extensions
and context-free data, a scalar for the chain id and the six header states. -/
def requiresSequence (state : Nat) : Bool :=
  state = TLV_TX_CONTEXT_FREE_ACTIONS ∨ state = TLV_TX_ACTIONS ∨
  state = TLV_TX_TRANSACTION_EXTENSIONS ∨ state = TLV_TX_CONTEXT_FREE_DATA

/-- Successive invocations of `processHeaderField2`, one per chunk of the list,
each with that chunk installed as the unread bytes: the way the bytes of one
cached header field reach the consumer when the field straddles several calls.
`none` when an invocation raises. -/
def feedHeaderField2 (E : Platform) :
    txProcessingContext_t → List (List Nat) → Option txProcessingContext_t
  | c, [] => some c
  | c, w :: ws =>
    match processHeaderField2 E { c with workBuffer := w } with
    | none => none
    | some c1 => feedHeaderField2 E c1 ws

/-- The part of `processChainId` and of `processHeaderField` behind their
checks (lines 52 to 68 and 96 to 112 of the source, which are the same): hash
what is available of the field, and advance the state when the field is
complete. -/
def hashFieldBytes (c : txProcessingContext_t) : txProcessingContext_t :=
  let c1 :=
    if c.currentFieldPos < c.currentFieldLength then
      let length :=
        if c.commandLength < c.currentFieldLength - c.currentFieldPos
        then c.commandLength
        else c.currentFieldLength - c.currentFieldPos
      let c0 := hashTxData c c.workBuffer length
      { c0 with
        workBuffer := c0.workBuffer.drop length
        currentFieldPos := c0.currentFieldPos + length }
    else c
  if c1.currentFieldPos = c1.currentFieldLength then
    { c1 with state := c1.state + 1, processingField := false }
  else c1

/-- The part of `processHeaderField2` behind its checks (lines 130 to 152 of the
source): copy what is available of the field to the address that the value of
`tempHeaderValue` and the position give and, when the field is complete, advance
the state and hash the packed value of `tempHeaderValue`. -/
def cacheFieldBytes (E : Platform) (c : txProcessingContext_t) : txProcessingContext_t :=
  let c1 :=
    if c.currentFieldPos < c.currentFieldLength then
      let length :=
        if c.commandLength < c.currentFieldLength - c.currentFieldPos
        then c.commandLength
        else c.currentFieldLength - c.currentFieldPos
      let fieldByteOffset := loadLE c.tempHeaderValue + c.currentFieldPos
      { c with
        strayWrites := os_memmove c.strayWrites fieldByteOffset (c.workBuffer.take length)
        workBuffer := c.workBuffer.drop length
        currentFieldPos := c.currentFieldPos + length }
    else c
  if c1.currentFieldPos = c1.currentFieldLength then
    let c2 := { c1 with state := c1.state + 1, processingField := false }
    let tmp := E.pack_fc_unsigned_int (loadLE c2.tempHeaderValue)
    hashTxData c2 tmp tmp.length
  else c1

/-- A completed call with `extra` unread bytes behind those its context has. -/
def Completion.extend (r : Completion) (extra : List Nat) : Completion :=
  match r with
  | .returned s c => .returned s (c.extend extra)
  | .raised c => .raised (c.extend extra)

/-- How a consumer `f` behaves when more unread bytes are put behind those of
its context: an exception stays an exception; a normal return either is the
same return with the further bytes left unread, or the consumer had used up all
its bytes without completing the field, and then invoking it again on the
further bytes returns what one invocation on all the bytes returns. -/
def ExtendsWell (f : txProcessingContext_t → Option txProcessingContext_t) : Prop :=
  ∀ (c : txProcessingContext_t) (extra : List Nat),
    (f c = none → f (c.extend extra) = none) ∧
    (∀ c2, f c = some c2 →
      f (c.extend extra) = some (c2.extend extra) ∨
      (c2.workBuffer = [] ∧ c2.state = c.state ∧
        c2.processingField = c.processingField ∧
        ∃ c3, f { c2 with workBuffer := extra } = some c3 ∧
          f (c.extend extra) = some c3))

/-- The consumer the `switch` of `processTxInternal` calls in each state;
`none` for the `default` branch. -/
def selectConsumer (E : Platform) (state : Nat) :
    Option (txProcessingContext_t → Option txProcessingContext_t) :=
  if state = TLV_TX_CHAIN_ID then some processChainId
  else if state = TLV_TX_HEADER_EXPITATION ∨
      state = TLV_TX_HEADER_REF_BLOCK_NUM ∨
      state = TLV_TX_HEADER_REF_BLOCK_PREFIX ∨
      state = TLV_TX_HEADER_MAX_CPU_USAGE_MS then some processHeaderField
  else if state = TLV_TX_HEADER_MAX_NET_USAGE_WORDS ∨
      state = TLV_TX_HEADER_DELAY_SEC then some (processHeaderField2 E)
  else if state = TLV_TX_CONTEXT_FREE_ACTIONS then some (processCtxFreeActions E)
  else if state = TLV_TX_ACTIONS then some processActions
  else if state = TLV_TX_TRANSACTION_EXTENSIONS then some (processTxExtensions E)
  else if state = TLV_TX_CONTEXT_FREE_DATA then some processCtxFreeData
  else none

/-- The byte string `t` is a tag that declares the length `len` and the kind
`seq` (`true` for a sequence): it fits the scratch buffer, `tlvTryDecode` reports
every proper beginning of it valid and not yet decodable, and reports `t`
itself valid and decoded, writing `len` and `seq` through its pointers. -/
def IsTag (E : Platform) (t : List Nat) (len : Nat) (seq : Bool) : Prop :=
  t ≠ [] ∧ t.length ≤ E.sizeof_tlvBuffer ∧ t.length < 4294967296 ∧
  (∀ k, k < t.length → 0 < k →
    (E.tlvTryDecode (t.take k)).valid = true ∧
    (E.tlvTryDecode (t.take k)).decoded = false) ∧
  E.tlvTryDecode t = ⟨true, true, some len, some seq⟩

/-- Whether a byte string is a tag can be computed. -/
instance instDecidableIsTag (E : Platform) (t : List Nat) (len : Nat) (seq : Bool) :
    Decidable (IsTag E t len seq) := by
  unfold IsTag
  infer_instance

/-- A context between two fields: no field in progress, no tag byte pending, and
the scratch buffer and the cached scalar of the sizes the platform gives them. -/
def AwaitingTag (E : Platform) (c : txProcessingContext_t) : Prop :=
  c.processingField = false ∧ c.tlvBufferPos = 0 ∧
  c.tlvBuffer.length = E.sizeof_tlvBuffer ∧
  c.tempHeaderValue.length = E.sizeof_fc_unsigned_int_t

/-- What a run of statements leaves: the context as written so far, and whether
the run ended in `THROW`.  An exception does not undo the writes made before
it. -/
structure Exec where
  c : txProcessingContext_t
  thrown : Bool
  deriving DecidableEq, Repr

/-- The statement `THROW(EXCEPTION)`: the context stays as it is at that point. -/
def THROW (c : txProcessingContext_t) : Exec :=
  ⟨c, true⟩

/-- A statement that writes to the context and goes on. -/
def assign (f : txProcessingContext_t → txProcessingContext_t)
    (c : txProcessingContext_t) : Exec :=
  ⟨f c, false⟩

/-- The sequence `s; t`: `t` runs on what `s` left, unless `s` threw. -/
def andThen (s t : txProcessingContext_t → Exec) (c : txProcessingContext_t) : Exec :=
  match s c with
  | ⟨c1, true⟩ => ⟨c1, true⟩
  | ⟨c1, false⟩ => t c1

/-- The statement `if (cond) s`. -/
def ifThen (cond : txProcessingContext_t → Bool) (s : txProcessingContext_t → Exec)
    (c : txProcessingContext_t) : Exec :=
  if cond c then s c else ⟨c, false⟩

/-- The body of `processChainId` (lines 42 to 68), statement by statement. -/
def processChainId_stmts : txProcessingContext_t → Exec :=
  andThen (ifThen (fun c => c.isSequence) THROW) <|
  andThen (ifThen (fun c => decide (sizeof_chain_id_t ≠ c.currentFieldLength)) THROW) <|
  andThen (ifThen (fun c => decide (c.currentFieldPos < c.currentFieldLength)) fun c =>
    let length :=
      if c.commandLength < c.currentFieldLength - c.currentFieldPos
      then c.commandLength
      else c.currentFieldLength - c.currentFieldPos
    (andThen (assign fun c => hashTxData c c.workBuffer length) <|
     andThen (assign fun c => { c with workBuffer := c.workBuffer.drop length }) <|
     assign fun c => { c with currentFieldPos := c.currentFieldPos + length }) c) <|
  ifThen (fun c => decide (c.currentFieldPos = c.currentFieldLength)) <|
    andThen (assign fun c => { c with state := c.state + 1 }) <|
    assign fun c => { c with processingField := false }

/-- The body of `processHeaderField` (lines 75 to 112), statement by statement. -/
def processHeaderField_stmts : txProcessingContext_t → Exec :=
  andThen (ifThen (fun c => c.isSequence) THROW) <|
  andThen (ifThen (fun c => decide ((c.state = TLV_TX_HEADER_EXPITATION ∨
      c.state = TLV_TX_HEADER_REF_BLOCK_PREFIX) ∧
      c.currentFieldLength ≠ sizeof_uint32_t)) THROW) <|
  andThen (ifThen (fun c => decide (c.state = TLV_TX_HEADER_REF_BLOCK_NUM ∧
      c.currentFieldLength ≠ sizeof_uint16_t)) THROW) <|
  andThen (ifThen (fun c => decide (c.state = TLV_TX_HEADER_MAX_CPU_USAGE_MS ∧
      c.currentFieldLength ≠ sizeof_uint8_t)) THROW) <|
  andThen (ifThen (fun c => decide (c.currentFieldPos < c.currentFieldLength)) fun c =>
    let length :=
      if c.commandLength < c.currentFieldLength - c.currentFieldPos
      then c.commandLength
      else c.currentFieldLength - c.currentFieldPos
    (andThen (assign fun c => hashTxData c c.workBuffer length) <|
     andThen (assign fun c => { c with workBuffer := c.workBuffer.drop length }) <|
     assign fun c => { c with currentFieldPos := c.currentFieldPos + length }) c) <|
  ifThen (fun c => decide (c.currentFieldPos = c.currentFieldLength)) <|
    andThen (assign fun c => { c with state := c.state + 1 }) <|
    assign fun c => { c with processingField := false }

/-- The body of `processHeaderField2` (lines 119 to 152), statement by
statement. -/
def processHeaderField2_stmts (E : Platform) : txProcessingContext_t → Exec :=
  andThen (ifThen (fun c => c.isSequence) THROW) <|
  andThen (ifThen (fun c => decide ((c.state = TLV_TX_HEADER_MAX_NET_USAGE_WORDS ∨
      c.state = TLV_TX_HEADER_DELAY_SEC) ∧
      c.currentFieldLength ≠ E.sizeof_fc_unsigned_int_t)) THROW) <|
  andThen (ifThen (fun c => decide (c.currentFieldPos < c.currentFieldLength)) fun c =>
    let length :=
      if c.commandLength < c.currentFieldLength - c.currentFieldPos
      then c.commandLength
      else c.currentFieldLength - c.currentFieldPos
    let fieldByteOffset := loadLE c.tempHeaderValue + c.currentFieldPos
    (andThen (assign fun c => { c with
        strayWrites :=
          os_memmove c.strayWrites fieldByteOffset (c.workBuffer.take length) }) <|
     andThen (assign fun c => { c with workBuffer := c.workBuffer.drop length }) <|
     assign fun c => { c with currentFieldPos := c.currentFieldPos + length }) c) <|
  ifThen (fun c => decide (c.currentFieldPos = c.currentFieldLength)) <|
    andThen (assign fun c => { c with state := c.state + 1 }) <|
    andThen (assign fun c => { c with processingField := false }) fun c =>
      let tmp := E.pack_fc_unsigned_int (loadLE c.tempHeaderValue)
      assign (fun c => hashTxData c tmp tmp.length) c

/-- The body of `processCtxFreeActions` (lines 161 to 177), statement by
statement. -/
def processCtxFreeActions_stmts (E : Platform) : txProcessingContext_t → Exec :=
  andThen (ifThen (fun c => !c.isSequence) THROW) <|
  andThen (ifThen (fun c => decide (c.currentFieldLength ≠ 0)) THROW) <|
  andThen (assign fun c =>
    hashTxData c (E.pack_fc_unsigned_int 0) (E.pack_fc_unsigned_int 0).length) <|
  andThen (assign fun c => { c with state := c.state + 1 }) <|
  assign fun c => { c with processingField := false }

/-- The body of `processTxExtensions` (lines 186 to 202), statement by
statement. -/
def processTxExtensions_stmts (E : Platform) : txProcessingContext_t → Exec :=
  andThen (ifThen (fun c => !c.isSequence) THROW) <|
  andThen (ifThen (fun c => decide (c.currentFieldLength ≠ 0)) THROW) <|
  andThen (assign fun c =>
    hashTxData c (E.pack_fc_unsigned_int 0) (E.pack_fc_unsigned_int 0).length) <|
  andThen (assign fun c => { c with state := c.state + 1 }) <|
  assign fun c => { c with processingField := false }

/-- The body of `processCtxFreeData` (lines 210 to 225), statement by
statement. -/
def processCtxFreeData_stmts : txProcessingContext_t → Exec :=
  andThen (ifThen (fun c => !c.isSequence) THROW) <|
  andThen (ifThen (fun c => decide (c.currentFieldLength ≠ 0)) THROW) <|
  andThen (assign fun c =>
    hashTxData c (List.replicate 32 0) (List.replicate 32 0).length) <|
  andThen (assign fun c => { c with state := c.state + 1 }) <|
  assign fun c => { c with processingField := false }

/-- The body of `processActions` (lines 232 to 240), statement by statement. -/
def processActions_stmts : txProcessingContext_t → Exec :=
  andThen (ifThen (fun c => !c.isSequence) THROW) <|
  ifThen (fun c => decide (c.currentFieldLength ≠ 1)) THROW

/-- What the caller of a consumer gets from a run of its statements: the
context on a normal return, `none` when the run threw. -/
def Exec.result (r : Exec) : Option txProcessingContext_t :=
  if r.thrown then none else some r.c

/-- A context in which the `switch` calls the consumer of the actions: a
sequence tag of count 1 has been decoded and a byte of the chunk is unread. -/
def actionsCountOne : txProcessingContext_t :=
  { initTxContext demoPlatform with
    state := TLV_TX_ACTIONS
    currentFieldLength := 1
    isSequence := true
    processingField := true
    workBuffer := [7] }

/-- Modelled from the spec: the tag decoder `tlvTryDecode` is in `eos_utils.c`,
which is not among the sources.  The specification has the decoder return
`complete=false` while more bytes are needed and has the declared length
recorded on completion of the tag: the decoder writes through its length
pointer only when it reports the tag valid and decoded. -/
def RecordsLengthOnCompletion (E : Platform) : Prop :=
  ∀ bytes : List Nat,
    (E.tlvTryDecode bytes).fieldLength = none ∨
    ((E.tlvTryDecode bytes).valid = true ∧ (E.tlvTryDecode bytes).decoded = true)

/-- The difference of two unsigned 32-bit integers as the machine computes it. -/
def sub32 (a b : Nat) : Nat :=
  (a + 4294967296 - b) % 4294967296

/-- A tag decoder that writes a length before the tag is complete: the tags of
`demoTlvTryDecode`, the length 0 being written when only the kind byte is
there. -/
def eagerTlvTryDecode : List Nat → TlvResult
  | [k] => ⟨false, k = 4 ∨ k = 48, some 0, none⟩
  | [k, n] =>
    if k = 4 then ⟨true, true, some n, some false⟩
    else if k = 48 then ⟨true, true, some n, some true⟩
    else ⟨false, false, none, none⟩
  | _ => ⟨false, false, none, none⟩

/-- The parameters of `demoPlatform` with the decoder `eagerTlvTryDecode`. -/
def eagerPlatform : Platform :=
  { demoPlatform with tlvTryDecode := eagerTlvTryDecode }

/-- The part of `processChainId` and of `processHeaderField` behind their
checks, as `hashFieldBytes`, with the difference
`currentFieldLength - currentFieldPos` computed as the machine computes it on
unsigned 32-bit integers. -/
def hashFieldBytes32 (c : txProcessingContext_t) : txProcessingContext_t :=
  let c1 :=
    if c.currentFieldPos < c.currentFieldLength then
      let length :=
        if c.commandLength < sub32 c.currentFieldLength c.currentFieldPos
        then c.commandLength
        else sub32 c.currentFieldLength c.currentFieldPos
      let c0 := hashTxData c c.workBuffer length
      { c0 with
        workBuffer := c0.workBuffer.drop length
        currentFieldPos := c0.currentFieldPos + length }
    else c
  if c1.currentFieldPos = c1.currentFieldLength then
    { c1 with state := c1.state + 1, processingField := false }
  else c1

/-- The part of `processHeaderField2` behind its checks, as `cacheFieldBytes`,
with the difference `currentFieldLength - currentFieldPos` computed as the
machine computes it on unsigned 32-bit integers. -/
def cacheFieldBytes32 (E : Platform) (c : txProcessingContext_t) : txProcessingContext_t :=
  let c1 :=
    if c.currentFieldPos < c.currentFieldLength then
      let length :=
        if c.commandLength < sub32 c.currentFieldLength c.currentFieldPos
        then c.commandLength
        else sub32 c.currentFieldLength c.currentFieldPos
      let fieldByteOffset := loadLE c.tempHeaderValue + c.currentFieldPos
      { c with
        strayWrites := os_memmove c.strayWrites fieldByteOffset (c.workBuffer.take length)
        workBuffer := c.workBuffer.drop length
        currentFieldPos := c.currentFieldPos + length }
    else c
  if c1.currentFieldPos = c1.currentFieldLength then
    let c2 := { c1 with state := c1.state + 1, processingField := false }
    let tmp := E.pack_fc_unsigned_int (loadLE c2.tempHeaderValue)
    hashTxData c2 tmp tmp.length
  else c1

/-- A context in the middle of a scalar field: a field is in progress in a
scalar state, its tag has the kind and the width the state requires, and not
all of its bytes have been read. -/
def MidField (E : Platform) (c : txProcessingContext_t) : Prop :=
  c.processingField = true ∧ c.isSequence = false ∧
  requiredWidth E c.state = some c.currentFieldLength ∧
  c.currentFieldPos < c.currentFieldLength

/-- A context in the middle of a tag, or before its first byte: no field is in
progress, the state is not the terminal one, and the tag bytes read so far (the
first `tlvBufferPos` bytes of the scratch array) have not filled the array. -/
def MidTag (E : Platform) (c : txProcessingContext_t) : Prop :=
  c.processingField = false ∧ c.state ≠ TLV_TX_DONE ∧
  c.tlvBuffer.length = E.sizeof_tlvBuffer ∧ c.tlvBufferPos < E.sizeof_tlvBuffer

/-- The bytes `bytes`, read behind the tag bytes `acc`, do not fill the scratch
buffer, and after each of them `tlvTryDecode` reports the tag valid and not yet
decodable. -/
def TagStaysPending (E : Platform) (acc bytes : List Nat) : Prop :=
  acc.length + bytes.length < E.sizeof_tlvBuffer ∧
  ∀ k, 0 < k → k ≤ bytes.length →
    (E.tlvTryDecode (acc ++ bytes.take k)).valid = true ∧
    (E.tlvTryDecode (acc ++ bytes.take k)).decoded = false

/-- The consumer of the bytes of a scalar field behind its checks: the cached
one in the two cached header states, the hashing one in the other scalar
states. -/
def consumeFieldBytes (E : Platform) (c : txProcessingContext_t) : txProcessingContext_t :=
  if c.state = TLV_TX_HEADER_MAX_NET_USAGE_WORDS ∨ c.state = TLV_TX_HEADER_DELAY_SEC
  then cacheFieldBytes E c else hashFieldBytes c

/-- The context an outcome of the tag loop carries. -/
def TlvLoop.ctx : TlvLoop → txProcessingContext_t
  | .fault c => c
  | .raised c => c
  | .decoded c => c
  | .pending c => c

/-- The context a completed call carries. -/
def Completion.ctx : Completion → txProcessingContext_t
  | .returned _ c => c
  | .raised c => c

/-- The status `parseTx` hands to its caller for a completed call. -/
def Completion.status : Completion → parserStatus_e
  | .returned s _ => s
  | .raised _ => STREAM_FAULT

/-- The context an outcome of the loop body carries. -/
def Iteration.ctx : Iteration → txProcessingContext_t
  | .leave r => r.ctx
  | .again c => c

/-! ## General facts about the fuelled driver -/

/-- More fuel does not change a result that has been reached. -/
theorem processTxInternal_fuel_add (E : Platform) (k : Nat) :
    ∀ (fuel : Nat) (c : txProcessingContext_t) (r : Completion),
      processTxInternal E fuel c = some r → processTxInternal E (fuel + k) c = some r := by
  intro fuel
  induction fuel with
  | zero => intro c r h; simp [processTxInternal] at h
  | succ n ih =>
    intro c r h
    have e : n + 1 + k = (n + k) + 1 := by omega
    rw [e]
    simp only [processTxInternal] at h ⊢
    cases hb : loopBody E c with
    | leave r1 => simpa [hb] using h
    | again c1 =>
      rw [hb] at h
      simpa using ih c1 r h

/-- A result reached with some fuel is reached with any larger fuel. -/
theorem processTxInternal_fuel_le (E : Platform) {fuel fuel2 : Nat}
    {c : txProcessingContext_t} {r : Completion} (hle : fuel ≤ fuel2)
    (h : processTxInternal E fuel c = some r) : processTxInternal E fuel2 c = some r := by
  obtain ⟨k, rfl⟩ := Nat.exists_eq_add_of_le hle
  exact processTxInternal_fuel_add E k fuel c r h

/-- The result of the driver does not depend on the fuel that reaches it. -/
theorem processTxInternal_deterministic (E : Platform) {f1 f2 : Nat}
    {c : txProcessingContext_t} {r1 r2 : Completion}
    (h1 : processTxInternal E f1 c = some r1) (h2 : processTxInternal E f2 c = some r2) :
    r1 = r2 := by
  have a := processTxInternal_fuel_le E (Nat.le_max_left f1 f2) h1
  have b := processTxInternal_fuel_le E (Nat.le_max_right f1 f2) h2
  rw [a] at b
  exact Option.some.inj b

/-- A pass of the loop that changes nothing is repeated for ever. -/
theorem processTxInternal_stuck (E : Platform) (c : txProcessingContext_t)
    (h : loopBody E c = .again c) : ∀ fuel, processTxInternal E fuel c = none := by
  intro fuel
  induction fuel with
  | zero => rfl
  | succ n ih => simp [processTxInternal, h, ih]

/-- In state `TLV_TX_ACTIONS`, mid-field with a sequence tag of count 1 and
unread bytes, a pass of the loop leaves the context as it found it. -/
theorem loopBody_actions_fixed (E : Platform) (c : txProcessingContext_t)
    (hs : c.state = TLV_TX_ACTIONS) (hp : c.processingField = true)
    (hq : c.isSequence = true) (hl : c.currentFieldLength = 1)
    (hw : c.workBuffer ≠ []) : loopBody E c = .again c := by
  have hlen : c.workBuffer.length ≠ 0 := by
    simpa [List.length_eq_zero] using hw
  simp [loopBody, loopHead, dispatch, afterConsumer, processActions,
    txProcessingContext_t.commandLength, hs, hp, hq, hl, hlen]

/-! ## What the tag loop and the consumers leave alone -/

/-- The tag loop changes neither the state, nor the hash input, nor
`processingField`, `currentFieldPos` or the cached scalar. -/
theorem tlvDecodeLoop_frame (E : Platform) :
    ∀ (w : List Nat) (c : txProcessingContext_t),
      (tlvDecodeLoop E w c).ctx.state = c.state ∧
      (tlvDecodeLoop E w c).ctx.sha256 = c.sha256 ∧
      (tlvDecodeLoop E w c).ctx.processingField = c.processingField ∧
      (tlvDecodeLoop E w c).ctx.currentFieldPos = c.currentFieldPos ∧
      (tlvDecodeLoop E w c).ctx.tempHeaderValue = c.tempHeaderValue := by
  intro w
  induction w with
  | nil => intro c; simp [tlvDecodeLoop, TlvLoop.ctx]
  | cons b rest ih =>
    intro c
    simp only [tlvDecodeLoop, readTxByte]
    split_ifs
    · simp [TlvLoop.ctx]
    · simp [TlvLoop.ctx]
    · simp [TlvLoop.ctx]
    · refine ⟨?_, ?_, ?_, ?_, ?_⟩
      · rw [(ih _).1]
      · rw [(ih _).2.1]
      · rw [(ih _).2.2.1]
      · rw [(ih _).2.2.2.1]
      · rw [(ih _).2.2.2.2]

/-- A consumer that does not fault leaves the state or adds one to it. -/
theorem processChainId_state {c c1 : txProcessingContext_t}
    (h : processChainId c = some c1) : c1.state = c.state ∨ c1.state = c.state + 1 := by
  unfold processChainId at h
  simp only [hashTxData] at h
  split_ifs at h <;> simp at h <;> subst h <;> simp

/-- A consumer that does not fault leaves the state or adds one to it. -/
theorem processHeaderField_state {c c1 : txProcessingContext_t}
    (h : processHeaderField c = some c1) : c1.state = c.state ∨ c1.state = c.state + 1 := by
  unfold processHeaderField at h
  simp only [hashTxData] at h
  split_ifs at h <;> simp at h <;> subst h <;> simp

/-- A consumer that does not fault leaves the state or adds one to it. -/
theorem processHeaderField2_state (E : Platform) {c c1 : txProcessingContext_t}
    (h : processHeaderField2 E c = some c1) :
    c1.state = c.state ∨ c1.state = c.state + 1 := by
  unfold processHeaderField2 at h
  simp only [hashTxData] at h
  split_ifs at h <;> simp at h <;> subst h <;> simp

/-- The consumer of the context-free actions adds one to the state. -/
theorem processCtxFreeActions_state (E : Platform) {c c1 : txProcessingContext_t}
    (h : processCtxFreeActions E c = some c1) : c1.state = c.state + 1 := by
  unfold processCtxFreeActions at h
  simp only [hashTxData] at h
  split_ifs at h
  simp at h
  subst h
  simp

/-- The consumer of the transaction extensions adds one to the state. -/
theorem processTxExtensions_state (E : Platform) {c c1 : txProcessingContext_t}
    (h : processTxExtensions E c = some c1) : c1.state = c.state + 1 := by
  unfold processTxExtensions at h
  simp only [hashTxData] at h
  split_ifs at h
  simp at h
  subst h
  simp

/-- The consumer of the context-free data adds one to the state. -/
theorem processCtxFreeData_state {c c1 : txProcessingContext_t}
    (h : processCtxFreeData c = some c1) : c1.state = c.state + 1 := by
  unfold processCtxFreeData at h
  simp only [hashTxData] at h
  split_ifs at h
  simp at h
  subst h
  simp

/-- The consumer of the actions returns the context it was given. -/
theorem processActions_eq {c c1 : txProcessingContext_t}
    (h : processActions c = some c1) : c1 = c := by
  unfold processActions at h
  split_ifs at h
  simp at h
  subst h
  rfl

/-- The numeric values of the states, for arithmetic on them. -/
theorem state_values :
    TLV_TX_CHAIN_ID = 0 ∧ TLV_TX_HEADER_EXPITATION = 1 ∧
    TLV_TX_HEADER_REF_BLOCK_NUM = 2 ∧ TLV_TX_HEADER_REF_BLOCK_PREFIX = 3 ∧
    TLV_TX_HEADER_MAX_NET_USAGE_WORDS = 4 ∧ TLV_TX_HEADER_MAX_CPU_USAGE_MS = 5 ∧
    TLV_TX_HEADER_DELAY_SEC = 6 ∧ TLV_TX_CONTEXT_FREE_ACTIONS = 7 ∧
    TLV_TX_ACTIONS = 8 ∧ TLV_TX_TRANSACTION_EXTENSIONS = 9 ∧
    TLV_TX_CONTEXT_FREE_DATA = 10 ∧ TLV_TX_DONE = 11 :=
  ⟨rfl, rfl, rfl, rfl, rfl, rfl, rfl, rfl, rfl, rfl, rfl, rfl⟩

/-- The loop body goes round again after a consumer exactly when the consumer
did not fault. -/
theorem afterConsumer_again {c c1 : txProcessingContext_t}
    {o : Option txProcessingContext_t} :
    afterConsumer c o = .again c1 ↔ o = some c1 := by
  cases o <;> simp [afterConsumer]

/-- The loop body is left after a consumer exactly when the consumer faulted,
and then with the context the consumer was given. -/
theorem afterConsumer_leave {c : txProcessingContext_t}
    {o : Option txProcessingContext_t} {r : Completion} :
    afterConsumer c o = .leave r ↔ o = none ∧ r = .raised c := by
  cases o <;> simp [afterConsumer, eq_comm]

/-- What the dispatch of a pass that goes round again does to the state. -/
theorem dispatch_again_state (E : Platform) {c c1 : txProcessingContext_t}
    (h : dispatch E c = .again c1) :
    c.state ≤ TLV_TX_CONTEXT_FREE_DATA ∧
    (c1.state = c.state ∨ c1.state = c.state + 1) ∧
    (c.state = TLV_TX_ACTIONS → c1 = c) := by
  have sv := state_values
  unfold dispatch at h
  split_ifs at h with h0 h1 h2 h3 h4 h5 h6
  · rw [afterConsumer_again] at h
    exact ⟨by omega, processChainId_state h, by omega⟩
  · rw [afterConsumer_again] at h
    exact ⟨by omega, processHeaderField_state h, by omega⟩
  · rw [afterConsumer_again] at h
    exact ⟨by omega, processHeaderField2_state E h, by omega⟩
  · rw [afterConsumer_again] at h
    exact ⟨by omega, Or.inr (processCtxFreeActions_state E h), by omega⟩
  · rw [afterConsumer_again] at h
    exact ⟨by omega, Or.inl (by rw [processActions_eq h]), fun _ => processActions_eq h⟩
  · rw [afterConsumer_again] at h
    exact ⟨by omega, Or.inr (processTxExtensions_state E h), by omega⟩
  · rw [afterConsumer_again] at h
    exact ⟨by omega, Or.inr (processCtxFreeData_state h), by omega⟩

/-- A dispatch that leaves the loop does so with a fault, and with the context
it was given. -/
theorem dispatch_leave (E : Platform) {c : txProcessingContext_t} {r : Completion}
    (h : dispatch E c = .leave r) : r.ctx = c ∧ r.status = STREAM_FAULT := by
  unfold dispatch at h
  split_ifs at h
  all_goals first
    | (rw [afterConsumer_leave] at h
       obtain ⟨_, rfl⟩ := h
       exact ⟨rfl, rfl⟩)
    | (simp at h
       subst h
       exact ⟨rfl, rfl⟩)

/-- When the head of the loop body reaches the `switch`, the call is not in
`TLV_TX_DONE`, the chunk is not empty, a field is in progress, and state, hash
input and cached scalar are as they were. -/
theorem loopHead_again (E : Platform) {c c1 : txProcessingContext_t}
    (h : loopHead E c = .again c1) :
    c.state ≠ TLV_TX_DONE ∧ c.workBuffer ≠ [] ∧ c1.processingField = true ∧
    c1.state = c.state ∧ c1.sha256 = c.sha256 ∧
    c1.tempHeaderValue = c.tempHeaderValue := by
  unfold loopHead at h
  split_ifs at h with h0 h1 h2
  · have hw : c.workBuffer ≠ [] := by
      intro e
      exact h1 (by simp [txProcessingContext_t.commandLength, e])
    have fr := tlvDecodeLoop_frame E c.workBuffer c
    cases hd : tlvDecodeLoop E c.workBuffer c with
    | fault c2 => simp [hd] at h
    | raised c2 => simp [hd] at h
    | pending c2 => simp [hd] at h
    | decoded c2 =>
      rw [hd] at h fr
      simp only [TlvLoop.ctx] at fr
      simp at h
      subst h
      exact ⟨h0, hw, rfl, fr.1, fr.2.1, fr.2.2.2.2⟩
  · have hw : c.workBuffer ≠ [] := by
      intro e
      exact h1 (by simp [txProcessingContext_t.commandLength, e])
    simp at h h2
    subst h
    exact ⟨h0, hw, h2, rfl, rfl, rfl⟩

/-- When the head of the loop body ends the call, state, hash input and cached
scalar are as they were, and the status is `STREAM_FINISHED` in state
`TLV_TX_DONE` only. -/
theorem loopHead_leave (E : Platform) {c : txProcessingContext_t} {r : Completion}
    (h : loopHead E c = .leave r) :
    r.ctx.state = c.state ∧ r.ctx.sha256 = c.sha256 ∧
    r.ctx.tempHeaderValue = c.tempHeaderValue ∧
    (r.status = STREAM_FINISHED → c.state = TLV_TX_DONE) := by
  unfold loopHead at h
  split_ifs at h with h0 h1 h2
  · simp at h; subst h; exact ⟨rfl, rfl, rfl, fun _ => h0⟩
  · simp at h; subst h; exact ⟨rfl, rfl, rfl, fun hf => by simp [Completion.status] at hf⟩
  · have fr := tlvDecodeLoop_frame E c.workBuffer c
    cases hd : tlvDecodeLoop E c.workBuffer c with
    | fault c2 =>
      rw [hd] at fr h
      simp at h
      subst h
      exact ⟨fr.1, fr.2.1, fr.2.2.2.2, fun hf => by simp [Completion.status] at hf⟩
    | raised c2 =>
      rw [hd] at fr h
      simp at h
      subst h
      exact ⟨fr.1, fr.2.1, fr.2.2.2.2, fun hf => by simp [Completion.status] at hf⟩
    | pending c2 =>
      rw [hd] at fr h
      simp at h
      subst h
      exact ⟨fr.1, fr.2.1, fr.2.2.2.2, fun hf => by simp [Completion.status] at hf⟩
    | decoded c2 => simp [hd] at h

/-- The loop body in terms of its head: it goes round again exactly when the
head reaches the `switch` and the consumer does not fault. -/
theorem loopBody_again_iff (E : Platform) {c c2 : txProcessingContext_t} :
    loopBody E c = .again c2 ↔
      ∃ c1, loopHead E c = .again c1 ∧ dispatch E c1 = .again c2 := by
  unfold loopBody
  cases loopHead E c with
  | leave r => simp
  | again c1 => simp

/-- The loop body in terms of its head: it ends the call when the head does, or
when the `switch` does. -/
theorem loopBody_leave_iff (E : Platform) {c : txProcessingContext_t} {r : Completion} :
    loopBody E c = .leave r ↔
      loopHead E c = .leave r ∨
      ∃ c1, loopHead E c = .again c1 ∧ dispatch E c1 = .leave r := by
  unfold loopBody
  cases loopHead E c with
  | leave r1 => simp
  | again c1 => simp

/-- A pass of the loop that goes round again started below `TLV_TX_DONE`, has
added at most one to the state, and has left state `TLV_TX_ACTIONS` as it was. -/
theorem loopBody_again_state (E : Platform) {c c1 : txProcessingContext_t}
    (h : loopBody E c = .again c1) :
    c.state < TLV_TX_DONE ∧
    (c1.state = c.state ∨ c1.state = c.state + 1) ∧
    (c.state = TLV_TX_ACTIONS → c1.state = TLV_TX_ACTIONS) := by
  have sv := state_values
  obtain ⟨c0, hh, hd⟩ := (loopBody_again_iff E).1 h
  have a := loopHead_again E hh
  have d := dispatch_again_state E hd
  rw [a.2.2.2.1] at d
  refine ⟨by omega, d.2.1, ?_⟩
  intro hs
  rw [d.2.2 hs, a.2.2.2.1]
  exact hs

/-- A pass that leaves the loop has not changed the state. -/
theorem loopBody_leave_state (E : Platform) {c : txProcessingContext_t} {r : Completion}
    (h : loopBody E c = .leave r) : r.ctx.state = c.state := by
  rcases (loopBody_leave_iff E).1 h with hh | ⟨c1, hh, hd⟩
  · exact (loopHead_leave E hh).1
  · rw [(dispatch_leave E hd).1]
    exact (loopHead_again E hh).2.2.2.1

/-- The loop is left with `STREAM_FINISHED` only in state `TLV_TX_DONE`. -/
theorem loopBody_leave_finished (E : Platform) {c : txProcessingContext_t}
    {r : Completion} (h : loopBody E c = .leave r) (hf : r.status = STREAM_FINISHED) :
    c.state = TLV_TX_DONE := by
  rcases (loopBody_leave_iff E).1 h with hh | ⟨c1, hh, hd⟩
  · exact (loopHead_leave E hh).2.2.2 hf
  · rw [(dispatch_leave E hd).2] at hf
    cases hf

/-- Over a whole run of the loop the state does not decrease, stays at or below
`TLV_TX_DONE` if it started there, stays at or below `TLV_TX_ACTIONS` if it
started there, and `STREAM_FINISHED` is returned in state `TLV_TX_DONE` only. -/
theorem processTxInternal_state (E : Platform) :
    ∀ (fuel : Nat) (c : txProcessingContext_t) (r : Completion),
      processTxInternal E fuel c = some r →
      c.state ≤ r.ctx.state ∧
      (c.state ≤ TLV_TX_DONE → r.ctx.state ≤ TLV_TX_DONE) ∧
      (c.state ≤ TLV_TX_ACTIONS → r.ctx.state ≤ TLV_TX_ACTIONS) ∧
      (r.status = STREAM_FINISHED → r.ctx.state = TLV_TX_DONE) := by
  have sv := state_values
  intro fuel
  induction fuel with
  | zero => intro c r h; simp [processTxInternal] at h
  | succ n ih =>
    intro c r h
    simp only [processTxInternal] at h
    cases hb : loopBody E c with
    | leave r1 =>
      rw [hb] at h
      simp at h
      subst h
      have e := loopBody_leave_state E hb
      refine ⟨by omega, by omega, by omega, ?_⟩
      intro hf
      rw [e]
      exact loopBody_leave_finished E hb hf
    | again c1 =>
      rw [hb] at h
      simp only at h
      have a := loopBody_again_state E hb
      have i := ih c1 r h
      refine ⟨by omega, ?_, ?_, i.2.2.2⟩
      · intro _
        exact i.2.1 (by omega)
      · intro hle
        apply i.2.2.1
        rcases Nat.lt_or_eq_of_le hle with hlt | heq
        · omega
        · have := a.2.2 heq
          omega

/-- What `parseTx` returns, in terms of the run of the loop. -/
theorem parseTx_eq_some (E : Platform) {fuel : Nat} {c c1 : txProcessingContext_t}
    {buffer : List Nat} {s : parserStatus_e} :
    parseTx E fuel c buffer = some (s, c1) ↔
      ∃ r, processTxInternal E fuel { c with workBuffer := buffer } = some r ∧
        r.status = s ∧ r.ctx = c1 := by
  unfold parseTx
  cases h : processTxInternal E fuel { c with workBuffer := buffer } with
  | none => simp
  | some r =>
    cases r with
    | returned s1 c2 => simp [Completion.status, Completion.ctx]
    | raised c2 => simp [Completion.status, Completion.ctx, eq_comm]

/-- A call of `parseTx` does not return exactly when the loop does not come to
an end. -/
theorem parseTx_eq_none (E : Platform) {fuel : Nat} {c : txProcessingContext_t}
    {buffer : List Nat} :
    parseTx E fuel c buffer = none ↔
      processTxInternal E fuel { c with workBuffer := buffer } = none := by
  unfold parseTx
  cases h : processTxInternal E fuel { c with workBuffer := buffer } with
  | none => simp
  | some r => cases r <;> simp

/-- The state facts of `processTxInternal_state`, for one call of `parseTx`. -/
theorem parseTx_state (E : Platform) {fuel : Nat} {c c1 : txProcessingContext_t}
    {buffer : List Nat} {s : parserStatus_e} (h : parseTx E fuel c buffer = some (s, c1)) :
    c.state ≤ c1.state ∧
    (c.state ≤ TLV_TX_DONE → c1.state ≤ TLV_TX_DONE) ∧
    (c.state ≤ TLV_TX_ACTIONS → c1.state ≤ TLV_TX_ACTIONS) ∧
    (s = STREAM_FINISHED → c1.state = TLV_TX_DONE) := by
  obtain ⟨r, hr, rfl, rfl⟩ := (parseTx_eq_some E).1 h
  have key := processTxInternal_state E fuel _ r hr
  exact key

/-- Calls of `parseTx` that start at or below `TLV_TX_ACTIONS` stay there and
never return `STREAM_FINISHED`. -/
theorem feedChunks_below_actions (E : Platform) (fuel : Nat) :
    ∀ (chunks : List (List Nat)) (c c1 : txProcessingContext_t)
      (statuses : List parserStatus_e),
      c.state ≤ TLV_TX_ACTIONS →
      feedChunks E fuel c chunks = some (statuses, c1) →
      c1.state ≤ TLV_TX_ACTIONS ∧ STREAM_FINISHED ∉ statuses := by
  have sv := state_values
  intro chunks
  induction chunks with
  | nil =>
    intro c c1 statuses hle h
    simp [feedChunks] at h
    obtain ⟨rfl, rfl⟩ := h
    exact ⟨hle, by simp⟩
  | cons b more ih =>
    intro c c1 statuses hle h
    simp only [feedChunks] at h
    cases hp : parseTx E fuel c b with
    | none => simp [hp] at h
    | some p =>
      obtain ⟨s, c2⟩ := p
      rw [hp] at h
      simp only at h
      cases hm : feedChunks E fuel c2 more with
      | none => simp [hm] at h
      | some q =>
        obtain ⟨ss, c3⟩ := q
        rw [hm] at h
        simp at h
        obtain ⟨rfl, rfl⟩ := h
        have st := parseTx_state E hp
        have i := ih c2 c3 ss (st.2.2.1 hle) hm
        refine ⟨i.1, ?_⟩
        intro hmem
        rcases List.mem_cons.1 hmem with heq | hin
        · have := st.2.2.2 heq.symm
          have := st.2.2.1 hle
          omega
        · exact i.2 hin

/-- More fuel does not change what a call of `parseTx` has returned. -/
theorem parseTx_fuel_le (E : Platform) {fuel fuel2 : Nat} {c : txProcessingContext_t}
    {buffer : List Nat} {p : parserStatus_e × txProcessingContext_t}
    (hle : fuel ≤ fuel2) (h : parseTx E fuel c buffer = some p) :
    parseTx E fuel2 c buffer = some p := by
  obtain ⟨s, c1⟩ := p
  obtain ⟨r, hr, hs, hc⟩ := (parseTx_eq_some E).1 h
  exact (parseTx_eq_some E).2 ⟨r, processTxInternal_fuel_le E hle hr, hs, hc⟩

/-- More fuel does not change what a sequence of calls has returned. -/
theorem feedChunks_fuel_le (E : Platform) {fuel fuel2 : Nat} (hle : fuel ≤ fuel2) :
    ∀ (chunks : List (List Nat)) (c : txProcessingContext_t)
      (q : List parserStatus_e × txProcessingContext_t),
      feedChunks E fuel c chunks = some q → feedChunks E fuel2 c chunks = some q := by
  intro chunks
  induction chunks with
  | nil => intro c q h; simpa [feedChunks] using h
  | cons b more ih =>
    intro c q h
    simp only [feedChunks] at h ⊢
    cases hp : parseTx E fuel c b with
    | none => simp [hp] at h
    | some p =>
      obtain ⟨s, c2⟩ := p
      rw [hp] at h
      rw [parseTx_fuel_le E hle hp]
      simp only at h ⊢
      cases hm : feedChunks E fuel c2 more with
      | none => simp [hm] at h
      | some q2 =>
        rw [hm] at h
        rw [ih c2 q2 hm]
        exact h

/-- Feeding two lists of chunks one after the other. -/
theorem feedChunks_append (E : Platform) (fuel : Nat) :
    ∀ (xs ys : List (List Nat)) (c : txProcessingContext_t),
      feedChunks E fuel c (xs ++ ys) =
        match feedChunks E fuel c xs with
        | none => none
        | some (ss, c1) =>
          match feedChunks E fuel c1 ys with
          | none => none
          | some (ss2, c2) => some (ss ++ ss2, c2) := by
  intro xs
  induction xs with
  | nil =>
    intro ys c
    simp only [List.nil_append, feedChunks]
    cases feedChunks E fuel c ys with
    | none => rfl
    | some q => simp
  | cons b more ih =>
    intro ys c
    simp only [List.cons_append, feedChunks]
    cases parseTx E fuel c b with
    | none => rfl
    | some p =>
      obtain ⟨s, c2⟩ := p
      simp only [List.append_eq]
      rw [ih ys c2]
      cases feedChunks E fuel c2 more with
      | none => rfl
      | some q =>
        obtain ⟨ss, c3⟩ := q
        simp only
        cases feedChunks E fuel c3 ys with
        | none => rfl
        | some q2 => simp

/-! ## C1 and C2: the Actions consumer never completes its field -/

/-- C1, decided against the code: `parseTx` is not total.  In state
`TLV_TX_ACTIONS` with `processingField = true`, `isSequence = true`,
`currentFieldLength = 1` and a chunk that is not empty, no amount of fuel makes
the call return (`processActions` neither reads a byte nor advances the state
nor clears `processingField`, so the `for(;;)` loop repeats the same pass); and
such a context is what the parser is in after the stream of the spec up to and
including the actions tag. -/
theorem parseTx_not_total_in_actions :
    (∀ (E : Platform) (fuel : Nat) (c : txProcessingContext_t) (b : Nat)
        (rest : List Nat),
      parseTx E fuel
        { c with
          state := TLV_TX_ACTIONS
          processingField := true
          isSequence := true
          currentFieldLength := 1 } (b :: rest) = none) ∧
    (∃ c : txProcessingContext_t,
      parseTx demoPlatform 20 (initTxContext demoPlatform) (endToEndStream.take 69) =
        some (STREAM_PROCESSING, c) ∧
      c.state = TLV_TX_ACTIONS ∧ c.processingField = true ∧ c.isSequence = true ∧
      c.currentFieldLength = 1 ∧
      ∀ (fuel : Nat) (b : Nat) (rest : List Nat),
        parseTx demoPlatform fuel c (b :: rest) = none) := by
  have general : ∀ (E : Platform) (fuel : Nat) (c : txProcessingContext_t) (b : Nat)
      (rest : List Nat),
      parseTx E fuel
        { c with
          state := TLV_TX_ACTIONS
          processingField := true
          isSequence := true
          currentFieldLength := 1 } (b :: rest) = none := by
    intro E fuel c b rest
    rw [parseTx_eq_none]
    exact processTxInternal_stuck E _
      (loopBody_actions_fixed E _ rfl rfl rfl rfl (by simp)) fuel
  refine ⟨general, ?_⟩
  have e : (parseTx demoPlatform 20 (initTxContext demoPlatform)
      (endToEndStream.take 69)).map
        (fun r => (r.1, r.2.state, r.2.processingField, r.2.isSequence,
          r.2.currentFieldLength)) =
      some (STREAM_PROCESSING, TLV_TX_ACTIONS, true, true, 1) := by decide
  cases h : parseTx demoPlatform 20 (initTxContext demoPlatform) (endToEndStream.take 69) with
  | none => rw [h] at e; simp at e
  | some p =>
    obtain ⟨s, c⟩ := p
    have hs : s = STREAM_PROCESSING ∧ c.state = TLV_TX_ACTIONS ∧
        c.processingField = true ∧ c.isSequence = true ∧ c.currentFieldLength = 1 := by
      rw [h] at e
      simpa using e
    obtain ⟨rfl, h1, h2, h3, h4⟩ := hs
    refine ⟨c, rfl, h1, h2, h3, h4, ?_⟩
    intro fuel b rest
    have g := general demoPlatform fuel c b rest
    have e : ({ c with
          state := TLV_TX_ACTIONS
          processingField := true
          isSequence := true
          currentFieldLength := 1 } : txProcessingContext_t) = c := by
      cases c
      simp at h1 h2 h3 h4
      simp [h1, h2, h3, h4]
    rw [e] at g
    exact g

/-- C2, decided against the code: the end-to-end stream of the spec never
reaches `TLV_TX_DONE`.  Fed in 2-byte chunks from the initial context, its first
34 calls return `STREAM_PROCESSING` and leave the parser in `TLV_TX_ACTIONS`;
the 35th call (the count byte 1 of the actions tag and the byte after it) does
not return, whatever the fuel.  More generally, from the initial context no
sequence of chunks makes any call return `STREAM_FINISHED`, and the state stays
at or below `TLV_TX_ACTIONS`. -/
theorem endToEnd_never_finished :
    feedChunks demoPlatform 4 (initTxContext demoPlatform)
        (chunksOf 1 34 endToEndStream) =
      some (List.replicate 34 STREAM_PROCESSING, endToEndMidActionsTag) ∧
    (∀ fuel : Nat,
      feedChunks demoPlatform fuel (initTxContext demoPlatform)
        (chunksOf 1 37 endToEndStream) = none) ∧
    (∀ (E : Platform) (fuel : Nat) (chunks : List (List Nat))
        (statuses : List parserStatus_e) (c : txProcessingContext_t),
      feedChunks E fuel (initTxContext E) chunks = some (statuses, c) →
      STREAM_FINISHED ∉ statuses ∧ c.state ≤ TLV_TX_ACTIONS ∧ c.state ≠ TLV_TX_DONE) := by
  have first : feedChunks demoPlatform 4 (initTxContext demoPlatform)
      (chunksOf 1 34 endToEndStream) =
      some (List.replicate 34 STREAM_PROCESSING, endToEndMidActionsTag) := by decide
  refine ⟨first, ?_, ?_⟩
  · intro fuel
    have cut : chunksOf 1 37 endToEndStream =
        chunksOf 1 34 endToEndStream ++ [[1, 48], [0, 48], [0]] := by decide
    rw [cut, feedChunks_append]
    cases h : feedChunks demoPlatform fuel (initTxContext demoPlatform)
        (chunksOf 1 34 endToEndStream) with
    | none => rfl
    | some q =>
      have h4 := feedChunks_fuel_le demoPlatform (Nat.le_max_left fuel 4) _ _ _ h
      have h5 := feedChunks_fuel_le demoPlatform (Nat.le_max_right fuel 4) _ _ _ first
      rw [h4] at h5
      cases Option.some.inj h5
      have stuck : parseTx demoPlatform fuel endToEndMidActionsTag [1, 48] = none := by
        rw [parseTx_eq_none]
        cases fuel with
        | zero => rfl
        | succ n =>
          have step : loopBody demoPlatform
              { endToEndMidActionsTag with workBuffer := [1, 48] } =
              .again { endToEndMidActionsTag with
                currentFieldLength := 1
                processingField := true
                tlvBuffer := [48, 1, 0, 0, 0]
                tlvBufferPos := 0
                workBuffer := [48] } := by decide
          simp only [processTxInternal, step]
          exact processTxInternal_stuck demoPlatform _
            (loopBody_actions_fixed demoPlatform _ rfl rfl rfl rfl (by decide)) n
      simp [feedChunks, stuck]
  · intro E fuel chunks statuses c h
    have sv := state_values
    have k := feedChunks_below_actions E fuel chunks (initTxContext E) c statuses
      (by simp [initTxContext]) h
    exact ⟨k.2, k.1, by omega⟩

/-! ## C6: the state only moves forward, one step per completed field -/

/-- The chain-id consumer advances the state exactly when the field is complete. -/
theorem processChainId_steps {c c1 : txProcessingContext_t}
    (h : processChainId c = some c1) : StepsWhenComplete c c1 := by
  unfold processChainId at h
  simp only [hashTxData] at h
  unfold StepsWhenComplete
  split_ifs at h <;> simp at h <;> subst h <;> simp_all

/-- The direct header consumer advances the state exactly when the field is
complete. -/
theorem processHeaderField_steps {c c1 : txProcessingContext_t}
    (h : processHeaderField c = some c1) : StepsWhenComplete c c1 := by
  unfold processHeaderField at h
  simp only [hashTxData] at h
  unfold StepsWhenComplete
  split_ifs at h <;> simp at h <;> subst h <;> simp_all

/-- The cached header consumer advances the state exactly when the field is
complete. -/
theorem processHeaderField2_steps (E : Platform) {c c1 : txProcessingContext_t}
    (h : processHeaderField2 E c = some c1) : StepsWhenComplete c c1 := by
  unfold processHeaderField2 at h
  simp only [hashTxData] at h
  unfold StepsWhenComplete
  split_ifs at h <;> simp at h <;> subst h <;> simp_all

/-- C6: state monotonicity.  Every field consumer that does not fault leaves
the state unchanged or increases it by exactly one, and increases it only when
the field is complete (a scalar field has `currentFieldPos = currentFieldLength`;
a sequence has the declared count 0; the Actions consumer never advances).  Each
pass of the driver loop therefore adds at most one to the state, and only below
`TLV_TX_DONE`; over a call of `parseTx` the final state is at least the initial
one and does not exceed `TLV_TX_DONE` if the initial one did not. -/
theorem state_monotone (E : Platform) :
    (∀ c c1, processChainId c = some c1 → StepsWhenComplete c c1) ∧
    (∀ c c1, processHeaderField c = some c1 → StepsWhenComplete c c1) ∧
    (∀ c c1, processHeaderField2 E c = some c1 → StepsWhenComplete c c1) ∧
    (∀ c c1, processCtxFreeActions E c = some c1 →
      c1.state = c.state + 1 ∧ c.currentFieldLength = 0 ∧ c1.processingField = false) ∧
    (∀ c c1, processTxExtensions E c = some c1 →
      c1.state = c.state + 1 ∧ c.currentFieldLength = 0 ∧ c1.processingField = false) ∧
    (∀ c c1, processCtxFreeData c = some c1 →
      c1.state = c.state + 1 ∧ c.currentFieldLength = 0 ∧ c1.processingField = false) ∧
    (∀ c c1, processActions c = some c1 → c1.state = c.state) ∧
    (∀ c c1, loopBody E c = .again c1 →
      c.state < TLV_TX_DONE ∧ (c1.state = c.state ∨ c1.state = c.state + 1)) ∧
    (∀ c r, loopBody E c = .leave r → r.ctx.state = c.state) ∧
    (∀ fuel c buffer s c1, parseTx E fuel c buffer = some (s, c1) →
      c.state ≤ c1.state ∧ (c.state ≤ TLV_TX_DONE → c1.state ≤ TLV_TX_DONE)) := by
  refine ⟨fun _ _ h => processChainId_steps h, fun _ _ h => processHeaderField_steps h,
    fun _ _ h => processHeaderField2_steps E h, ?_, ?_, ?_, ?_, ?_, ?_, ?_⟩
  · intro c c1 h
    unfold processCtxFreeActions at h
    simp only [hashTxData] at h
    split_ifs at h with h0 h1
    simp at h
    subst h
    simp at h1
    simp [h1]
  · intro c c1 h
    unfold processTxExtensions at h
    simp only [hashTxData] at h
    split_ifs at h with h0 h1
    simp at h
    subst h
    simp at h1
    simp [h1]
  · intro c c1 h
    unfold processCtxFreeData at h
    simp only [hashTxData] at h
    split_ifs at h with h0 h1
    simp at h
    subst h
    simp at h1
    simp [h1]
  · intro c c1 h
    rw [processActions_eq h]
  · intro c c1 h
    have a := loopBody_again_state E h
    exact ⟨a.1, a.2.1⟩
  · intro c r h
    exact loopBody_leave_state E h
  · intro fuel c buffer s c1 h
    have a := parseTx_state E h
    exact ⟨a.1, a.2.1⟩

/-! ## C7 to C10: the faults raised by the consumers -/

/-- A call whose first pass through the loop ends it returns at once. -/
theorem parseTx_of_loopBody_leave (E : Platform) (fuel : Nat)
    {c : txProcessingContext_t} {buffer : List Nat} {r : Completion}
    (h : loopBody E { c with workBuffer := buffer } = .leave r) :
    parseTx E (fuel + 1) c buffer = some (r.status, r.ctx) := by
  rw [parseTx_eq_some]
  exact ⟨r, by simp [processTxInternal, h], rfl, rfl⟩

/-- A call whose first pass reaches the `switch` with a context on which the
consumer raises returns `STREAM_FAULT` with that context. -/
theorem parseTx_of_dispatch_raised (E : Platform) (fuel : Nat)
    {c c1 : txProcessingContext_t} {buffer : List Nat}
    (hh : loopHead E { c with workBuffer := buffer } = .again c1)
    (hd : dispatch E c1 = .leave (.raised c1)) :
    parseTx E (fuel + 1) c buffer = some (STREAM_FAULT, c1) := by
  have h : loopBody E { c with workBuffer := buffer } = .leave (.raised c1) :=
    (loopBody_leave_iff E).2 (Or.inr ⟨c1, hh, hd⟩)
  exact parseTx_of_loopBody_leave E fuel h

/-- C7: in the states `TLV_TX_CONTEXT_FREE_ACTIONS`,
`TLV_TX_TRANSACTION_EXTENSIONS` and `TLV_TX_CONTEXT_FREE_DATA`, when the
`switch` is reached with a tag that declares a count other than 0 (`c1` is the
context after the tag has been decoded in this call, or the context of a field
already in progress), `parseTx` returns `STREAM_FAULT`; the state and the hash
input are those of before the call, and the consumer of each of the three
states raises on that context, feeding nothing to the hash. -/
theorem nonzero_count_faults (E : Platform) (fuel : Nat)
    (c c1 : txProcessingContext_t) (buffer : List Nat)
    (hs : c.state = TLV_TX_CONTEXT_FREE_ACTIONS ∨
      c.state = TLV_TX_TRANSACTION_EXTENSIONS ∨ c.state = TLV_TX_CONTEXT_FREE_DATA)
    (hh : loopHead E { c with workBuffer := buffer } = .again c1)
    (hn : c1.currentFieldLength ≠ 0) :
    parseTx E (fuel + 1) c buffer = some (STREAM_FAULT, c1) ∧
    c1.state = c.state ∧ c1.sha256 = c.sha256 ∧
    processCtxFreeActions E c1 = none ∧ processTxExtensions E c1 = none ∧
    processCtxFreeData c1 = none := by
  have a := loopHead_again E hh
  have e1 : c1.state = c.state := a.2.2.2.1
  have n1 : processCtxFreeActions E c1 = none := by
    unfold processCtxFreeActions
    split_ifs <;> simp_all
  have n2 : processTxExtensions E c1 = none := by
    unfold processTxExtensions
    split_ifs <;> simp_all
  have n3 : processCtxFreeData c1 = none := by
    unfold processCtxFreeData
    split_ifs <;> simp_all
  refine ⟨?_, e1, a.2.2.2.2.1, n1, n2, n3⟩
  apply parseTx_of_dispatch_raised E fuel hh
  unfold dispatch
  rw [e1]
  rcases hs with h | h | h
  · simp [h, n1, afterConsumer]
  · simp [h, n2, afterConsumer]
  · simp [h, n3, afterConsumer]

/-- C7 at a concrete input: in state `TLV_TX_CONTEXT_FREE_ACTIONS` the chunk
`[48, 2]` (a sequence tag with count 2) makes `parseTx` return `STREAM_FAULT`. -/
theorem nonzero_count_faults_witness :
    parseTx demoPlatform 1
        { initTxContext demoPlatform with state := TLV_TX_CONTEXT_FREE_ACTIONS } [48, 2] =
      some (STREAM_FAULT,
        { initTxContext demoPlatform with
          state := TLV_TX_CONTEXT_FREE_ACTIONS
          currentFieldLength := 2
          isSequence := true
          processingField := true
          tlvBuffer := [48, 2, 0, 0, 0] }) :=
  (nonzero_count_faults demoPlatform 0
    { initTxContext demoPlatform with state := TLV_TX_CONTEXT_FREE_ACTIONS }
    { initTxContext demoPlatform with
      state := TLV_TX_CONTEXT_FREE_ACTIONS
      currentFieldLength := 2
      isSequence := true
      processingField := true
      tlvBuffer := [48, 2, 0, 0, 0] }
    [48, 2] (Or.inl rfl) (by decide) (by decide)).1

/-- From a context in `TLV_TX_ACTIONS` with a sequence tag of count 1 in
progress, the loop can only end with `STREAM_PROCESSING`, on an empty chunk and
with the context unchanged. -/
theorem processTxInternal_actions_in_progress (E : Platform) {fuel : Nat}
    {c : txProcessingContext_t} {r : Completion}
    (hs : c.state = TLV_TX_ACTIONS) (hp : c.processingField = true)
    (hq : c.isSequence = true) (hl : c.currentFieldLength = 1)
    (h : processTxInternal E fuel c = some r) :
    r = .returned STREAM_PROCESSING c ∧ c.workBuffer = [] := by
  by_cases hw : c.workBuffer = []
  · cases fuel with
    | zero => simp [processTxInternal] at h
    | succ n =>
      have hb : loopBody E c = .leave (.returned STREAM_PROCESSING c) := by
        simp [loopBody, loopHead, txProcessingContext_t.commandLength, hs, hw]
      simp [processTxInternal, hb] at h
      exact ⟨h.symm, hw⟩
  · have := processTxInternal_stuck E c (loopBody_actions_fixed E c hs hp hq hl hw) fuel
    rw [this] at h
    cases h

/-- C8, decided against the code.  In state `TLV_TX_ACTIONS`, when the `switch`
is reached with a sequence tag (`c1` is the context after the tag has been
decoded in this call, or the context of a field already in progress), the
Actions consumer raises, and `parseTx` returns `STREAM_FAULT`, if and only if
the declared count is not 1; in particular counts 0 and 2 fault.  With count 1
the consumer does not fault, but parsing does not proceed: the consumer returns
the context unchanged, still in `TLV_TX_ACTIONS` with the field in progress, so
the pass of the loop ends where it began.  When bytes are left unread behind
the tag the call never returns, whatever the fuel; when none is left it returns
`STREAM_PROCESSING` with that context, and the next call on any chunk that is
not empty never returns. -/
theorem actions_fault_iff_count_not_one (E : Platform)
    (c c1 : txProcessingContext_t) (buffer : List Nat)
    (hs : c.state = TLV_TX_ACTIONS)
    (hh : loopHead E { c with workBuffer := buffer } = .again c1)
    (hq : c1.isSequence = true) :
    (processActions c1 = none ↔ c1.currentFieldLength ≠ 1) ∧
    ((∃ fuel c2, parseTx E fuel c buffer = some (STREAM_FAULT, c2)) ↔
      c1.currentFieldLength ≠ 1) ∧
    (c1.currentFieldLength ≠ 1 →
      ∀ fuel, parseTx E (fuel + 1) c buffer = some (STREAM_FAULT, c1)) ∧
    (c1.currentFieldLength = 0 ∨ c1.currentFieldLength = 2 →
      parseTx E 1 c buffer = some (STREAM_FAULT, c1)) ∧
    (c1.currentFieldLength = 1 →
      processActions c1 = some c1 ∧
      loopBody E { c with workBuffer := buffer } = .again c1 ∧
      c1.state = TLV_TX_ACTIONS ∧ c1.processingField = true ∧
      (c1.workBuffer ≠ [] → ∀ fuel, parseTx E fuel c buffer = none) ∧
      (c1.workBuffer = [] →
        ∀ fuel, parseTx E (fuel + 2) c buffer = some (STREAM_PROCESSING, c1)) ∧
      (∀ (fuel : Nat) (b : Nat) (rest : List Nat),
        parseTx E fuel c1 (b :: rest) = none)) := by
  have a := loopHead_again E hh
  have e1 : c1.state = TLV_TX_ACTIONS := by rw [a.2.2.2.1]; exact hs
  have consumer : processActions c1 = none ↔ c1.currentFieldLength ≠ 1 := by
    unfold processActions
    simp [hq]
  have faults : c1.currentFieldLength ≠ 1 →
      ∀ fuel, parseTx E (fuel + 1) c buffer = some (STREAM_FAULT, c1) := by
    intro hn fuel
    apply parseTx_of_dispatch_raised E fuel hh
    simp [dispatch, e1, consumer.2 hn, afterConsumer]
  have goes : c1.currentFieldLength = 1 →
      processActions c1 = some c1 ∧
      loopBody E { c with workBuffer := buffer } = .again c1 := by
    intro h1
    have p : processActions c1 = some c1 := by
      unfold processActions
      simp [hq, h1]
    refine ⟨p, (loopBody_again_iff E).2 ⟨c1, hh, ?_⟩⟩
    simp [dispatch, e1, p, afterConsumer]
  have stays : c1.currentFieldLength = 1 →
      (c1.workBuffer ≠ [] → ∀ fuel, parseTx E fuel c buffer = none) ∧
      (c1.workBuffer = [] →
        ∀ fuel, parseTx E (fuel + 2) c buffer = some (STREAM_PROCESSING, c1)) ∧
      (∀ (fuel : Nat) (b : Nat) (rest : List Nat),
        parseTx E fuel c1 (b :: rest) = none) := by
    intro h1
    have hb := (goes h1).2
    refine ⟨?_, ?_, ?_⟩
    · intro hw fuel
      rw [parseTx_eq_none]
      cases fuel with
      | zero => rfl
      | succ n =>
        simp only [processTxInternal, hb]
        exact processTxInternal_stuck E c1
          (loopBody_actions_fixed E c1 e1 a.2.2.1 hq h1 hw) n
    · intro hw fuel
      refine (parseTx_eq_some E).2 ⟨.returned STREAM_PROCESSING c1, ?_, rfl, rfl⟩
      have hnd : c1.state ≠ TLV_TX_DONE := by rw [e1]; decide
      have hlast : loopBody E c1 = .leave (.returned STREAM_PROCESSING c1) := by
        simp [loopBody, loopHead, txProcessingContext_t.commandLength, hnd, hw]
      simp only [processTxInternal, hb, hlast]
    · intro fuel b rest
      rw [parseTx_eq_none]
      exact processTxInternal_stuck E _
        (loopBody_actions_fixed E { c1 with workBuffer := b :: rest } e1 a.2.2.1 hq h1
          (by simp)) fuel
  refine ⟨consumer, ⟨?_, fun hn => ⟨1, c1, faults hn 0⟩⟩, faults, ?_,
    fun h1 => ⟨(goes h1).1, (goes h1).2, e1, a.2.2.1, stays h1⟩⟩
  · rintro ⟨fuel, c2, hf⟩ h1
    obtain ⟨r, hr, hst, _⟩ := (parseTx_eq_some E).1 hf
    cases fuel with
    | zero => simp [processTxInternal] at hr
    | succ n =>
      simp only [processTxInternal, (goes h1).2] at hr
      have k := processTxInternal_actions_in_progress E e1 a.2.2.1 hq h1 hr
      rw [k.1] at hst
      simp [Completion.status] at hst
  · intro h02
    exact faults (by omega) 0

/-- C8 at a concrete input: in state `TLV_TX_ACTIONS` the chunk `[48, 2]` (a
sequence tag with count 2) makes `parseTx` return `STREAM_FAULT`. -/
theorem actions_fault_iff_count_not_one_witness :
    parseTx demoPlatform 1
        { initTxContext demoPlatform with state := TLV_TX_ACTIONS } [48, 2] =
      some (STREAM_FAULT,
        { initTxContext demoPlatform with
          state := TLV_TX_ACTIONS
          currentFieldLength := 2
          isSequence := true
          processingField := true
          tlvBuffer := [48, 2, 0, 0, 0] }) :=
  (actions_fault_iff_count_not_one demoPlatform
    { initTxContext demoPlatform with state := TLV_TX_ACTIONS }
    { initTxContext demoPlatform with
      state := TLV_TX_ACTIONS
      currentFieldLength := 2
      isSequence := true
      processingField := true
      tlvBuffer := [48, 2, 0, 0, 0] }
    [48, 2] rfl (by decide) rfl).2.2.2.1 (Or.inr rfl)

/-- A conditional between two results is not an exception. -/
theorem ite_some_ne_none {α : Type} (p : Prop) [Decidable p] (a b : α) :
    (if p then some a else some b) ≠ none := by
  split_ifs <;> simp

/-- The chain-id consumer raises exactly on a sequence tag or a declared length
other than the width of `chain_id_t`. -/
theorem processChainId_eq_none_iff (c : txProcessingContext_t) :
    processChainId c = none ↔
      c.isSequence = true ∨ c.currentFieldLength ≠ sizeof_chain_id_t := by
  unfold processChainId
  cases hq : c.isSequence
  · by_cases hl : sizeof_chain_id_t = c.currentFieldLength
    · simp [← hl, ite_some_ne_none]
    · have hl2 : ¬ c.currentFieldLength = sizeof_chain_id_t := fun e => hl e.symm
      simp [hl, hl2]
  · simp

/-- The direct header consumer raises exactly on a sequence tag or a declared
length other than the width its state requires. -/
theorem processHeaderField_eq_none_iff (c : txProcessingContext_t) :
    processHeaderField c = none ↔
      c.isSequence = true ∨
      ((c.state = TLV_TX_HEADER_EXPITATION ∨ c.state = TLV_TX_HEADER_REF_BLOCK_PREFIX) ∧
        c.currentFieldLength ≠ sizeof_uint32_t) ∨
      (c.state = TLV_TX_HEADER_REF_BLOCK_NUM ∧ c.currentFieldLength ≠ sizeof_uint16_t) ∨
      (c.state = TLV_TX_HEADER_MAX_CPU_USAGE_MS ∧
        c.currentFieldLength ≠ sizeof_uint8_t) := by
  unfold processHeaderField
  cases hq : c.isSequence
  · by_cases h1 : (c.state = TLV_TX_HEADER_EXPITATION ∨
        c.state = TLV_TX_HEADER_REF_BLOCK_PREFIX) ∧ c.currentFieldLength ≠ sizeof_uint32_t
    · simp [h1]
    · by_cases h2 : c.state = TLV_TX_HEADER_REF_BLOCK_NUM ∧
          c.currentFieldLength ≠ sizeof_uint16_t
      · simp [h1, h2]
      · by_cases h3 : c.state = TLV_TX_HEADER_MAX_CPU_USAGE_MS ∧
            c.currentFieldLength ≠ sizeof_uint8_t
        · simp [h1, h2, h3]
        · rw [if_neg (by simp), if_neg h1, if_neg h2, if_neg h3]
          simp only [Bool.false_eq_true, false_or, h1, h2, h3, or_self, iff_false]
          exact ite_some_ne_none _ _ _
  · simp

/-- The cached header consumer raises exactly on a sequence tag or, in its two
states, a declared length other than the width of `fc_unsigned_int_t`. -/
theorem processHeaderField2_eq_none_iff (E : Platform) (c : txProcessingContext_t) :
    processHeaderField2 E c = none ↔
      c.isSequence = true ∨
      ((c.state = TLV_TX_HEADER_MAX_NET_USAGE_WORDS ∨
          c.state = TLV_TX_HEADER_DELAY_SEC) ∧
        c.currentFieldLength ≠ E.sizeof_fc_unsigned_int_t) := by
  unfold processHeaderField2
  cases hq : c.isSequence
  · by_cases h1 : (c.state = TLV_TX_HEADER_MAX_NET_USAGE_WORDS ∨
        c.state = TLV_TX_HEADER_DELAY_SEC) ∧
        c.currentFieldLength ≠ E.sizeof_fc_unsigned_int_t
    · simp [h1]
    · rw [if_neg (by simp), if_neg h1]
      simp only [Bool.false_eq_true, false_or, h1, iff_false]
      exact ite_some_ne_none _ _ _
  · simp

/-- C9: exact-width enforcement for scalar fields.  Given a scalar tag, in each
of the seven scalar states the consumer selected by the `switch` raises if and
only if the declared length differs from the required width (32, 4, 2, 4, the
width of `fc_unsigned_int_t`, 1, the width of `fc_unsigned_int_t`).  This holds
for every context, so on every invocation, whatever `currentFieldPos` and the
unread bytes are; and when the consumer raises, the context is the one it was
given: no field byte has been consumed. -/
theorem width_enforced (E : Platform) (c : txProcessingContext_t) (w : Nat)
    (hq : c.isSequence = false) (hw : requiredWidth E c.state = some w) :
    (dispatch E c = .leave (.raised c) ↔ c.currentFieldLength ≠ w) ∧
    ((∃ c1, dispatch E c = .again c1) ↔ c.currentFieldLength = w) ∧
    (c.state = TLV_TX_CHAIN_ID →
      (processChainId c = none ↔ c.currentFieldLength ≠ w)) ∧
    (c.state = TLV_TX_HEADER_EXPITATION ∨ c.state = TLV_TX_HEADER_REF_BLOCK_NUM ∨
      c.state = TLV_TX_HEADER_REF_BLOCK_PREFIX ∨
      c.state = TLV_TX_HEADER_MAX_CPU_USAGE_MS →
      (processHeaderField c = none ↔ c.currentFieldLength ≠ w)) ∧
    (c.state = TLV_TX_HEADER_MAX_NET_USAGE_WORDS ∨ c.state = TLV_TX_HEADER_DELAY_SEC →
      (processHeaderField2 E c = none ↔ c.currentFieldLength ≠ w)) := by
  have chain : c.state = TLV_TX_CHAIN_ID →
      (processChainId c = none ↔ c.currentFieldLength ≠ w) := by
    intro h
    simp [requiredWidth, h] at hw
    subst hw
    rw [processChainId_eq_none_iff]
    simp [hq]
  have direct : c.state = TLV_TX_HEADER_EXPITATION ∨
      c.state = TLV_TX_HEADER_REF_BLOCK_NUM ∨
      c.state = TLV_TX_HEADER_REF_BLOCK_PREFIX ∨
      c.state = TLV_TX_HEADER_MAX_CPU_USAGE_MS →
      (processHeaderField c = none ↔ c.currentFieldLength ≠ w) := by
    intro h
    rw [processHeaderField_eq_none_iff]
    rcases h with h | h | h | h <;> simp [requiredWidth, h] at hw <;> subst hw <;>
      simp [h, hq]
  have cached : c.state = TLV_TX_HEADER_MAX_NET_USAGE_WORDS ∨
      c.state = TLV_TX_HEADER_DELAY_SEC →
      (processHeaderField2 E c = none ↔ c.currentFieldLength ≠ w) := by
    intro h
    rw [processHeaderField2_eq_none_iff]
    rcases h with h | h <;> simp [requiredWidth, h] at hw <;> subst hw <;>
      simp [h, hq]
  have key : ∃ o : Option txProcessingContext_t,
      dispatch E c = afterConsumer c o ∧ (o = none ↔ c.currentFieldLength ≠ w) := by
    have hlt : c.state < 7 := by
      have sv := state_values
      by_contra hge
      simp only [requiredWidth] at hw
      split_ifs at hw <;> omega
    unfold dispatch
    interval_cases hst : c.state
    · exact ⟨_, by simp, chain rfl⟩
    · exact ⟨processHeaderField c, by simp, direct (by simp)⟩
    · exact ⟨processHeaderField c, by simp, direct (by simp)⟩
    · exact ⟨processHeaderField c, by simp, direct (by simp)⟩
    · exact ⟨processHeaderField2 E c, by simp, cached (by simp)⟩
    · exact ⟨processHeaderField c, by simp, direct (by simp)⟩
    · exact ⟨processHeaderField2 E c, by simp, cached (by simp)⟩
  obtain ⟨o, ho, hiff⟩ := key
  refine ⟨?_, ?_, chain, direct, cached⟩
  · rw [ho, afterConsumer_leave, ← hiff]
    simp
  · rw [ho]
    constructor
    · rintro ⟨c1, h1⟩
      rw [afterConsumer_again] at h1
      by_contra hne
      rw [hiff.2 hne] at h1
      cases h1
    · intro heq
      cases o with
      | none => exact absurd heq (hiff.1 rfl)
      | some c1 => exact ⟨c1, rfl⟩

/-- C9 at a concrete input: in state `TLV_TX_HEADER_REF_BLOCK_NUM` a scalar tag
of declared length 3 makes the consumer raise, although no byte of the field
has arrived yet. -/
theorem width_enforced_witness :
    dispatch demoPlatform
        { initTxContext demoPlatform with
          state := TLV_TX_HEADER_REF_BLOCK_NUM
          currentFieldLength := 3
          processingField := true } =
      .leave (.raised
        { initTxContext demoPlatform with
          state := TLV_TX_HEADER_REF_BLOCK_NUM
          currentFieldLength := 3
          processingField := true }) :=
  (width_enforced demoPlatform
    { initTxContext demoPlatform with
      state := TLV_TX_HEADER_REF_BLOCK_NUM
      currentFieldLength := 3
      processingField := true } 2 rfl rfl).1.2 (by decide)

/-- C10: kind enforcement.  In every non-terminal state, when the `switch` is
reached with a tag whose kind is not the one the state requires (`c1` is the
context after the tag has been decoded in this call, or the context of a field
already in progress), `parseTx` returns `STREAM_FAULT`, whatever the declared
length. -/
theorem kind_enforced (E : Platform) (fuel : Nat)
    (c c1 : txProcessingContext_t) (buffer : List Nat)
    (hs : c.state < TLV_TX_DONE)
    (hh : loopHead E { c with workBuffer := buffer } = .again c1)
    (hk : c1.isSequence ≠ requiresSequence c.state) :
    parseTx E (fuel + 1) c buffer = some (STREAM_FAULT, c1) := by
  have a := loopHead_again E hh
  have e1 : c1.state = c.state := a.2.2.2.1
  apply parseTx_of_dispatch_raised E fuel hh
  unfold dispatch
  rw [e1]
  interval_cases hst : c.state <;> simp [requiresSequence] at hk <;>
    simp [afterConsumer, processChainId, processHeaderField, processHeaderField2,
      processCtxFreeActions, processActions, processTxExtensions, processCtxFreeData, hk]

/-- C10 at a concrete input: in state `TLV_TX_CHAIN_ID` the chunk `[48, 32]` (a
sequence tag) makes `parseTx` return `STREAM_FAULT`. -/
theorem kind_enforced_witness :
    parseTx demoPlatform 1 (initTxContext demoPlatform) [48, 32] =
      some (STREAM_FAULT,
        { initTxContext demoPlatform with
          currentFieldLength := 32
          isSequence := true
          processingField := true
          tlvBuffer := [48, 32, 0, 0, 0] }) :=
  kind_enforced demoPlatform 0 (initTxContext demoPlatform)
    { initTxContext demoPlatform with
      currentFieldLength := 32
      isSequence := true
      processingField := true
      tlvBuffer := [48, 32, 0, 0, 0] }
    [48, 32] (by decide) (by decide) (by decide)


/-! ## C5: what a cached header field feeds to the hash -/

/-- Two copies to adjacent addresses are one copy of the concatenation. -/
theorem os_memmove_append : ∀ (a b : List Nat) (memory : List (Nat × Nat)) (address : Nat),
    os_memmove (os_memmove memory address a) (address + a.length) b =
      os_memmove memory address (a ++ b) := by
  intro a
  induction a with
  | nil => intro b memory address; simp [os_memmove]
  | cons x xs ih =>
    intro b memory address
    simp only [os_memmove, List.length_cons, List.cons_append, List.append_eq]
    rw [← ih b (memory ++ [(address, x)]) (address + 1)]
    congr 1
    omega

/-- A copy adds one logged byte for each byte copied. -/
theorem os_memmove_length : ∀ (src : List Nat) (memory : List (Nat × Nat)) (address : Nat),
    (os_memmove memory address src).length = memory.length + src.length := by
  intro src
  induction src with
  | nil => intro memory address; rfl
  | cons b bs ih =>
    intro memory address
    simp only [os_memmove, ih, List.length_append, List.length_cons, List.length_nil]
    omega

/-- The integer held by an object whose bytes are zero. -/
theorem loadLE_replicate_zero : ∀ n : Nat, loadLE (List.replicate n 0) = 0 := by
  intro n
  induction n with
  | zero => rfl
  | succ n ih => simp [List.replicate_succ, loadLE, ih]

/-- An invocation of the cached header consumer that does not bring the last
byte of the field: the chunk is copied to the address the value of
`tempHeaderValue` and the position give, and nothing else changes. -/
theorem processHeaderField2_partial (E : Platform) (c : txProcessingContext_t)
    (w : List Nat) (hq : c.isSequence = false)
    (hl : c.currentFieldLength = E.sizeof_fc_unsigned_int_t)
    (hlt : c.currentFieldPos + w.length < E.sizeof_fc_unsigned_int_t) :
    processHeaderField2 E { c with workBuffer := w } =
      some { c with
        workBuffer := []
        strayWrites :=
          os_memmove c.strayWrites (loadLE c.tempHeaderValue + c.currentFieldPos) w
        currentFieldPos := c.currentFieldPos + w.length } := by
  have h1 : c.currentFieldPos < c.currentFieldLength := by omega
  have h2 : w.length < c.currentFieldLength - c.currentFieldPos := by omega
  have h3 : ¬ c.currentFieldPos + w.length = c.currentFieldLength := by omega
  simp [processHeaderField2, hq, hl.symm, txProcessingContext_t.commandLength, h1, h2, h3]

/-- An invocation of the cached header consumer that brings the last byte of the
field: the rest of the field is copied to the address the value of
`tempHeaderValue` and the position give, the state advances, and the hash
receives the packed value of `tempHeaderValue`, which has not changed. -/
theorem processHeaderField2_complete (E : Platform) (c : txProcessingContext_t)
    (w : List Nat) (hq : c.isSequence = false)
    (hl : c.currentFieldLength = E.sizeof_fc_unsigned_int_t)
    (hle : c.currentFieldPos ≤ E.sizeof_fc_unsigned_int_t)
    (hge : E.sizeof_fc_unsigned_int_t ≤ c.currentFieldPos + w.length) :
    processHeaderField2 E { c with workBuffer := w } =
      some { c with
        state := c.state + 1
        processingField := false
        workBuffer := w.drop (E.sizeof_fc_unsigned_int_t - c.currentFieldPos)
        strayWrites :=
          os_memmove c.strayWrites (loadLE c.tempHeaderValue + c.currentFieldPos)
            (w.take (E.sizeof_fc_unsigned_int_t - c.currentFieldPos))
        currentFieldPos := E.sizeof_fc_unsigned_int_t
        sha256 := c.sha256 ++ E.pack_fc_unsigned_int (loadLE c.tempHeaderValue) } := by
  rcases Nat.lt_or_eq_of_le hle with hlt | heq
  · have h1 : c.currentFieldPos < c.currentFieldLength := by omega
    have h2 : ¬ w.length < c.currentFieldLength - c.currentFieldPos := by omega
    have h3 : c.currentFieldPos + (c.currentFieldLength - c.currentFieldPos) =
        c.currentFieldLength := by omega
    simp [processHeaderField2, hashTxData, hq, hl.symm,
      txProcessingContext_t.commandLength, h1, h2, h3]
  · have h1 : ¬ c.currentFieldPos < c.currentFieldLength := by omega
    have h3 : c.currentFieldPos = c.currentFieldLength := by omega
    simp [processHeaderField2, hashTxData, hq, hl.symm, h3, os_memmove]

/-- Invocations of the cached header consumer that together do not bring the
last byte of the field: their bytes have been copied to the addresses that
follow the value of `tempHeaderValue`, the position has advanced by their
number, and state, hash input, `processingField` and `tempHeaderValue` are
unchanged. -/
theorem feedHeaderField2_partial (E : Platform) :
    ∀ (ws : List (List Nat)) (c : txProcessingContext_t),
      c.isSequence = false →
      c.currentFieldLength = E.sizeof_fc_unsigned_int_t →
      c.currentFieldPos + ws.flatten.length < E.sizeof_fc_unsigned_int_t →
      ∃ cm, feedHeaderField2 E c ws = some cm ∧
        cm.state = c.state ∧ cm.sha256 = c.sha256 ∧ cm.isSequence = false ∧
        cm.currentFieldLength = E.sizeof_fc_unsigned_int_t ∧
        cm.processingField = c.processingField ∧
        cm.currentFieldPos = c.currentFieldPos + ws.flatten.length ∧
        cm.tempHeaderValue = c.tempHeaderValue ∧
        cm.strayWrites =
          os_memmove c.strayWrites (loadLE c.tempHeaderValue + c.currentFieldPos)
            ws.flatten := by
  intro ws
  induction ws with
  | nil =>
    intro c hq hl _
    exact ⟨c, rfl, rfl, rfl, hq, hl, rfl, by simp, rfl, by simp [os_memmove]⟩
  | cons w ws ih =>
    intro c hq hl hlt
    simp only [List.flatten_cons, List.length_append] at hlt
    have step := processHeaderField2_partial E c w hq hl (by omega)
    obtain ⟨cm, h1, h2, h3, h4, h5, h6, h7, h8, h9⟩ :=
      ih { c with
        workBuffer := []
        strayWrites :=
          os_memmove c.strayWrites (loadLE c.tempHeaderValue + c.currentFieldPos) w
        currentFieldPos := c.currentFieldPos + w.length } hq hl
        (by show c.currentFieldPos + w.length + ws.flatten.length < _; omega)
    refine ⟨cm, ?_, h2, h3, h4, h5, h6, ?_, h8, ?_⟩
    · simp only [feedHeaderField2, step]
      exact h1
    · rw [h7]
      simp only [List.flatten_cons, List.length_append]
      omega
    · rw [h9]
      simp only [List.flatten_cons]
      have := os_memmove_append w ws.flatten c.strayWrites
        (loadLE c.tempHeaderValue + c.currentFieldPos)
      rw [← this]
      show os_memmove _ (loadLE c.tempHeaderValue + (c.currentFieldPos + w.length)) _ = _
      rw [Nat.add_assoc]

/-- In the two cached header states the `switch` calls `processHeaderField2`. -/
theorem dispatch_cached (E : Platform) (c : txProcessingContext_t)
    (hs : c.state = TLV_TX_HEADER_MAX_NET_USAGE_WORDS ∨ c.state = TLV_TX_HEADER_DELAY_SEC) :
    dispatch E c = afterConsumer c (processHeaderField2 E c) := by
  unfold dispatch
  rcases hs with h | h <;> simp [h]

/-- The invocations that bring a whole cached header field: nothing is fed to
the hash before the last byte, then the packed value of `tempHeaderValue` as it
was before the field; `tempHeaderValue` is unchanged and the bytes of the field
are at the addresses that follow its value. -/
theorem feedHeaderField2_whole (E : Platform) (c : txProcessingContext_t)
    (ws : List (List Nat)) (w : List Nat)
    (hq : c.isSequence = false)
    (hl : c.currentFieldLength = E.sizeof_fc_unsigned_int_t)
    (hp : c.currentFieldPos = 0)
    (hshort : ws.flatten.length < E.sizeof_fc_unsigned_int_t)
    (hfull : E.sizeof_fc_unsigned_int_t ≤ ws.flatten.length + w.length) :
    ∃ cm cf,
      feedHeaderField2 E c ws = some cm ∧
      cm.sha256 = c.sha256 ∧ cm.state = c.state ∧
      cm.currentFieldPos = ws.flatten.length ∧
      processHeaderField2 E { cm with workBuffer := w } = some cf ∧
      cf.sha256 = c.sha256 ++ E.pack_fc_unsigned_int (loadLE c.tempHeaderValue) ∧
      cf.tempHeaderValue = c.tempHeaderValue ∧
      cf.strayWrites =
        os_memmove c.strayWrites (loadLE c.tempHeaderValue)
          ((ws.flatten ++ w).take E.sizeof_fc_unsigned_int_t) ∧
      cf.state = c.state + 1 ∧ cf.processingField = false ∧
      cf.workBuffer = w.drop (E.sizeof_fc_unsigned_int_t - ws.flatten.length) := by
  obtain ⟨cm, h1, h2, h3, h4, h5, _, h7, h8, h9⟩ :=
    feedHeaderField2_partial E ws c hq hl (by omega)
  rw [hp] at h7 h9
  simp only [Nat.zero_add, Nat.add_zero] at h7 h9
  have done := processHeaderField2_complete E cm w h4 h5 (by omega) (by omega)
  have whole : ws.flatten.take E.sizeof_fc_unsigned_int_t = ws.flatten :=
    List.take_of_length_le (by omega)
  refine ⟨cm, _, h1, h3, h2, h7, done, ?_, h8, ?_, ?_, rfl, ?_⟩
  · show cm.sha256 ++ _ = _
    rw [h3, h8]
  · show os_memmove cm.strayWrites (loadLE cm.tempHeaderValue + cm.currentFieldPos) _ = _
    rw [h9, h8, h7, os_memmove_append, List.take_append_eq_append_take, whole]
  · show cm.state + 1 = _
    rw [h2]
  · show w.drop (_ - cm.currentFieldPos) = _
    rw [h7]

/-- C5, decided against the code.  A cached header field (state
`TLV_TX_HEADER_MAX_NET_USAGE_WORDS` or `TLV_TX_HEADER_DELAY_SEC`, scalar tag of
the width of `fc_unsigned_int_t`, just decoded) whose bytes arrive in the
invocations `ws` followed by one invocation `w` that brings its last byte.
After the invocations `ws` nothing has been fed to the hash, and the invocation
`w`, the one the `switch` makes, feeds the hash exactly once.  What it feeds is
`pack_fc_unsigned_int` of the value `tempHeaderValue` had before the field, the
same whatever the bytes of the field: line 137 casts the value of
`tempHeaderValue` to the pointer through which line 138 copies, so the bytes of
the field land at the addresses that follow that value and `tempHeaderValue`
keeps the value it had (0 since `initTxContext`).  The hash does receive
neither the raw bytes nor the encoding of the value they hold. -/
theorem cached_field_hashes_stale_scalar (E : Platform) (c : txProcessingContext_t)
    (ws : List (List Nat)) (w : List Nat)
    (hs : c.state = TLV_TX_HEADER_MAX_NET_USAGE_WORDS ∨ c.state = TLV_TX_HEADER_DELAY_SEC)
    (hq : c.isSequence = false)
    (hl : c.currentFieldLength = E.sizeof_fc_unsigned_int_t)
    (hp : c.currentFieldPos = 0)
    (hshort : ws.flatten.length < E.sizeof_fc_unsigned_int_t)
    (hfull : E.sizeof_fc_unsigned_int_t ≤ ws.flatten.length + w.length) :
    ∃ cm cf,
      feedHeaderField2 E c ws = some cm ∧
      cm.sha256 = c.sha256 ∧ cm.state = c.state ∧
      cm.currentFieldPos = ws.flatten.length ∧
      processHeaderField2 E { cm with workBuffer := w } = some cf ∧
      dispatch E { cm with workBuffer := w } = .again cf ∧
      cf.sha256 = c.sha256 ++ E.pack_fc_unsigned_int (loadLE c.tempHeaderValue) ∧
      cf.tempHeaderValue = c.tempHeaderValue ∧
      cf.strayWrites =
        os_memmove c.strayWrites (loadLE c.tempHeaderValue)
          ((ws.flatten ++ w).take E.sizeof_fc_unsigned_int_t) ∧
      cf.state = c.state + 1 ∧ cf.processingField = false ∧
      cf.workBuffer = w.drop (E.sizeof_fc_unsigned_int_t - ws.flatten.length) := by
  obtain ⟨cm, cf, h1, h2, h3, h4, h5, h6, h7, h8, h9, h10, h11⟩ :=
    feedHeaderField2_whole E c ws w hq hl hp hshort hfull
  refine ⟨cm, cf, h1, h2, h3, h4, h5, ?_, h6, h7, h8, h9, h10, h11⟩
  rw [dispatch_cached E _ (by show cm.state = _ ∨ cm.state = _; rw [h3]; exact hs), h5]
  rfl

/-- C5 at a concrete input: the four bytes `[1, 2, 0, 0]` of delay-sec (the
value 513) arriving as `[1]`, `[2, 0]` and then `[0, 9]`, from a context in which
`tempHeaderValue` holds 0 as `initTxContext` leaves it.  The hash receives the
byte 0, the encoding of 0; the encoding of 513 is `[129, 4]`.  The four bytes
are at the addresses 0 to 3, and `tempHeaderValue` still holds 0. -/
theorem cached_field_hashes_stale_scalar_witness :
    ∃ cm cf,
      feedHeaderField2 demoPlatform
        { initTxContext demoPlatform with
          state := TLV_TX_HEADER_DELAY_SEC
          currentFieldLength := 4
          processingField := true } [[1], [2, 0]] = some cm ∧
      cm.sha256 = [] ∧
      processHeaderField2 demoPlatform { cm with workBuffer := [0, 9] } = some cf ∧
      cf.sha256 = [0] ∧ cf.tempHeaderValue = [0, 0, 0, 0] ∧
      cf.strayWrites = [(0, 1), (1, 2), (2, 0), (3, 0)] ∧ cf.workBuffer = [9] ∧
      demoPlatform.pack_fc_unsigned_int (loadLE [1, 2, 0, 0]) = [129, 4] := by
  obtain ⟨cm, cf, h1, h2, _, _, h5, _, h7, h8, h9, _, _, h12⟩ :=
    cached_field_hashes_stale_scalar demoPlatform
      { initTxContext demoPlatform with
        state := TLV_TX_HEADER_DELAY_SEC
        currentFieldLength := 4
        processingField := true } [[1], [2, 0]] [0, 9]
      (Or.inr rfl) rfl rfl rfl (by decide) (by decide)
  exact ⟨cm, cf, h1, h2, h5, h7, h8, h9, h12, by decide⟩

/-! ## C3: chunk-boundary independence -/

/-- The consumer `processChainId` is its two checks followed by
`hashFieldBytes`. -/
theorem processChainId_eq (c : txProcessingContext_t) :
    processChainId c =
      if c.isSequence then none
      else if sizeof_chain_id_t ≠ c.currentFieldLength then none
      else some (hashFieldBytes c) := by
  unfold processChainId hashFieldBytes
  simp only [apply_ite some]

/-- The consumer `processHeaderField` is its checks followed by
`hashFieldBytes`. -/
theorem processHeaderField_eq (c : txProcessingContext_t) :
    processHeaderField c =
      if c.isSequence then none
      else if (c.state = TLV_TX_HEADER_EXPITATION ∨
          c.state = TLV_TX_HEADER_REF_BLOCK_PREFIX) ∧
          c.currentFieldLength ≠ sizeof_uint32_t then none
      else if c.state = TLV_TX_HEADER_REF_BLOCK_NUM ∧
          c.currentFieldLength ≠ sizeof_uint16_t then none
      else if c.state = TLV_TX_HEADER_MAX_CPU_USAGE_MS ∧
          c.currentFieldLength ≠ sizeof_uint8_t then none
      else some (hashFieldBytes c) := by
  unfold processHeaderField hashFieldBytes
  simp only [apply_ite some]

/-- The consumer `processHeaderField2` is its checks followed by
`cacheFieldBytes`. -/
theorem processHeaderField2_eq (E : Platform) (c : txProcessingContext_t) :
    processHeaderField2 E c =
      if c.isSequence then none
      else if (c.state = TLV_TX_HEADER_MAX_NET_USAGE_WORDS ∨
          c.state = TLV_TX_HEADER_DELAY_SEC) ∧
          c.currentFieldLength ≠ E.sizeof_fc_unsigned_int_t then none
      else some (cacheFieldBytes E c) := by
  unfold processHeaderField2 cacheFieldBytes
  simp only [apply_ite some]

/-- Hashing part of a field: the whole chunk is hashed and the position
advances by its length. -/
theorem hashFieldBytes_short (c : txProcessingContext_t)
    (h1 : c.currentFieldPos < c.currentFieldLength)
    (h2 : c.workBuffer.length < c.currentFieldLength - c.currentFieldPos) :
    hashFieldBytes c =
      { c with
        sha256 := c.sha256 ++ c.workBuffer
        workBuffer := []
        currentFieldPos := c.currentFieldPos + c.workBuffer.length } := by
  have h3 : ¬ c.currentFieldPos + c.workBuffer.length = c.currentFieldLength := by omega
  simp [hashFieldBytes, hashTxData, txProcessingContext_t.commandLength, h1, h2, h3]

/-- What `hashFieldBytes` does with further unread bytes behind the chunk. -/
theorem hashFieldBytes_extend (c : txProcessingContext_t) (b2 : List Nat) :
    hashFieldBytes (c.extend b2) = (hashFieldBytes c).extend b2 ∨
    ((hashFieldBytes c).workBuffer = [] ∧ (hashFieldBytes c).state = c.state ∧
      (hashFieldBytes c).processingField = c.processingField ∧
      (hashFieldBytes c).isSequence = c.isSequence ∧
      (hashFieldBytes c).currentFieldLength = c.currentFieldLength ∧
      hashFieldBytes { hashFieldBytes c with workBuffer := b2 } =
        hashFieldBytes (c.extend b2)) := by
  by_cases h1 : c.currentFieldPos < c.currentFieldLength
  · by_cases h2 : c.workBuffer.length < c.currentFieldLength - c.currentFieldPos
    · right
      rw [hashFieldBytes_short c h1 h2]
      refine ⟨rfl, rfl, rfl, rfl, rfl, ?_⟩
      simp only [hashFieldBytes, hashTxData, txProcessingContext_t.commandLength,
        txProcessingContext_t.extend, List.length_append]
      have h4 : c.currentFieldPos + c.workBuffer.length < c.currentFieldLength := by omega
      simp only [h1, h4, if_true]
      by_cases h5 : b2.length < c.currentFieldLength - (c.currentFieldPos + c.workBuffer.length)
      · have h6 : c.workBuffer.length + b2.length < c.currentFieldLength - c.currentFieldPos := by
          omega
        have h8 : (c.workBuffer ++ b2).take (c.workBuffer.length + b2.length) =
            c.workBuffer ++ b2 := List.take_of_length_le (by simp)
        have h9 : (c.workBuffer ++ b2).drop (c.workBuffer.length + b2.length) = [] :=
          List.drop_of_length_le (by simp)
        simp [h5, h6, h8, h9, Nat.add_assoc]
      · have h6 : ¬ c.workBuffer.length + b2.length <
            c.currentFieldLength - c.currentFieldPos := by omega
        have h7 : c.currentFieldLength - c.currentFieldPos =
            c.workBuffer.length +
              (c.currentFieldLength - (c.currentFieldPos + c.workBuffer.length)) := by omega
        simp only [h5, h6, if_false]
        rw [h7, List.take_append, List.drop_append]
        simp [Nat.add_assoc]
    · left
      have h3 : ¬ c.workBuffer.length + b2.length < c.currentFieldLength - c.currentFieldPos := by
        omega
      have h4 : c.currentFieldLength - c.currentFieldPos ≤ c.workBuffer.length := by omega
      simp only [hashFieldBytes, hashTxData, txProcessingContext_t.commandLength,
        txProcessingContext_t.extend, List.length_append, h1, h2, h3, if_true, if_false,
        List.take_append_of_le_length h4, List.drop_append_of_le_length h4]
      split_ifs <;> rfl
  · left
    simp only [hashFieldBytes, txProcessingContext_t.extend, h1, if_false]
    split_ifs <;> rfl

/-- Caching part of a field: the whole chunk is copied and the position
advances by its length. -/
theorem cacheFieldBytes_short (E : Platform) (c : txProcessingContext_t)
    (h1 : c.currentFieldPos < c.currentFieldLength)
    (h2 : c.workBuffer.length < c.currentFieldLength - c.currentFieldPos) :
    cacheFieldBytes E c =
      { c with
        strayWrites :=
          os_memmove c.strayWrites (loadLE c.tempHeaderValue + c.currentFieldPos) c.workBuffer
        workBuffer := []
        currentFieldPos := c.currentFieldPos + c.workBuffer.length } := by
  have h3 : ¬ c.currentFieldPos + c.workBuffer.length = c.currentFieldLength := by omega
  simp [cacheFieldBytes, txProcessingContext_t.commandLength, h1, h2, h3]

/-- What `cacheFieldBytes` does with further unread bytes behind the chunk. -/
theorem cacheFieldBytes_extend (E : Platform) (c : txProcessingContext_t) (b2 : List Nat) :
    cacheFieldBytes E (c.extend b2) = (cacheFieldBytes E c).extend b2 ∨
    ((cacheFieldBytes E c).workBuffer = [] ∧ (cacheFieldBytes E c).state = c.state ∧
      (cacheFieldBytes E c).processingField = c.processingField ∧
      (cacheFieldBytes E c).isSequence = c.isSequence ∧
      (cacheFieldBytes E c).currentFieldLength = c.currentFieldLength ∧
      cacheFieldBytes E { cacheFieldBytes E c with workBuffer := b2 } =
        cacheFieldBytes E (c.extend b2)) := by
  by_cases h1 : c.currentFieldPos < c.currentFieldLength
  · by_cases h2 : c.workBuffer.length < c.currentFieldLength - c.currentFieldPos
    · right
      rw [cacheFieldBytes_short E c h1 h2]
      refine ⟨rfl, rfl, rfl, rfl, rfl, ?_⟩
      simp only [cacheFieldBytes, hashTxData, txProcessingContext_t.commandLength,
        txProcessingContext_t.extend, List.length_append]
      have h4 : c.currentFieldPos + c.workBuffer.length < c.currentFieldLength := by omega
      simp only [h1, h4, if_true]
      by_cases h5 : b2.length < c.currentFieldLength - (c.currentFieldPos + c.workBuffer.length)
      · have h6 : c.workBuffer.length + b2.length < c.currentFieldLength - c.currentFieldPos := by
          omega
        have h8 : (c.workBuffer ++ b2).take (c.workBuffer.length + b2.length) =
            c.workBuffer ++ b2 := List.take_of_length_le (by simp)
        have h9 : (c.workBuffer ++ b2).drop (c.workBuffer.length + b2.length) = [] :=
          List.drop_of_length_le (by simp)
        simp [h5, h6, h8, h9, ← Nat.add_assoc, os_memmove_append]
      · have h6 : ¬ c.workBuffer.length + b2.length <
            c.currentFieldLength - c.currentFieldPos := by omega
        have h7 : c.currentFieldLength - c.currentFieldPos =
            c.workBuffer.length +
              (c.currentFieldLength - (c.currentFieldPos + c.workBuffer.length)) := by omega
        simp only [h5, h6, if_false]
        rw [h7, List.take_append, List.drop_append]
        simp [← Nat.add_assoc, os_memmove_append]
    · left
      have h3 : ¬ c.workBuffer.length + b2.length < c.currentFieldLength - c.currentFieldPos := by
        omega
      have h4 : c.currentFieldLength - c.currentFieldPos ≤ c.workBuffer.length := by omega
      simp only [cacheFieldBytes, hashTxData, txProcessingContext_t.commandLength,
        txProcessingContext_t.extend, List.length_append, h1, h2, h3, if_true, if_false,
        List.take_append_of_le_length h4, List.drop_append_of_le_length h4]
      split_ifs <;> rfl
  · left
    simp only [cacheFieldBytes, hashTxData, txProcessingContext_t.extend, h1, if_false]
    split_ifs <;> rfl

/-- A consumer made of a check on kind, state and declared length followed by
a step that extends well, extends well. -/
theorem extendsWell_of_guard (guard : txProcessingContext_t → Prop)
    [DecidablePred guard] (g : txProcessingContext_t → txProcessingContext_t)
    (hguard : ∀ c c2 : txProcessingContext_t, c2.isSequence = c.isSequence →
      c2.state = c.state → c2.currentFieldLength = c.currentFieldLength →
      (guard c2 ↔ guard c))
    (hg : ∀ (c : txProcessingContext_t) (b2 : List Nat),
      g (c.extend b2) = (g c).extend b2 ∨
      ((g c).workBuffer = [] ∧ (g c).state = c.state ∧
        (g c).processingField = c.processingField ∧
        (g c).isSequence = c.isSequence ∧
        (g c).currentFieldLength = c.currentFieldLength ∧
        g { g c with workBuffer := b2 } = g (c.extend b2))) :
    ExtendsWell (fun c => if guard c then none else some (g c)) := by
  intro c b2
  have ge : guard (c.extend b2) ↔ guard c := hguard c (c.extend b2) rfl rfl rfl
  constructor
  · intro h
    by_cases hc : guard c
    · simp [ge.2 hc]
    · simp [hc] at h
  · intro c2 h
    by_cases hc : guard c
    · simp [hc] at h
    · simp only [hc, if_false, Option.some.injEq] at h
      subst h
      have hce : ¬ guard (c.extend b2) := fun x => hc (ge.1 x)
      rcases hg c b2 with h1 | ⟨h1, h2, h3, h4, h5, h6⟩
      · left
        simp only [hce, if_false, h1]
      · right
        refine ⟨h1, h2, h3, g (c.extend b2), ?_, ?_⟩
        · have gs : ¬ guard { g c with workBuffer := b2 } :=
            fun x => hc ((hguard c { g c with workBuffer := b2 } h4 h2 h5).1 x)
          simp only [gs, if_false, h6]
        · simp only [hce, if_false]

/-- The chain-id consumer extends well. -/
theorem processChainId_extendsWell : ExtendsWell processChainId := by
  have e : processChainId = fun c =>
      if c.isSequence = true ∨ sizeof_chain_id_t ≠ c.currentFieldLength then none
      else some (hashFieldBytes c) := by
    funext c
    rw [processChainId_eq]
    by_cases h1 : c.isSequence = true <;>
      by_cases h2 : sizeof_chain_id_t ≠ c.currentFieldLength <;> simp [h1, h2]
  rw [e]
  apply extendsWell_of_guard _ _ _ hashFieldBytes_extend
  intro c c2 h1 h2 h3
  rw [h1, h3]

/-- The direct header consumer extends well. -/
theorem processHeaderField_extendsWell : ExtendsWell processHeaderField := by
  have e : processHeaderField = fun c =>
      if c.isSequence = true ∨
        ((c.state = TLV_TX_HEADER_EXPITATION ∨ c.state = TLV_TX_HEADER_REF_BLOCK_PREFIX) ∧
          c.currentFieldLength ≠ sizeof_uint32_t) ∨
        (c.state = TLV_TX_HEADER_REF_BLOCK_NUM ∧ c.currentFieldLength ≠ sizeof_uint16_t) ∨
        (c.state = TLV_TX_HEADER_MAX_CPU_USAGE_MS ∧ c.currentFieldLength ≠ sizeof_uint8_t)
      then none
      else some (hashFieldBytes c) := by
    funext c
    rw [processHeaderField_eq]
    by_cases h1 : c.isSequence = true <;>
      by_cases h2 : ((c.state = TLV_TX_HEADER_EXPITATION ∨
        c.state = TLV_TX_HEADER_REF_BLOCK_PREFIX) ∧ c.currentFieldLength ≠ sizeof_uint32_t) <;>
      by_cases h3 : (c.state = TLV_TX_HEADER_REF_BLOCK_NUM ∧
        c.currentFieldLength ≠ sizeof_uint16_t) <;>
      by_cases h4 : (c.state = TLV_TX_HEADER_MAX_CPU_USAGE_MS ∧
        c.currentFieldLength ≠ sizeof_uint8_t) <;> simp only [h1, h2, h3, h4] <;> simp
  rw [e]
  apply extendsWell_of_guard _ _ _ hashFieldBytes_extend
  intro c c2 h1 h2 h3
  rw [h1, h2, h3]

/-- The cached header consumer extends well. -/
theorem processHeaderField2_extendsWell (E : Platform) :
    ExtendsWell (processHeaderField2 E) := by
  have e : processHeaderField2 E = fun c =>
      if c.isSequence = true ∨
        ((c.state = TLV_TX_HEADER_MAX_NET_USAGE_WORDS ∨
            c.state = TLV_TX_HEADER_DELAY_SEC) ∧
          c.currentFieldLength ≠ E.sizeof_fc_unsigned_int_t)
      then none
      else some (cacheFieldBytes E c) := by
    funext c
    rw [processHeaderField2_eq]
    by_cases h1 : c.isSequence = true <;>
      by_cases h2 : ((c.state = TLV_TX_HEADER_MAX_NET_USAGE_WORDS ∨
        c.state = TLV_TX_HEADER_DELAY_SEC) ∧
        c.currentFieldLength ≠ E.sizeof_fc_unsigned_int_t) <;> simp only [h1, h2] <;> simp
  rw [e]
  apply extendsWell_of_guard _ _ _ (cacheFieldBytes_extend E)
  intro c c2 h1 h2 h3
  rw [h1, h2, h3]

/-- A consumer that does not look at the unread bytes extends well. -/
theorem extendsWell_of_blind (f : txProcessingContext_t → Option txProcessingContext_t)
    (h : ∀ (c : txProcessingContext_t) (b2 : List Nat),
      f (c.extend b2) = (f c).map (fun c2 => c2.extend b2)) : ExtendsWell f := by
  intro c b2
  constructor
  · intro hn
    rw [h, hn]
    rfl
  · intro c2 hs
    left
    rw [h, hs]
    rfl

/-- The consumer of the context-free actions extends well. -/
theorem processCtxFreeActions_extendsWell (E : Platform) :
    ExtendsWell (processCtxFreeActions E) := by
  apply extendsWell_of_blind
  intro c b2
  unfold processCtxFreeActions
  simp only [txProcessingContext_t.extend, hashTxData]
  split_ifs <;> rfl

/-- The consumer of the transaction extensions extends well. -/
theorem processTxExtensions_extendsWell (E : Platform) :
    ExtendsWell (processTxExtensions E) := by
  apply extendsWell_of_blind
  intro c b2
  unfold processTxExtensions
  simp only [txProcessingContext_t.extend, hashTxData]
  split_ifs <;> rfl

/-- The consumer of the context-free data extends well. -/
theorem processCtxFreeData_extendsWell : ExtendsWell processCtxFreeData := by
  apply extendsWell_of_blind
  intro c b2
  unfold processCtxFreeData
  simp only [txProcessingContext_t.extend, hashTxData]
  split_ifs <;> rfl

/-- The consumer of the actions extends well. -/
theorem processActions_extendsWell : ExtendsWell processActions := by
  apply extendsWell_of_blind
  intro c b2
  unfold processActions
  simp only [txProcessingContext_t.extend]
  split_ifs <;> rfl
/-- The tag loop reads the unread bytes it is given, not those of the context. -/
theorem tlvDecodeLoop_workBuffer (E : Platform) (w x : List Nat)
    (c : txProcessingContext_t) :
    tlvDecodeLoop E w { c with workBuffer := x } = tlvDecodeLoop E w c := by
  cases w <;> simp [tlvDecodeLoop, readTxByte]

/-- The tag loop never raises: it reads a byte only when there is one. -/
theorem tlvDecodeLoop_ne_raised (E : Platform) :
    ∀ (w : List Nat) (c c1 : txProcessingContext_t), tlvDecodeLoop E w c ≠ .raised c1 := by
  intro w
  induction w with
  | nil => intro c c1; simp [tlvDecodeLoop]
  | cons b rest ih =>
    intro c c1
    simp only [tlvDecodeLoop, readTxByte]
    split_ifs
    · simp
    · simp
    · simp
    · exact ih _ _

/-- A tag loop that ends without a decoded tag has read the whole chunk. -/
theorem tlvDecodeLoop_pending (E : Platform) :
    ∀ (w : List Nat) (c c1 : txProcessingContext_t),
      tlvDecodeLoop E w c = .pending c1 → c1.workBuffer = [] := by
  intro w
  induction w with
  | nil =>
    intro c c1 h
    simp [tlvDecodeLoop] at h
    subst h
    rfl
  | cons b rest ih =>
    intro c c1 h
    simp only [tlvDecodeLoop, readTxByte] at h
    split_ifs at h
    exact ih _ _ h

/-- The tag loop on a chunk followed by further bytes: a fault or a decoded tag
within the chunk is the same with the further bytes left unread; otherwise the
loop goes on with the further bytes. -/
theorem tlvDecodeLoop_append (E : Platform) (b2 : List Nat) :
    ∀ (w : List Nat) (c : txProcessingContext_t),
      tlvDecodeLoop E (w ++ b2) c =
        match tlvDecodeLoop E w c with
        | .fault c1 => .fault (c1.extend b2)
        | .raised c1 => .raised (c1.extend b2)
        | .decoded c1 => .decoded (c1.extend b2)
        | .pending c1 => tlvDecodeLoop E b2 c1 := by
  intro w
  induction w with
  | nil =>
    intro c
    simp only [List.nil_append, tlvDecodeLoop]
    exact (tlvDecodeLoop_workBuffer E b2 [] c).symm
  | cons b rest ih =>
    intro c
    simp only [List.cons_append, tlvDecodeLoop, readTxByte]
    split_ifs
    · rfl
    · rfl
    · rfl
    · rw [← ih]
      conv_rhs => rw [← tlvDecodeLoop_workBuffer E (rest ++ b2) (rest ++ b2)]
      rfl

/-- The `switch` calls the consumer selected by the state. -/
theorem dispatch_eq (E : Platform) (c : txProcessingContext_t) :
    dispatch E c =
      match selectConsumer E c.state with
      | some f => afterConsumer c (f c)
      | none => .leave (.returned STREAM_FAULT c) := by
  unfold dispatch selectConsumer
  split_ifs <;> rfl

/-- In a state with a consumer, the `switch` is the call of that consumer. -/
theorem dispatch_of_select (E : Platform) {c : txProcessingContext_t}
    {f : txProcessingContext_t → Option txProcessingContext_t}
    (h : selectConsumer E c.state = some f) : dispatch E c = afterConsumer c (f c) := by
  rw [dispatch_eq, h]

/-- Every consumer of the `switch` extends well. -/
theorem selectConsumer_extendsWell (E : Platform) {state : Nat}
    {f : txProcessingContext_t → Option txProcessingContext_t}
    (h : selectConsumer E state = some f) : ExtendsWell f := by
  unfold selectConsumer at h
  split_ifs at h <;> simp at h <;> subst h
  · exact processChainId_extendsWell
  · exact processHeaderField_extendsWell
  · exact processHeaderField2_extendsWell E
  · exact processCtxFreeActions_extendsWell E
  · exact processActions_extendsWell
  · exact processTxExtensions_extendsWell E
  · exact processCtxFreeData_extendsWell

/-- The `switch` with further unread bytes behind those of the context: a
fault is the same fault; a normal return is the same return with the further
bytes left unread, or the consumer used up its bytes without completing the
field, and the `switch` on the further bytes then gives what it gives on all
the bytes at once. -/
theorem dispatch_extend (E : Platform) (c : txProcessingContext_t) (b2 : List Nat) :
    (∀ r, dispatch E c = .leave r → dispatch E (c.extend b2) = .leave (r.extend b2)) ∧
    (∀ c2, dispatch E c = .again c2 →
      dispatch E (c.extend b2) = .again (c2.extend b2) ∨
      (c2.workBuffer = [] ∧ c2.state = c.state ∧
        c2.processingField = c.processingField ∧
        dispatch E { c2 with workBuffer := b2 } = dispatch E (c.extend b2))) := by
  have se : (c.extend b2).state = c.state := rfl
  cases hsel : selectConsumer E c.state with
  | none =>
    constructor
    · intro r hr
      rw [dispatch_eq, hsel] at hr
      simp only [Iteration.leave.injEq] at hr
      subst hr
      rw [dispatch_eq, se, hsel]
      rfl
    · intro c2 hc
      rw [dispatch_eq, hsel] at hc
      cases hc
  | some f =>
    obtain ⟨h1, h2⟩ := selectConsumer_extendsWell E hsel c b2
    constructor
    · intro r hr
      rw [dispatch_eq, hsel] at hr
      simp only at hr
      rw [afterConsumer_leave] at hr
      obtain ⟨hn, rfl⟩ := hr
      rw [dispatch_eq, se, hsel]
      simp only [h1 hn]
      rfl
    · intro c2 hc
      rw [dispatch_eq, hsel] at hc
      simp only at hc
      rw [afterConsumer_again] at hc
      rcases h2 c2 hc with h | ⟨ha, hb, hd, c3, he, hf2⟩
      · left
        rw [dispatch_eq, se, hsel]
        simp only [h]
        rfl
      · right
        refine ⟨ha, hb, hd, ?_⟩
        have hsel2 : selectConsumer E
            ({ c2 with workBuffer := b2 } : txProcessingContext_t).state = some f := by
          show selectConsumer E c2.state = some f
          rw [hb]
          exact hsel
        have hsel3 : selectConsumer E (c.extend b2).state = some f := hsel
        rw [dispatch_of_select E hsel2, dispatch_of_select E hsel3, he, hf2]
        rfl

/-- Extending a context whose chunk is exhausted installs the further bytes. -/
theorem extend_of_empty {c : txProcessingContext_t} (h : c.workBuffer = [])
    (b2 : List Nat) : c.extend b2 = { c with workBuffer := b2 } := by
  simp [txProcessingContext_t.extend, h]

/-- The head of the loop body with further unread bytes behind the chunk, when
it reaches the `switch`: it reaches it in the same way. -/
theorem loopHead_extend_again (E : Platform) {c c1 : txProcessingContext_t} (b2 : List Nat)
    (h : loopHead E c = .again c1) : loopHead E (c.extend b2) = .again (c1.extend b2) := by
  have a := loopHead_again E h
  have hlen : ¬ (c.extend b2).commandLength = 0 := by
    have := a.2.1
    simp [txProcessingContext_t.commandLength, txProcessingContext_t.extend, this]
  unfold loopHead at h ⊢
  rw [if_neg a.1] at h
  rw [if_neg (show ¬ (c.extend b2).state = TLV_TX_DONE from a.1), if_neg hlen]
  have hl0 : ¬ c.commandLength = 0 := by
    have := a.2.1
    simp [txProcessingContext_t.commandLength, this]
  rw [if_neg hl0] at h
  by_cases hp : c.processingField = true
  · have hp2 : (c.extend b2).processingField = true := hp
    simp only [hp, hp2, Bool.not_true, Bool.false_eq_true, if_false] at h ⊢
    simp only [Iteration.again.injEq] at h
    subst h
    rfl
  · have hp1 : c.processingField = false := by simpa using hp
    have hp2 : (c.extend b2).processingField = false := hp1
    simp only [hp1, hp2, Bool.not_false, if_true] at h ⊢
    have e : tlvDecodeLoop E (c.extend b2).workBuffer (c.extend b2) =
        tlvDecodeLoop E (c.workBuffer ++ b2) c :=
      tlvDecodeLoop_workBuffer E _ _ c
    rw [e, tlvDecodeLoop_append]
    cases hd : tlvDecodeLoop E c.workBuffer c with
    | fault c2 => simp [hd] at h
    | raised c2 => simp [hd] at h
    | pending c2 => simp [hd] at h
    | decoded c2 =>
      rw [hd] at h
      simp only [Iteration.again.injEq] at h
      subst h
      rfl

/-- The head of the loop body with further unread bytes behind the chunk, when
it ends the call with a status other than `STREAM_PROCESSING`: it ends it in
the same way. -/
theorem loopHead_extend_leave (E : Platform) {c : txProcessingContext_t} {r : Completion}
    (b2 : List Nat) (h : loopHead E c = .leave r) (hr : r.status ≠ STREAM_PROCESSING) :
    loopHead E (c.extend b2) = .leave (r.extend b2) := by
  unfold loopHead at h ⊢
  by_cases h0 : c.state = TLV_TX_DONE
  · have h0e : (c.extend b2).state = TLV_TX_DONE := h0
    rw [if_pos h0] at h
    rw [if_pos h0e]
    simp only [Iteration.leave.injEq] at h
    subst h
    rfl
  · rw [if_neg h0] at h
    by_cases h1 : c.commandLength = 0
    · rw [if_pos h1] at h
      simp only [Iteration.leave.injEq] at h
      subst h
      exact absurd rfl hr
    · rw [if_neg h1] at h
      have hlen : ¬ (c.extend b2).commandLength = 0 := by
        simp only [txProcessingContext_t.commandLength, txProcessingContext_t.extend,
          List.length_append] at h1 ⊢
        omega
      rw [if_neg (show ¬ (c.extend b2).state = TLV_TX_DONE from h0), if_neg hlen]
      by_cases hp : c.processingField = true
      · simp [hp] at h
      · have hp1 : c.processingField = false := by simpa using hp
        have hp2 : (c.extend b2).processingField = false := hp1
        simp only [hp1, hp2, Bool.not_false, if_true] at h ⊢
        have e : tlvDecodeLoop E (c.extend b2).workBuffer (c.extend b2) =
            tlvDecodeLoop E (c.workBuffer ++ b2) c :=
          tlvDecodeLoop_workBuffer E _ _ c
        rw [e, tlvDecodeLoop_append]
        cases hd : tlvDecodeLoop E c.workBuffer c with
        | fault c2 =>
          rw [hd] at h
          simp only [Iteration.leave.injEq] at h
          subst h
          rfl
        | raised c2 =>
          rw [hd] at h
          simp only [Iteration.leave.injEq] at h
          subst h
          rfl
        | pending c2 =>
          rw [hd] at h
          simp only [Iteration.leave.injEq] at h
          subst h
          exact absurd rfl hr
        | decoded c2 => simp [hd] at h

/-- The head of the loop body when it returns `STREAM_PROCESSING`: the chunk is
exhausted, the state is not `TLV_TX_DONE`, and on a further chunk that is not
empty the head does what it does on the two chunks put together. -/
theorem loopHead_extend_processing (E : Platform) {c c1 : txProcessingContext_t}
    (b2 : List Nat) (h : loopHead E c = .leave (.returned STREAM_PROCESSING c1)) :
    c1.workBuffer = [] ∧ c1.state ≠ TLV_TX_DONE ∧
    (b2 ≠ [] → loopHead E { c1 with workBuffer := b2 } = loopHead E (c.extend b2)) := by
  unfold loopHead at h
  by_cases h0 : c.state = TLV_TX_DONE
  · simp [h0] at h
  · rw [if_neg h0] at h
    by_cases h1 : c.commandLength = 0
    · rw [if_pos h1] at h
      simp only [Iteration.leave.injEq, Completion.returned.injEq, true_and] at h
      subst h
      have hw : c.workBuffer = [] := by
        simpa [txProcessingContext_t.commandLength] using h1
      refine ⟨hw, h0, fun _ => ?_⟩
      rw [extend_of_empty hw]
    · rw [if_neg h1] at h
      by_cases hp : c.processingField = true
      · simp [hp] at h
      · have hp1 : c.processingField = false := by simpa using hp
        simp only [hp1, Bool.not_false, if_true] at h
        have fr := tlvDecodeLoop_frame E c.workBuffer c
        cases hd : tlvDecodeLoop E c.workBuffer c with
        | fault c2 => simp [hd] at h
        | raised c2 => simp [hd] at h
        | decoded c2 => simp [hd] at h
        | pending c2 =>
          rw [hd] at h fr
          simp only [Iteration.leave.injEq, Completion.returned.injEq, true_and] at h
          subst h
          simp only [TlvLoop.ctx] at fr
          have hw := tlvDecodeLoop_pending E _ _ _ hd
          refine ⟨hw, by rw [fr.1]; exact h0, fun hb => ?_⟩
          have hlen2 : ¬ ({ c2 with workBuffer := b2 } : txProcessingContext_t).commandLength
              = 0 := by
            simpa [txProcessingContext_t.commandLength] using hb
          have hlen : ¬ (c.extend b2).commandLength = 0 := by
            simp only [txProcessingContext_t.commandLength, txProcessingContext_t.extend,
              List.length_append] at h1 ⊢
            omega
          have hp2 : (c.extend b2).processingField = false := hp1
          have hp3 : c2.processingField = false := by
            rw [fr.2.2.1]
            exact hp1
          have hs3 : ¬ ({ c2 with workBuffer := b2 } : txProcessingContext_t).state
              = TLV_TX_DONE := by
            show ¬ c2.state = TLV_TX_DONE
            rw [fr.1]
            exact h0
          unfold loopHead
          rw [if_neg hs3, if_neg hlen2,
            if_neg (show ¬ (c.extend b2).state = TLV_TX_DONE from h0), if_neg hlen]
          have e : tlvDecodeLoop E (c.extend b2).workBuffer (c.extend b2) =
              tlvDecodeLoop E (c.workBuffer ++ b2) c :=
            tlvDecodeLoop_workBuffer E _ _ c
          have e2 : tlvDecodeLoop E b2 { c2 with workBuffer := b2 } =
              tlvDecodeLoop E b2 c2 :=
            tlvDecodeLoop_workBuffer E _ _ c2
          rw [e2, e, tlvDecodeLoop_append, hd]
          simp only [hp2, hp3, Bool.not_false, if_true]

/-- On an exhausted chunk, outside `TLV_TX_DONE`, the loop returns
`STREAM_PROCESSING` at once and leaves the context alone. -/
theorem loopBody_of_empty (E : Platform) {c : txProcessingContext_t}
    (hw : c.workBuffer = []) (hs : c.state ≠ TLV_TX_DONE) :
    loopBody E c = .leave (.returned STREAM_PROCESSING c) := by
  simp [loopBody, loopHead, txProcessingContext_t.commandLength, hw, hs]

/-- A completion whose status is `STREAM_PROCESSING` is a return of it. -/
theorem Completion.eq_of_status_processing {r : Completion}
    (h : r.status = STREAM_PROCESSING) : r = .returned STREAM_PROCESSING r.ctx := by
  cases r with
  | returned s c => simp [Completion.status] at h; subst h; rfl
  | raised c => simp [Completion.status] at h

/-- Two contexts on which the loop body does the same give the same run. -/
theorem processTxInternal_congr (E : Platform) {c d : txProcessingContext_t}
    (h : loopBody E c = loopBody E d) (fuel : Nat) :
    processTxInternal E fuel c = processTxInternal E fuel d := by
  cases fuel with
  | zero => rfl
  | succ n => simp only [processTxInternal, h]

/-- A pass of the loop that returns `STREAM_PROCESSING`, seen from a run with
further bytes behind the chunk. -/
theorem loopBody_extend_processing (E : Platform) {c c1 : txProcessingContext_t}
    (b2 : List Nat) (h : loopBody E c = .leave (.returned STREAM_PROCESSING c1)) :
    c1.workBuffer = [] ∧ c1.state ≠ TLV_TX_DONE ∧
    (b2 ≠ [] → loopBody E { c1 with workBuffer := b2 } = loopBody E (c.extend b2)) := by
  rcases (loopBody_leave_iff E).1 h with hh | ⟨c0, _, hd⟩
  · obtain ⟨h1, h2, h3⟩ := loopHead_extend_processing E b2 hh
    refine ⟨h1, h2, fun hb => ?_⟩
    unfold loopBody
    rw [h3 hb]
  · have := (dispatch_leave E hd).2
    simp [Completion.status] at this

/-- A pass of the loop that ends the call with another status than
`STREAM_PROCESSING` does the same with further bytes behind the chunk. -/
theorem loopBody_extend_leave (E : Platform) {c : txProcessingContext_t} {r : Completion}
    (b2 : List Nat) (h : loopBody E c = .leave r) (hr : r.status ≠ STREAM_PROCESSING) :
    loopBody E (c.extend b2) = .leave (r.extend b2) := by
  rcases (loopBody_leave_iff E).1 h with hh | ⟨c0, hh, hd⟩
  · exact (loopBody_leave_iff E).2 (Or.inl (loopHead_extend_leave E b2 hh hr))
  · exact (loopBody_leave_iff E).2
      (Or.inr ⟨c0.extend b2, loopHead_extend_again E b2 hh, (dispatch_extend E c0 b2).1 r hd⟩)

/-- A pass of the loop that goes round again, seen from a run with further
bytes behind the chunk: the same pass, or the pass used up the chunk in the
middle of a field and the loop on the further bytes continues as the loop on
all the bytes. -/
theorem loopBody_extend_again (E : Platform) {c c2 : txProcessingContext_t}
    (b2 : List Nat) (h : loopBody E c = .again c2) :
    loopBody E (c.extend b2) = .again (c2.extend b2) ∨
    (c2.workBuffer = [] ∧ c2.state ≠ TLV_TX_DONE ∧
      (b2 ≠ [] → loopBody E { c2 with workBuffer := b2 } = loopBody E (c.extend b2))) := by
  obtain ⟨c1, hh, hd⟩ := (loopBody_again_iff E).1 h
  have a := loopHead_again E hh
  have he := loopHead_extend_again E b2 hh
  rcases (dispatch_extend E c1 b2).2 c2 hd with hl | ⟨h1, h2, h3, h4⟩
  · left
    exact (loopBody_again_iff E).2 ⟨c1.extend b2, he, hl⟩
  · right
    have hs : c2.state ≠ TLV_TX_DONE := by
      rw [h2, a.2.2.2.1]
      exact a.1
    refine ⟨h1, hs, fun hb => ?_⟩
    have hp : c2.processingField = true := by rw [h3]; exact a.2.2.1
    have hlen : ¬ ({ c2 with workBuffer := b2 } : txProcessingContext_t).commandLength = 0 := by
      simpa [txProcessingContext_t.commandLength] using hb
    have head2 : loopHead E { c2 with workBuffer := b2 } =
        .again { c2 with workBuffer := b2 } := by
      unfold loopHead
      rw [if_neg (show ¬ c2.state = TLV_TX_DONE from hs), if_neg hlen]
      simp [hp]
    unfold loopBody
    rw [head2, he]
    exact h4

/-- The junction of two chunks: when the run on the first chunk has returned
`STREAM_PROCESSING` with context `c1`, and the loop body on the second chunk
from `c1` is the loop body on both chunks from the context `d`, the run on the
second chunk and the run on both chunks have the same results. -/
theorem processTxInternal_junction (E : Platform) {c1 d : txProcessingContext_t}
    {b2 : List Nat} {f0 : Nat}
    (hw : c1.workBuffer = []) (hs : c1.state ≠ TLV_TX_DONE)
    (hb : b2 ≠ [] → loopBody E { c1 with workBuffer := b2 } = loopBody E (d.extend b2))
    (h0 : processTxInternal E f0 d = some (.returned STREAM_PROCESSING c1))
    (r : Completion) :
    (∃ f2, processTxInternal E f2 { c1 with workBuffer := b2 } = some r) ↔
    (∃ f, processTxInternal E f (d.extend b2) = some r) := by
  by_cases hb2 : b2 = []
  · subst hb2
    have e1 : ({ c1 with workBuffer := [] } : txProcessingContext_t) = c1 := by
      cases c1
      simp at hw
      simp [hw]
    have e2 : d.extend [] = d := by
      simp [txProcessingContext_t.extend]
    rw [e1, e2]
    have k1 : processTxInternal E 1 c1 = some (.returned STREAM_PROCESSING c1) := by
      simp [processTxInternal, loopBody_of_empty E hw hs]
    constructor
    · rintro ⟨f2, h2⟩
      have := processTxInternal_deterministic E h2 k1
      subst this
      exact ⟨f0, h0⟩
    · rintro ⟨f, h⟩
      have := processTxInternal_deterministic E h h0
      subst this
      exact ⟨1, k1⟩
  · have e := processTxInternal_congr E (hb hb2)
    constructor
    · rintro ⟨f2, h2⟩
      exact ⟨f2, by rw [← e]; exact h2⟩
    · rintro ⟨f, h⟩
      exact ⟨f, by rw [e]; exact h⟩

/-- Chunk-boundary independence of the loop: when the run on a chunk returns
`STREAM_PROCESSING` with context `c1`, the run on a second chunk from `c1` and
the run on both chunks at once have the same results. -/
theorem processTxInternal_split (E : Platform) (b2 : List Nat) (r : Completion) :
    ∀ (fuel : Nat) (c c1 : txProcessingContext_t),
      processTxInternal E fuel c = some (.returned STREAM_PROCESSING c1) →
      ((∃ f2, processTxInternal E f2 { c1 with workBuffer := b2 } = some r) ↔
        (∃ f, processTxInternal E f (c.extend b2) = some r)) := by
  intro fuel
  induction fuel with
  | zero => intro c c1 h; simp [processTxInternal] at h
  | succ n ih =>
    intro c c1 h
    have h0 := h
    simp only [processTxInternal] at h
    cases hb : loopBody E c with
    | leave r0 =>
      rw [hb] at h
      simp only [Option.some.injEq] at h
      subst h
      obtain ⟨h1, h2, h3⟩ := loopBody_extend_processing E b2 hb
      exact processTxInternal_junction E h1 h2 h3 h0 r
    | again c2 =>
      rw [hb] at h
      simp only at h
      rcases loopBody_extend_again E b2 hb with hl | ⟨h1, h2, h3⟩
      · rw [ih c2 c1 h]
        constructor
        · rintro ⟨f, hf⟩
          exact ⟨f + 1, by simp only [processTxInternal, hl]; exact hf⟩
        · rintro ⟨f, hf⟩
          cases f with
          | zero => simp [processTxInternal] at hf
          | succ m =>
            simp only [processTxInternal, hl] at hf
            exact ⟨m, hf⟩
      · have k1 : processTxInternal E 1 c2 = some (.returned STREAM_PROCESSING c2) := by
          simp [processTxInternal, loopBody_of_empty E h1 h2]
        have := processTxInternal_deterministic E h k1
        simp only [Completion.returned.injEq, true_and] at this
        subst this
        exact processTxInternal_junction E h1 h2 h3 h0 r

/-- A run on a chunk followed by further bytes that comes to an end: the run on
the chunk alone comes to an end too, either with `STREAM_PROCESSING`, and then
the run on the further bytes from the context it leaves has the result of the
whole run, or with another status, and then the whole run has that very
result, the further bytes unread. -/
theorem processTxInternal_of_extend (E : Platform) (b2 : List Nat) (r2 : Completion) :
    ∀ (fuel : Nat) (c : txProcessingContext_t),
      processTxInternal E fuel (c.extend b2) = some r2 →
      ∃ f1 r1, processTxInternal E f1 c = some r1 ∧
        ((∃ c1, r1 = .returned STREAM_PROCESSING c1 ∧
            ∃ f2, processTxInternal E f2 { c1 with workBuffer := b2 } = some r2) ∨
          (r1.status ≠ STREAM_PROCESSING ∧ r2 = r1.extend b2)) := by
  intro fuel
  induction fuel with
  | zero => intro c h; simp [processTxInternal] at h
  | succ n ih =>
    intro c h
    cases hb : loopBody E c with
    | leave r1 =>
      have k : processTxInternal E 1 c = some r1 := by
        simp [processTxInternal, hb]
      refine ⟨1, r1, k, ?_⟩
      by_cases hp : r1.status = STREAM_PROCESSING
      · left
        have e := Completion.eq_of_status_processing hp
        refine ⟨r1.ctx, e, ?_⟩
        rw [e] at hb k
        obtain ⟨h1, h2, h3⟩ := loopBody_extend_processing E b2 hb
        exact (processTxInternal_junction E h1 h2 h3 k r2).2 ⟨n + 1, h⟩
      · right
        refine ⟨hp, ?_⟩
        have := loopBody_extend_leave E b2 hb hp
        simp only [processTxInternal, this, Option.some.injEq] at h
        exact h.symm
    | again c2 =>
      rcases loopBody_extend_again E b2 hb with hl | ⟨h1, h2, h3⟩
      · simp only [processTxInternal, hl] at h
        obtain ⟨f1, r1, hr, hcase⟩ := ih c2 h
        exact ⟨f1 + 1, r1, by simp only [processTxInternal, hb]; exact hr, hcase⟩
      · have k1 : processTxInternal E 1 c2 = some (.returned STREAM_PROCESSING c2) := by
          simp [processTxInternal, loopBody_of_empty E h1 h2]
        have k : processTxInternal E 2 c = some (.returned STREAM_PROCESSING c2) := by
          simp only [processTxInternal, hb] at k1 ⊢
          exact k1
        refine ⟨2, _, k, Or.inl ⟨c2, rfl, ?_⟩⟩
        exact (processTxInternal_junction E h1 h2 h3 k r2).2 ⟨n + 1, h⟩

/-- A call that returns `STREAM_PROCESSING`, in terms of the run of the loop. -/
theorem parseTx_eq_processing (E : Platform) {fuel : Nat} {c c1 : txProcessingContext_t}
    {buffer : List Nat} :
    parseTx E fuel c buffer = some (STREAM_PROCESSING, c1) ↔
      processTxInternal E fuel { c with workBuffer := buffer } =
        some (.returned STREAM_PROCESSING c1) := by
  rw [parseTx_eq_some]
  constructor
  · rintro ⟨r, hr, hs, hc⟩
    rw [hr, Completion.eq_of_status_processing hs, hc]
  · intro h
    exact ⟨_, h, rfl, rfl⟩

/-- Chunk-boundary independence of `parseTx` for a stream cut in two. -/
theorem parseTx_split (E : Platform) {c c1 : txProcessingContext_t} {b1 : List Nat}
    {f1 : Nat} (h : parseTx E f1 c b1 = some (STREAM_PROCESSING, c1))
    (b2 : List Nat) (s : parserStatus_e) (c2 : txProcessingContext_t) :
    (∃ f2, parseTx E f2 c1 b2 = some (s, c2)) ↔
    (∃ f, parseTx E f c (b1 ++ b2) = some (s, c2)) := by
  rw [parseTx_eq_processing] at h
  have key := fun r => processTxInternal_split E b2 r f1 _ c1 h
  have e : ({ c with workBuffer := b1 } : txProcessingContext_t).extend b2 =
      { c with workBuffer := b1 ++ b2 } := rfl
  constructor
  · rintro ⟨f2, h2⟩
    obtain ⟨r, hr, hs, hc⟩ := (parseTx_eq_some E).1 h2
    obtain ⟨f, hf⟩ := (key r).1 ⟨f2, hr⟩
    rw [e] at hf
    exact ⟨f, (parseTx_eq_some E).2 ⟨r, hf, hs, hc⟩⟩
  · rintro ⟨f, hf⟩
    obtain ⟨r, hr, hs, hc⟩ := (parseTx_eq_some E).1 hf
    rw [← e] at hr
    obtain ⟨f2, h2⟩ := (key r).2 ⟨f, hr⟩
    exact ⟨f2, (parseTx_eq_some E).2 ⟨r, h2, hs, hc⟩⟩

/-- Chunk-boundary independence for any number of chunks: when every call but
the last of a chunked delivery returns `STREAM_PROCESSING`, one call on the
concatenation of the chunks returns the status of the last call and leaves the
same context. -/
theorem feedChunks_flatten (E : Platform) :
    ∀ (chunks : List (List Nat)) (c c2 : txProcessingContext_t)
      (ss : List parserStatus_e) (fuel : Nat) (s : parserStatus_e),
      feedChunks E fuel c chunks = some (ss, c2) →
      (∀ x ∈ ss.dropLast, x = STREAM_PROCESSING) →
      ss.getLast? = some s →
      ∃ f, parseTx E f c chunks.flatten = some (s, c2) := by
  intro chunks
  induction chunks with
  | nil =>
    intro c c2 ss fuel s h _ hl
    simp [feedChunks] at h
    rw [h.1] at hl
    simp at hl
  | cons b more ih =>
    intro c c2 ss fuel s h hall hl
    simp only [feedChunks] at h
    cases hp : parseTx E fuel c b with
    | none => simp [hp] at h
    | some p =>
      obtain ⟨s0, c1⟩ := p
      rw [hp] at h
      simp only at h
      cases hm : feedChunks E fuel c1 more with
      | none => simp [hm] at h
      | some q =>
        obtain ⟨ss1, c3⟩ := q
        rw [hm] at h
        simp only [Option.some.injEq, Prod.mk.injEq] at h
        obtain ⟨rfl, rfl⟩ := h
        cases more with
        | nil =>
          simp [feedChunks] at hm
          obtain ⟨rfl, rfl⟩ := hm
          simp at hl
          subst hl
          exact ⟨fuel, by simpa using hp⟩
        | cons m ms =>
          cases ss1 with
          | nil =>
            simp only [feedChunks] at hm
            cases hq : parseTx E fuel c1 m with
            | none => simp [hq] at hm
            | some p2 =>
              rw [hq] at hm
              simp only at hm
              cases hq2 : feedChunks E fuel p2.2 ms with
              | none => simp [hq2] at hm
              | some q2 => simp [hq2] at hm
          | cons s1 ss2 =>
            have hs0 : s0 = STREAM_PROCESSING := by
              apply hall
              simp [List.dropLast]
            subst hs0
            have hall2 : ∀ x ∈ (s1 :: ss2).dropLast, x = STREAM_PROCESSING := by
              intro x hx
              apply hall
              simp only [List.dropLast_cons₂, List.mem_cons]
              exact Or.inr hx
            have hl2 : (s1 :: ss2).getLast? = some s := by
              simpa [List.getLast?_cons_cons] using hl
            obtain ⟨f, hf⟩ := ih c1 c3 (s1 :: ss2) fuel s hm hall2 hl2
            exact (parseTx_split E hp (m :: ms).flatten s c3).1 ⟨f, hf⟩

/-- C3: chunk-boundary independence.  When `parseTx` on a chunk `b1` returns
`STREAM_PROCESSING` and leaves the context `c1`, then `parseTx` on a chunk `b2`
from `c1` and a single `parseTx` on `b1 ++ b2` from the original context return
the same status and leave the same context (state, declared length, position,
kind flag, `processingField`, hash input, scratch buffer, cached scalar, unread
bytes), and one returns if and only if the other does.  Hence, for any number
of chunks, when all calls but the last return `STREAM_PROCESSING`, the last call
returns what one call on the whole byte string returns and leaves the same
context, in particular the same hash input.  `tlvTryDecode` is any function of
the accumulated tag bytes. -/
theorem chunk_boundary_independence (E : Platform) (c c1 : txProcessingContext_t)
    (b1 b2 : List Nat) (f1 : Nat)
    (h : parseTx E f1 c b1 = some (STREAM_PROCESSING, c1)) :
    (∀ (s : parserStatus_e) (c2 : txProcessingContext_t),
      (∃ f2, parseTx E f2 c1 b2 = some (s, c2)) ↔
      (∃ f, parseTx E f c (b1 ++ b2) = some (s, c2))) ∧
    (∀ (chunks : List (List Nat)) (d d2 : txProcessingContext_t)
        (ss : List parserStatus_e) (fuel : Nat) (s : parserStatus_e),
      feedChunks E fuel d chunks = some (ss, d2) →
      (∀ x ∈ ss.dropLast, x = STREAM_PROCESSING) →
      ss.getLast? = some s →
      ∃ f, parseTx E f d chunks.flatten = some (s, d2)) :=
  ⟨fun s c2 => parseTx_split E h b2 s c2, feedChunks_flatten E⟩

/-- C3 at a concrete input: the chain-id field `[4, 32]` followed by 32 bytes
0xAB and the first byte of the next tag, cut after 5 bytes.  The first call
returns `STREAM_PROCESSING`; the second call returns `STREAM_PROCESSING` in
state `TLV_TX_HEADER_EXPITATION` with the 32 chain-id bytes hashed, and so does
the single call on the 35 bytes. -/
theorem chunk_boundary_independence_witness :
    ∃ f, parseTx demoPlatform f (initTxContext demoPlatform)
        ([4, 32, 171, 171, 171] ++ (List.replicate 29 171 ++ [4])) =
      some (STREAM_PROCESSING,
        { initTxContext demoPlatform with
          state := TLV_TX_HEADER_EXPITATION
          sha256 := List.replicate 32 171
          currentFieldLength := 32
          currentFieldPos := 32
          tlvBuffer := [4, 32, 0, 0, 0]
          tlvBufferPos := 1 }) :=
  ((chunk_boundary_independence demoPlatform (initTxContext demoPlatform)
    { initTxContext demoPlatform with
      sha256 := [171, 171, 171]
      currentFieldLength := 32
      currentFieldPos := 3
      processingField := true
      tlvBuffer := [4, 32, 0, 0, 0] }
    [4, 32, 171, 171, 171] (List.replicate 29 171 ++ [4]) 3 (by decide)).1
    STREAM_PROCESSING _).1 ⟨3, by decide⟩

/-! ## C4: the bytes fed to the hash for the header -/

/-- Writing a byte behind the bytes already in the scratch buffer. -/
theorem take_set_succ (buf pre : List Nat) (b : Nat)
    (hp : buf.take pre.length = pre) (hlt : pre.length < buf.length) :
    (buf.set pre.length b).take (pre.length + 1) = pre ++ [b] := by
  have hset : buf.set pre.length b = buf.take pre.length ++ b :: buf.drop (pre.length + 1) := by
    rw [List.set_eq_take_append_cons_drop]
    simp [hlt]
  rw [hset, hp, List.take_append_eq_append_take]
  simp

/-- The tag loop on the remaining bytes of a tag, the bytes before them being
in the scratch buffer: the tag is decoded when its last byte is read. -/
theorem tlvDecodeLoop_tag_aux (E : Platform) {t : List Nat} {len : Nat} {seq : Bool}
    (ht : IsTag E t len seq) (rest : List Nat) :
    ∀ (suffix pre : List Nat) (c : txProcessingContext_t),
      pre ++ suffix = t → suffix ≠ [] →
      c.tlvBufferPos = pre.length → c.tlvBuffer.take pre.length = pre →
      c.tlvBuffer.length = E.sizeof_tlvBuffer →
      ∃ c1, tlvDecodeLoop E (suffix ++ rest) c = .decoded c1 ∧
        c1.workBuffer = rest ∧ c1.currentFieldLength = len ∧ c1.isSequence = seq ∧
        c1.tlvBuffer.length = E.sizeof_tlvBuffer := by
  obtain ⟨_, hfit, h32, hpre, hfull⟩ := ht
  intro suffix
  induction suffix with
  | nil => intro pre c _ hne; exact absurd rfl hne
  | cons b bs ih =>
    intro pre c hcat _ hpos htake hlen
    have hl : pre.length + (bs.length + 1) = t.length := by
      rw [← hcat]
      simp
    have hlt : pre.length < c.tlvBuffer.length := by omega
    have hmod : (pre.length + 1) % 4294967296 = pre.length + 1 :=
      Nat.mod_eq_of_lt (by omega)
    have hbytes : (c.tlvBuffer.set pre.length b).take (pre.length + 1) = pre ++ [b] :=
      take_set_succ c.tlvBuffer pre b htake hlt
    simp only [List.cons_append, tlvDecodeLoop, readTxByte, hpos, hmod, hbytes]
    by_cases hbs : bs = []
    · subst hbs
      have e : pre ++ [b] = t := hcat
      rw [e, hfull]
      simp [hlen]
    · have hk : pre.length + 1 < t.length := by
        have : 0 < bs.length := List.length_pos.2 hbs
        omega
      have e : pre ++ [b] = t.take (pre.length + 1) := by
        rw [← hcat]
        simp [List.take_append_eq_append_take]
      obtain ⟨hv, hd⟩ := hpre (pre.length + 1) hk (by omega)
      rw [e, hv, hd]
      have hns : ¬ pre.length + 1 = E.sizeof_tlvBuffer := by omega
      simp only [Bool.not_true, Bool.false_eq_true, if_false, hns]
      have := ih (pre ++ [b])
        { c with
          workBuffer := bs ++ rest
          tlvBuffer := c.tlvBuffer.set pre.length b
          tlvBufferPos := pre.length + 1
          currentFieldLength :=
            (E.tlvTryDecode (t.take (pre.length + 1))).fieldLength.getD c.currentFieldLength
          isSequence :=
            (E.tlvTryDecode (t.take (pre.length + 1))).isSequence.getD c.isSequence }
        (by simpa using hcat) hbs (by simp) (by simpa using hbytes) (by simpa using hlen)
      exact this

/-- Between two fields, on a chunk that begins with a whole tag, the head of the
loop body reaches the `switch` with the tag decoded and the rest of the chunk
unread. -/
theorem loopHead_tag (E : Platform) {t : List Nat} {len : Nat} {seq : Bool}
    (ht : IsTag E t len seq) {c : txProcessingContext_t} (rest : List Nat)
    (aw : AwaitingTag E c) (hs : c.state ≠ TLV_TX_DONE) (hw : c.workBuffer = t ++ rest) :
    ∃ c1, loopHead E c = .again c1 ∧
      c1.workBuffer = rest ∧ c1.currentFieldLength = len ∧ c1.isSequence = seq ∧
      c1.currentFieldPos = 0 ∧ c1.tlvBufferPos = 0 ∧ c1.processingField = true ∧
      c1.tlvBuffer.length = E.sizeof_tlvBuffer ∧ c1.state = c.state ∧
      c1.sha256 = c.sha256 ∧ c1.tempHeaderValue = c.tempHeaderValue := by
  obtain ⟨hp, hpos, hlen, _⟩ := aw
  obtain ⟨c2, hd, h1, h2, h3, h4⟩ :=
    tlvDecodeLoop_tag_aux E ht rest t [] c (by simp) ht.1 (by simpa using hpos) (by simp) hlen
  have fr := tlvDecodeLoop_frame E (t ++ rest) c
  rw [hd] at fr
  simp only [TlvLoop.ctx] at fr
  have hne : ¬ c.commandLength = 0 := by
    have : t ≠ [] := ht.1
    simp [txProcessingContext_t.commandLength, hw, this]
  refine ⟨{ c2 with currentFieldPos := 0, tlvBufferPos := 0, processingField := true },
    ?_, h1, h2, h3, rfl, rfl, rfl, h4, fr.1, fr.2.1, fr.2.2.2.2⟩
  unfold loopHead
  rw [if_neg hs, if_neg hne, hw, hd]
  simp [hp]

/-- A pass of the loop that goes round again costs one unit of fuel. -/
theorem processTxInternal_again (E : Platform) {c c1 : txProcessingContext_t}
    (h : loopBody E c = .again c1) (n : Nat) :
    processTxInternal E (n + 1) c = processTxInternal E n c1 := by
  simp only [processTxInternal, h]

/-- A field whose bytes are all in the chunk is hashed whole. -/
theorem hashFieldBytes_whole (c : txProcessingContext_t) (payload rest : List Nat)
    (hpos : c.currentFieldPos = 0) (hw : c.workBuffer = payload ++ rest)
    (hl : payload.length = c.currentFieldLength) :
    hashFieldBytes c =
      { c with
        state := c.state + 1
        sha256 := c.sha256 ++ payload
        currentFieldPos := c.currentFieldLength
        processingField := false
        workBuffer := rest } := by
  by_cases h0 : 0 < c.currentFieldLength
  · have h2 : ¬ (payload ++ rest).length < c.currentFieldLength := by
      simp only [List.length_append]
      omega
    have htk : (payload ++ rest).take c.currentFieldLength = payload := by
      rw [← hl]
      exact List.take_left' rfl
    have hdr : (payload ++ rest).drop c.currentFieldLength = rest := by
      rw [← hl]
      exact List.drop_left' rfl
    simp only [hashFieldBytes, hashTxData, txProcessingContext_t.commandLength, hpos, hw, h0,
      if_true, Nat.sub_zero, h2, if_false, htk, hdr, Nat.zero_add]
  · have h1 : c.currentFieldLength = 0 := by omega
    have hp : payload = [] := List.length_eq_zero.1 (by omega)
    simp [hashFieldBytes, hpos, hw, h1, hp]

/-- A cached field whose bytes are all in the chunk: the bytes are copied to the
addresses that follow the value of `tempHeaderValue`, and the packed value of
`tempHeaderValue` is hashed. -/
theorem cacheFieldBytes_whole (E : Platform) (c : txProcessingContext_t)
    (payload rest : List Nat)
    (hpos : c.currentFieldPos = 0) (hw : c.workBuffer = payload ++ rest)
    (hl : payload.length = c.currentFieldLength) :
    cacheFieldBytes E c =
      { c with
        state := c.state + 1
        sha256 := c.sha256 ++ E.pack_fc_unsigned_int (loadLE c.tempHeaderValue)
        currentFieldPos := c.currentFieldLength
        processingField := false
        workBuffer := rest
        strayWrites := os_memmove c.strayWrites (loadLE c.tempHeaderValue) payload } := by
  by_cases h0 : 0 < c.currentFieldLength
  · have h2 : ¬ (payload ++ rest).length < c.currentFieldLength := by
      simp only [List.length_append]
      omega
    have htk : (payload ++ rest).take c.currentFieldLength = payload := by
      rw [← hl]
      exact List.take_left' rfl
    have hdr : (payload ++ rest).drop c.currentFieldLength = rest := by
      rw [← hl]
      exact List.drop_left' rfl
    simp only [cacheFieldBytes, hashTxData, txProcessingContext_t.commandLength, hpos, hw, h0,
      if_true, Nat.sub_zero, h2, if_false, htk, hdr, Nat.zero_add, Nat.add_zero]
    simp
  · have h1 : c.currentFieldLength = 0 := by omega
    have hp : payload = [] := List.length_eq_zero.1 (by omega)
    simp [cacheFieldBytes, hashTxData, hpos, hw, h1, hp, os_memmove]

/-- One pass of the loop over a whole scalar field that is hashed as received
(tag and bytes in the chunk): the bytes of the field, and not the tag, are fed
to the hash, the state advances, and the parser waits for the next tag. -/
theorem loopBody_hashed_field (E : Platform) (c : txProcessingContext_t)
    (t payload rest : List Nat) (w : Nat) (aw : AwaitingTag E c)
    (hs : c.state = TLV_TX_CHAIN_ID ∨ c.state = TLV_TX_HEADER_EXPITATION ∨
      c.state = TLV_TX_HEADER_REF_BLOCK_NUM ∨ c.state = TLV_TX_HEADER_REF_BLOCK_PREFIX ∨
      c.state = TLV_TX_HEADER_MAX_CPU_USAGE_MS)
    (hwid : requiredWidth E c.state = some w) (ht : IsTag E t w false)
    (hp : payload.length = w) (hw : c.workBuffer = t ++ (payload ++ rest)) :
    ∃ c2, loopBody E c = .again c2 ∧ AwaitingTag E c2 ∧ c2.state = c.state + 1 ∧
      c2.sha256 = c.sha256 ++ payload ∧ c2.workBuffer = rest := by
  have hnd : c.state ≠ TLV_TX_DONE := by
    have sv := state_values
    omega
  obtain ⟨c1, hh, h1, h2, h3, h4, h5, h6, h7, h8, h9, h10⟩ :=
    loopHead_tag E ht (payload ++ rest) aw hnd hw
  have whole := hashFieldBytes_whole c1 payload rest h4 h1 (by rw [h2]; exact hp)
  have res : dispatch E c1 = .again (hashFieldBytes c1) := by
    rcases hs with h | h | h | h | h
    · have hsel : selectConsumer E c1.state = some processChainId := by
        rw [h8, h]
        rfl
      simp only [requiredWidth, h, if_true, Option.some.injEq] at hwid
      rw [dispatch_of_select E hsel, processChainId_eq]
      simp [h3, h2, ← hwid, afterConsumer]
    · have hsel : selectConsumer E c1.state = some processHeaderField := by
        rw [h8, h]
        rfl
      have hw4 : w = 4 := by
        rw [h] at hwid
        exact (Option.some.inj hwid).symm
      rw [dispatch_of_select E hsel, processHeaderField_eq]
      simp [h3, h2, h8, h, hw4, afterConsumer]
    · have hsel : selectConsumer E c1.state = some processHeaderField := by
        rw [h8, h]
        rfl
      have hw4 : w = 2 := by
        rw [h] at hwid
        exact (Option.some.inj hwid).symm
      rw [dispatch_of_select E hsel, processHeaderField_eq]
      simp [h3, h2, h8, h, hw4, afterConsumer]
    · have hsel : selectConsumer E c1.state = some processHeaderField := by
        rw [h8, h]
        rfl
      have hw4 : w = 4 := by
        rw [h] at hwid
        exact (Option.some.inj hwid).symm
      rw [dispatch_of_select E hsel, processHeaderField_eq]
      simp [h3, h2, h8, h, hw4, afterConsumer]
    · have hsel : selectConsumer E c1.state = some processHeaderField := by
        rw [h8, h]
        rfl
      have hw4 : w = 1 := by
        rw [h] at hwid
        exact (Option.some.inj hwid).symm
      rw [dispatch_of_select E hsel, processHeaderField_eq]
      simp [h3, h2, h8, h, hw4, afterConsumer]
  refine ⟨hashFieldBytes c1, (loopBody_again_iff E).2 ⟨c1, hh, res⟩, ?_, ?_, ?_, ?_⟩
  · rw [whole]
    exact ⟨rfl, h5, h7, by rw [h10]; exact aw.2.2.2⟩
  · rw [whole, ← h8]
  · rw [whole, ← h9]
  · rw [whole]

/-- One pass of the loop over a whole cached header field (tag and bytes in the
chunk): the packed value of `tempHeaderValue`, which is left as it was, is fed
to the hash, the state advances, and the parser waits for the next tag. -/
theorem loopBody_cached_field (E : Platform) (c : txProcessingContext_t)
    (t payload rest : List Nat) (aw : AwaitingTag E c)
    (hs : c.state = TLV_TX_HEADER_MAX_NET_USAGE_WORDS ∨ c.state = TLV_TX_HEADER_DELAY_SEC)
    (ht : IsTag E t E.sizeof_fc_unsigned_int_t false)
    (hp : payload.length = E.sizeof_fc_unsigned_int_t)
    (hw : c.workBuffer = t ++ (payload ++ rest)) :
    ∃ c2, loopBody E c = .again c2 ∧ AwaitingTag E c2 ∧ c2.state = c.state + 1 ∧
      c2.sha256 = c.sha256 ++ E.pack_fc_unsigned_int (loadLE c.tempHeaderValue) ∧
      c2.workBuffer = rest := by
  have hnd : c.state ≠ TLV_TX_DONE := by
    have sv := state_values
    omega
  obtain ⟨c1, hh, h1, h2, h3, h4, h5, h6, h7, h8, h9, h10⟩ :=
    loopHead_tag E ht (payload ++ rest) aw hnd hw
  have whole := cacheFieldBytes_whole E c1 payload rest h4 h1 (by rw [h2]; exact hp)
  have res : dispatch E c1 = .again (cacheFieldBytes E c1) := by
    have hsel : selectConsumer E c1.state = some (processHeaderField2 E) := by
      rw [h8]
      rcases hs with h | h <;> rw [h] <;> rfl
    rw [dispatch_of_select E hsel, processHeaderField2_eq]
    simp [h3, h2, afterConsumer]
  refine ⟨cacheFieldBytes E c1, (loopBody_again_iff E).2 ⟨c1, hh, res⟩, ?_, ?_, ?_, ?_⟩
  · rw [whole]
    exact ⟨rfl, h5, h7, by rw [← aw.2.2.2, ← h10]⟩
  · rw [whole, ← h8]
  · rw [whole, ← h9, ← h10]
  · rw [whole]

/-- One pass of the loop over the tag of the context-free actions with count 0:
the packed value of 0 is fed to the hash and the state advances. -/
theorem loopBody_ctxFreeActions (E : Platform) (c : txProcessingContext_t)
    (t rest : List Nat) (aw : AwaitingTag E c)
    (hs : c.state = TLV_TX_CONTEXT_FREE_ACTIONS)
    (ht : IsTag E t 0 true) (hw : c.workBuffer = t ++ rest) :
    ∃ c2, loopBody E c = .again c2 ∧ AwaitingTag E c2 ∧ c2.state = c.state + 1 ∧
      c2.sha256 = c.sha256 ++ E.pack_fc_unsigned_int 0 ∧ c2.workBuffer = rest := by
  have hnd : c.state ≠ TLV_TX_DONE := by
    have sv := state_values
    omega
  obtain ⟨c1, hh, h1, h2, h3, h4, h5, h6, h7, h8, h9, h10⟩ :=
    loopHead_tag E ht rest aw hnd hw
  have hsel : selectConsumer E c1.state = some (processCtxFreeActions E) := by
    rw [h8, hs]
    rfl
  have res : dispatch E c1 = .again
      { c1 with
        sha256 := c1.sha256 ++ E.pack_fc_unsigned_int 0
        state := c1.state + 1
        processingField := false } := by
    rw [dispatch_of_select E hsel]
    simp [processCtxFreeActions, hashTxData, h3, h2, afterConsumer]
  refine ⟨_, (loopBody_again_iff E).2 ⟨c1, hh, res⟩, ?_, ?_, ?_, ?_⟩
  · exact ⟨rfl, h5, h7, by rw [← aw.2.2.2, ← h10]⟩
  · simp [h8]
  · simp [h9]
  · exact h1

/-- A call that returns `STREAM_PROCESSING` on a byte string does so however
the byte string is cut into chunks: every call of the chunked delivery returns
`STREAM_PROCESSING`, and the last one leaves the same context. -/
theorem feedChunks_of_flatten (E : Platform) :
    ∀ (chunks : List (List Nat)) (c cF : txProcessingContext_t) (f : Nat),
      chunks ≠ [] →
      parseTx E f c chunks.flatten = some (STREAM_PROCESSING, cF) →
      ∃ fuel, feedChunks E fuel c chunks =
        some (List.replicate chunks.length STREAM_PROCESSING, cF) := by
  intro chunks
  induction chunks with
  | nil => intro c cF f hne; exact absurd rfl hne
  | cons b more ih =>
    intro c cF f _ h
    by_cases hm : more = []
    · subst hm
      simp only [List.flatten_cons, List.flatten_nil, List.append_nil] at h
      exact ⟨f, by simp [feedChunks, h]⟩
    · rw [List.flatten_cons, parseTx_eq_processing] at h
      have e : ({ c with workBuffer := b ++ more.flatten } : txProcessingContext_t) =
          ({ c with workBuffer := b } : txProcessingContext_t).extend more.flatten := rfl
      rw [e] at h
      obtain ⟨f1, r1, hr1, hcase⟩ := processTxInternal_of_extend E _ _ f _ h
      rcases hcase with ⟨c1, rfl, f2, h2⟩ | ⟨hns, heq⟩
      · have p1 : parseTx E f1 c b = some (STREAM_PROCESSING, c1) :=
          (parseTx_eq_processing E).2 hr1
        have p2 : parseTx E f2 c1 more.flatten = some (STREAM_PROCESSING, cF) :=
          (parseTx_eq_processing E).2 h2
        obtain ⟨fuel, hf⟩ := ih c1 cF f2 hm p2
        refine ⟨max f1 fuel, ?_⟩
        have q1 := parseTx_fuel_le E (Nat.le_max_left f1 fuel) p1
        have q2 := feedChunks_fuel_le E (Nat.le_max_right f1 fuel) _ _ _ hf
        simp [feedChunks, q1, q2, List.replicate_succ]
      · exfalso
        apply hns
        cases r1 with
        | returned s d =>
          simp only [Completion.extend, Completion.returned.injEq] at heq
          simp [Completion.status, heq.1]
        | raised d => simp [Completion.extend] at heq

/-! ## C14, C18 and C15: the terminal state, the empty chunk, the empty sequences -/

/-- C14: once the context is in state `TLV_TX_DONE`, `parseTx` returns
`STREAM_FINISHED` for every chunk, empty or not, in the first pass of the loop.
The context it leaves is the one it was given with the chunk installed and
wholly unread: no byte is read, nothing is fed to the hash, and state, declared
length, position, kind flag, `processingField`, scratch buffer and cached
scalar are unchanged. -/
theorem done_is_final (E : Platform) (fuel : Nat) (c : txProcessingContext_t)
    (buffer : List Nat) (hs : c.state = TLV_TX_DONE) :
    parseTx E (fuel + 1) c buffer =
      some (STREAM_FINISHED, { c with workBuffer := buffer }) := by
  have hb : loopBody E { c with workBuffer := buffer } =
      .leave (.returned STREAM_FINISHED { c with workBuffer := buffer }) := by
    simp [loopBody, loopHead, hs]
  exact parseTx_of_loopBody_leave E fuel hb

/-- C14 at a concrete input: in `TLV_TX_DONE` the chunk `[1, 2, 3]` is left
unread and `STREAM_FINISHED` is returned. -/
theorem done_is_final_witness :
    parseTx demoPlatform 1 { initTxContext demoPlatform with state := TLV_TX_DONE }
        [1, 2, 3] =
      some (STREAM_FINISHED,
        { initTxContext demoPlatform with state := TLV_TX_DONE, workBuffer := [1, 2, 3] }) :=
  done_is_final demoPlatform 0 { initTxContext demoPlatform with state := TLV_TX_DONE }
    [1, 2, 3] rfl

/-- C18: outside `TLV_TX_DONE`, on an empty chunk `parseTx` returns
`STREAM_PROCESSING` in the first pass of the loop and leaves the context it was
given (state, hash input, declared length, position, kind flag,
`processingField`, scratch buffer, cached scalar), the chunk view being empty.
The loop is left by its head, before the `switch`: no consumer is invoked. -/
theorem empty_chunk_is_processing (E : Platform) (fuel : Nat)
    (c : txProcessingContext_t) (hs : c.state ≠ TLV_TX_DONE) :
    parseTx E (fuel + 1) c [] = some (STREAM_PROCESSING, { c with workBuffer := [] }) ∧
    loopHead E { c with workBuffer := [] } =
      .leave (.returned STREAM_PROCESSING { c with workBuffer := [] }) := by
  have hh : loopHead E { c with workBuffer := [] } =
      .leave (.returned STREAM_PROCESSING { c with workBuffer := [] }) := by
    simp [loopHead, txProcessingContext_t.commandLength, hs]
  exact ⟨parseTx_of_loopBody_leave E fuel ((loopBody_leave_iff E).2 (Or.inl hh)), hh⟩

/-- C18 at a concrete input: in the middle of the chain id the empty chunk
changes nothing. -/
theorem empty_chunk_is_processing_witness :
    parseTx demoPlatform 1
        { initTxContext demoPlatform with
          sha256 := [171, 171]
          currentFieldLength := 32
          currentFieldPos := 2
          processingField := true } [] =
      some (STREAM_PROCESSING,
        { initTxContext demoPlatform with
          sha256 := [171, 171]
          currentFieldLength := 32
          currentFieldPos := 2
          processingField := true }) :=
  (empty_chunk_is_processing demoPlatform 0
    { initTxContext demoPlatform with
      sha256 := [171, 171]
      currentFieldLength := 32
      currentFieldPos := 2
      processingField := true } (by decide)).1

/-- C15: synthetic substitutions for empty sequences.  With a sequence tag that
declares count 0, the consumers of the context-free actions and of the
transaction extensions feed exactly the bytes `pack_fc_unsigned_int(0)` to the
hash, the consumer of the context-free data feeds exactly 32 zero bytes; each
of the three leaves the unread bytes (and everything else) as they are, clears
`processingField` and adds one to the state, the context-free data reaching
`TLV_TX_DONE`.  In their states these are the calls the `switch` makes.  For
the varint codec of the specification the packed value of 0 is the byte 0. -/
theorem empty_sequence_substitutions (E : Platform) (c : txProcessingContext_t)
    (hq : c.isSequence = true) (hl : c.currentFieldLength = 0) :
    processCtxFreeActions E c =
      some { c with
        sha256 := c.sha256 ++ E.pack_fc_unsigned_int 0
        state := c.state + 1
        processingField := false } ∧
    processTxExtensions E c =
      some { c with
        sha256 := c.sha256 ++ E.pack_fc_unsigned_int 0
        state := c.state + 1
        processingField := false } ∧
    processCtxFreeData c =
      some { c with
        sha256 := c.sha256 ++ List.replicate 32 0
        state := c.state + 1
        processingField := false } ∧
    (c.state = TLV_TX_CONTEXT_FREE_ACTIONS →
      dispatch E c = .again { c with
        sha256 := c.sha256 ++ E.pack_fc_unsigned_int 0
        state := TLV_TX_ACTIONS
        processingField := false }) ∧
    (c.state = TLV_TX_TRANSACTION_EXTENSIONS →
      dispatch E c = .again { c with
        sha256 := c.sha256 ++ E.pack_fc_unsigned_int 0
        state := TLV_TX_CONTEXT_FREE_DATA
        processingField := false }) ∧
    (c.state = TLV_TX_CONTEXT_FREE_DATA →
      dispatch E c = .again { c with
        sha256 := c.sha256 ++ List.replicate 32 0
        state := TLV_TX_DONE
        processingField := false }) ∧
    (∀ n, varintEncode (n + 1) 0 = [0]) := by
  have a : processCtxFreeActions E c =
      some { c with
        sha256 := c.sha256 ++ E.pack_fc_unsigned_int 0
        state := c.state + 1
        processingField := false } := by
    simp [processCtxFreeActions, hashTxData, hq, hl]
  have b : processTxExtensions E c =
      some { c with
        sha256 := c.sha256 ++ E.pack_fc_unsigned_int 0
        state := c.state + 1
        processingField := false } := by
    simp [processTxExtensions, hashTxData, hq, hl]
  have d : processCtxFreeData c =
      some { c with
        sha256 := c.sha256 ++ List.replicate 32 0
        state := c.state + 1
        processingField := false } := by
    simp [processCtxFreeData, hashTxData, hq, hl]
  refine ⟨a, b, d, ?_, ?_, ?_, ?_⟩
  · intro hs
    have hsel : selectConsumer E c.state = some (processCtxFreeActions E) := by
      rw [hs]; rfl
    rw [dispatch_of_select E hsel, a, hs]
    rfl
  · intro hs
    have hsel : selectConsumer E c.state = some (processTxExtensions E) := by
      rw [hs]; rfl
    rw [dispatch_of_select E hsel, b, hs]
    rfl
  · intro hs
    have hsel : selectConsumer E c.state = some processCtxFreeData := by
      rw [hs]; rfl
    rw [dispatch_of_select E hsel, d, hs]
    rfl
  · intro n
    simp [varintEncode]

/-- C15 at a concrete input: the consumer of the context-free data, given a
sequence tag with count 0 and the unread bytes `[9]`, hashes 32 zero bytes,
reaches `TLV_TX_DONE` and leaves `[9]` unread. -/
theorem empty_sequence_substitutions_witness :
    processCtxFreeData
        { initTxContext demoPlatform with
          state := TLV_TX_CONTEXT_FREE_DATA
          isSequence := true
          processingField := true
          workBuffer := [9] } =
      some { initTxContext demoPlatform with
        state := TLV_TX_DONE
        sha256 := List.replicate 32 0
        isSequence := true
        processingField := false
        workBuffer := [9] } :=
  (empty_sequence_substitutions demoPlatform
    { initTxContext demoPlatform with
      state := TLV_TX_CONTEXT_FREE_DATA
      isSequence := true
      processingField := true
      workBuffer := [9] } rfl rfl).2.2.1

/-! ## C16: a consumer that throws has written nothing -/

/-- A write followed by more statements. -/
theorem andThen_assign (f : txProcessingContext_t → txProcessingContext_t)
    (t : txProcessingContext_t → Exec) (c : txProcessingContext_t) :
    andThen (assign f) t c = t (f c) := rfl

/-- A guarded throw followed by more statements. -/
theorem andThen_guard (cond : txProcessingContext_t → Bool)
    (t : txProcessingContext_t → Exec) (c : txProcessingContext_t) :
    andThen (ifThen cond THROW) t c = if cond c = true then ⟨c, true⟩ else t c := by
  unfold andThen ifThen
  by_cases h : cond c = true
  · simp only [h, if_true]; rfl
  · simp only [h, if_false]; rfl

/-- A conditional block of writes followed by more statements. -/
theorem andThen_block (cond : txProcessingContext_t → Bool)
    (f : txProcessingContext_t → txProcessingContext_t)
    (s t : txProcessingContext_t → Exec) (c : txProcessingContext_t)
    (hs : s c = ⟨f c, false⟩) :
    andThen (ifThen cond s) t c = if cond c = true then t (f c) else t c := by
  unfold andThen ifThen
  by_cases h : cond c = true
  · simp only [h, if_true, hs]
  · simp only [h, if_false]; rfl

/-- The statements of lines 52 to 68 (and 96 to 112) compute `hashFieldBytes`
and do not throw. -/
theorem hashing_stmts_eq (c : txProcessingContext_t) :
    (andThen (ifThen (fun c => decide (c.currentFieldPos < c.currentFieldLength)) fun c =>
      let length :=
        if c.commandLength < c.currentFieldLength - c.currentFieldPos
        then c.commandLength
        else c.currentFieldLength - c.currentFieldPos
      (andThen (assign fun c => hashTxData c c.workBuffer length) <|
       andThen (assign fun c => { c with workBuffer := c.workBuffer.drop length }) <|
       assign fun c => { c with currentFieldPos := c.currentFieldPos + length }) c) <|
    ifThen (fun c => decide (c.currentFieldPos = c.currentFieldLength)) <|
      andThen (assign fun c => { c with state := c.state + 1 }) <|
      assign fun c => { c with processingField := false }) c =
    ⟨hashFieldBytes c, false⟩ := by
  rw [andThen_block _ (fun c => { hashTxData c c.workBuffer
      (if c.commandLength < c.currentFieldLength - c.currentFieldPos
        then c.commandLength else c.currentFieldLength - c.currentFieldPos) with
      workBuffer := c.workBuffer.drop
        (if c.commandLength < c.currentFieldLength - c.currentFieldPos
          then c.commandLength else c.currentFieldLength - c.currentFieldPos)
      currentFieldPos := c.currentFieldPos +
        (if c.commandLength < c.currentFieldLength - c.currentFieldPos
          then c.commandLength else c.currentFieldLength - c.currentFieldPos) }) _ _ _ rfl]
  unfold hashFieldBytes ifThen
  by_cases h3 : c.currentFieldPos < c.currentFieldLength
  · simp only [h3, decide_True, if_true]
    split_ifs <;> first | rfl | (exfalso; simp_all [hashTxData])
  · simp only [h3, decide_False, if_false]
    split_ifs <;> first | rfl | (exfalso; simp_all)

/-- The statements of `processChainId` in closed form. -/
theorem processChainId_stmts_eq (c : txProcessingContext_t) :
    processChainId_stmts c =
      if c.isSequence = true then ⟨c, true⟩
      else if sizeof_chain_id_t ≠ c.currentFieldLength then ⟨c, true⟩
      else ⟨hashFieldBytes c, false⟩ := by
  unfold processChainId_stmts
  rw [andThen_guard, andThen_guard, hashing_stmts_eq]
  simp only [decide_eq_true_eq]

/-- The statements of `processHeaderField` in closed form. -/
theorem processHeaderField_stmts_eq (c : txProcessingContext_t) :
    processHeaderField_stmts c =
      if c.isSequence = true then ⟨c, true⟩
      else if (c.state = TLV_TX_HEADER_EXPITATION ∨
          c.state = TLV_TX_HEADER_REF_BLOCK_PREFIX) ∧
          c.currentFieldLength ≠ sizeof_uint32_t then ⟨c, true⟩
      else if c.state = TLV_TX_HEADER_REF_BLOCK_NUM ∧
          c.currentFieldLength ≠ sizeof_uint16_t then ⟨c, true⟩
      else if c.state = TLV_TX_HEADER_MAX_CPU_USAGE_MS ∧
          c.currentFieldLength ≠ sizeof_uint8_t then ⟨c, true⟩
      else ⟨hashFieldBytes c, false⟩ := by
  unfold processHeaderField_stmts
  rw [andThen_guard, andThen_guard, andThen_guard, andThen_guard, hashing_stmts_eq]
  simp only [decide_eq_true_eq]

/-- The statements of `processHeaderField2` in closed form. -/
theorem processHeaderField2_stmts_eq (E : Platform) (c : txProcessingContext_t) :
    processHeaderField2_stmts E c =
      if c.isSequence = true then ⟨c, true⟩
      else if (c.state = TLV_TX_HEADER_MAX_NET_USAGE_WORDS ∨
          c.state = TLV_TX_HEADER_DELAY_SEC) ∧
          c.currentFieldLength ≠ E.sizeof_fc_unsigned_int_t then ⟨c, true⟩
      else ⟨cacheFieldBytes E c, false⟩ := by
  unfold processHeaderField2_stmts
  rw [andThen_guard, andThen_guard]
  rw [andThen_block _ (fun c => { c with
      strayWrites := os_memmove c.strayWrites (loadLE c.tempHeaderValue + c.currentFieldPos)
        (c.workBuffer.take
          (if c.commandLength < c.currentFieldLength - c.currentFieldPos
            then c.commandLength else c.currentFieldLength - c.currentFieldPos))
      workBuffer := c.workBuffer.drop
        (if c.commandLength < c.currentFieldLength - c.currentFieldPos
          then c.commandLength else c.currentFieldLength - c.currentFieldPos)
      currentFieldPos := c.currentFieldPos +
        (if c.commandLength < c.currentFieldLength - c.currentFieldPos
          then c.commandLength else c.currentFieldLength - c.currentFieldPos) }) _ _ _ rfl]
  simp only [decide_eq_true_eq]
  have tail : (if c.currentFieldPos < c.currentFieldLength then
        ifThen (fun c => decide (c.currentFieldPos = c.currentFieldLength))
          (andThen (assign fun c => { c with state := c.state + 1 }) <|
            andThen (assign fun c => { c with processingField := false }) fun c =>
              let tmp := E.pack_fc_unsigned_int (loadLE c.tempHeaderValue)
              assign (fun c => hashTxData c tmp tmp.length) c)
          { c with
            strayWrites :=
              os_memmove c.strayWrites (loadLE c.tempHeaderValue + c.currentFieldPos)
              (c.workBuffer.take
                (if c.commandLength < c.currentFieldLength - c.currentFieldPos
                  then c.commandLength else c.currentFieldLength - c.currentFieldPos))
            workBuffer := c.workBuffer.drop
              (if c.commandLength < c.currentFieldLength - c.currentFieldPos
                then c.commandLength else c.currentFieldLength - c.currentFieldPos)
            currentFieldPos := c.currentFieldPos +
              (if c.commandLength < c.currentFieldLength - c.currentFieldPos
                then c.commandLength else c.currentFieldLength - c.currentFieldPos) }
      else
        ifThen (fun c => decide (c.currentFieldPos = c.currentFieldLength))
          (andThen (assign fun c => { c with state := c.state + 1 }) <|
            andThen (assign fun c => { c with processingField := false }) fun c =>
              let tmp := E.pack_fc_unsigned_int (loadLE c.tempHeaderValue)
              assign (fun c => hashTxData c tmp tmp.length) c) c) =
      ⟨cacheFieldBytes E c, false⟩ := by
    unfold cacheFieldBytes ifThen
    by_cases h3 : c.currentFieldPos < c.currentFieldLength
    · simp only [h3, if_true]
      split_ifs <;> first | rfl | (exfalso; simp_all)
    · simp only [h3, if_false]
      split_ifs <;> first | rfl | (exfalso; simp_all)
  rw [tail]

/-- The statements of `processCtxFreeActions` in closed form. -/
theorem processCtxFreeActions_stmts_eq (E : Platform) (c : txProcessingContext_t) :
    processCtxFreeActions_stmts E c =
      if (!c.isSequence) = true then ⟨c, true⟩
      else if c.currentFieldLength ≠ 0 then ⟨c, true⟩
      else ⟨{ hashTxData c (E.pack_fc_unsigned_int 0) (E.pack_fc_unsigned_int 0).length with
          state := c.state + 1, processingField := false }, false⟩ := by
  unfold processCtxFreeActions_stmts
  rw [andThen_guard, andThen_guard]
  simp only [decide_eq_true_eq]
  rfl

/-- The statements of `processTxExtensions` in closed form. -/
theorem processTxExtensions_stmts_eq (E : Platform) (c : txProcessingContext_t) :
    processTxExtensions_stmts E c =
      if (!c.isSequence) = true then ⟨c, true⟩
      else if c.currentFieldLength ≠ 0 then ⟨c, true⟩
      else ⟨{ hashTxData c (E.pack_fc_unsigned_int 0) (E.pack_fc_unsigned_int 0).length with
          state := c.state + 1, processingField := false }, false⟩ := by
  unfold processTxExtensions_stmts
  rw [andThen_guard, andThen_guard]
  simp only [decide_eq_true_eq]
  rfl

/-- The statements of `processCtxFreeData` in closed form. -/
theorem processCtxFreeData_stmts_eq (c : txProcessingContext_t) :
    processCtxFreeData_stmts c =
      if (!c.isSequence) = true then ⟨c, true⟩
      else if c.currentFieldLength ≠ 0 then ⟨c, true⟩
      else ⟨{ hashTxData c (List.replicate 32 0) (List.replicate 32 0).length with
          state := c.state + 1, processingField := false }, false⟩ := by
  unfold processCtxFreeData_stmts
  rw [andThen_guard, andThen_guard]
  simp only [decide_eq_true_eq]
  rfl

/-- The statements of `processActions` in closed form. -/
theorem processActions_stmts_eq (c : txProcessingContext_t) :
    processActions_stmts c =
      if (!c.isSequence) = true then ⟨c, true⟩
      else if c.currentFieldLength ≠ 1 then ⟨c, true⟩
      else ⟨c, false⟩ := by
  unfold processActions_stmts
  rw [andThen_guard]
  unfold ifThen THROW
  simp only [decide_eq_true_eq]

/-- The consumer `processChainId` is what its statements compute. -/
theorem processChainId_refines (c : txProcessingContext_t) :
    processChainId c = (processChainId_stmts c).result := by
  rw [processChainId_eq, processChainId_stmts_eq]
  unfold Exec.result
  split_ifs <;> first | rfl | (exfalso; simp_all)

/-- The consumer `processHeaderField` is what its statements compute. -/
theorem processHeaderField_refines (c : txProcessingContext_t) :
    processHeaderField c = (processHeaderField_stmts c).result := by
  rw [processHeaderField_eq, processHeaderField_stmts_eq]
  unfold Exec.result
  split_ifs <;> first | rfl | (exfalso; simp_all)

/-- The consumer `processHeaderField2` is what its statements compute. -/
theorem processHeaderField2_refines (E : Platform) (c : txProcessingContext_t) :
    processHeaderField2 E c = (processHeaderField2_stmts E c).result := by
  rw [processHeaderField2_eq, processHeaderField2_stmts_eq]
  unfold Exec.result
  split_ifs <;> first | rfl | (exfalso; simp_all)

/-- The consumer `processCtxFreeActions` is what its statements compute. -/
theorem processCtxFreeActions_refines (E : Platform) (c : txProcessingContext_t) :
    processCtxFreeActions E c = (processCtxFreeActions_stmts E c).result := by
  rw [processCtxFreeActions_stmts_eq]
  unfold Exec.result processCtxFreeActions
  split_ifs <;> first | rfl | (exfalso; simp_all)

/-- The consumer `processTxExtensions` is what its statements compute. -/
theorem processTxExtensions_refines (E : Platform) (c : txProcessingContext_t) :
    processTxExtensions E c = (processTxExtensions_stmts E c).result := by
  rw [processTxExtensions_stmts_eq]
  unfold Exec.result processTxExtensions
  split_ifs <;> first | rfl | (exfalso; simp_all)

/-- The consumer `processCtxFreeData` is what its statements compute. -/
theorem processCtxFreeData_refines (c : txProcessingContext_t) :
    processCtxFreeData c = (processCtxFreeData_stmts c).result := by
  rw [processCtxFreeData_stmts_eq]
  unfold Exec.result processCtxFreeData
  split_ifs <;> first | rfl | (exfalso; simp_all)

/-- The consumer `processActions` is what its statements compute. -/
theorem processActions_refines (c : txProcessingContext_t) :
    processActions c = (processActions_stmts c).result := by
  rw [processActions_stmts_eq]
  unfold Exec.result processActions
  split_ifs <;> first | rfl | (exfalso; simp_all)

/-- C16: fault atomicity of the consumers.  Each consumer is run statement by
statement, an exception leaving the context as written so far; what the
`switch` gets from the consumer is what these statements compute.  A consumer
throws exactly on a kind mismatch or a width or count mismatch (a count other
than 0, for the actions other than 1), and when it throws the context it leaves
is the context it was given: no byte of the chunk consumed, nothing fed to the
hash or written to the cached scalar, and state, position and
`processingField` unchanged.  Accordingly, whenever the `switch` ends the call
(a consumer threw, or the state has no consumer), the call ends with the context
the `switch` was entered with, and its status is `STREAM_FAULT`. -/
theorem consumer_fault_is_atomic (E : Platform) (c : txProcessingContext_t) :
    ((processChainId c = (processChainId_stmts c).result) ∧
      ((processChainId_stmts c).thrown = true ↔
        (c.isSequence = true ∨ sizeof_chain_id_t ≠ c.currentFieldLength)) ∧
      ((processChainId_stmts c).thrown = true → (processChainId_stmts c).c = c)) ∧
    ((processHeaderField c = (processHeaderField_stmts c).result) ∧
      ((processHeaderField_stmts c).thrown = true ↔
        (c.isSequence = true ∨
          ((c.state = TLV_TX_HEADER_EXPITATION ∨ c.state = TLV_TX_HEADER_REF_BLOCK_PREFIX) ∧
            c.currentFieldLength ≠ sizeof_uint32_t) ∨
          (c.state = TLV_TX_HEADER_REF_BLOCK_NUM ∧ c.currentFieldLength ≠ sizeof_uint16_t) ∨
          (c.state = TLV_TX_HEADER_MAX_CPU_USAGE_MS ∧
            c.currentFieldLength ≠ sizeof_uint8_t))) ∧
      ((processHeaderField_stmts c).thrown = true → (processHeaderField_stmts c).c = c)) ∧
    ((processHeaderField2 E c = (processHeaderField2_stmts E c).result) ∧
      ((processHeaderField2_stmts E c).thrown = true ↔
        (c.isSequence = true ∨
          ((c.state = TLV_TX_HEADER_MAX_NET_USAGE_WORDS ∨ c.state = TLV_TX_HEADER_DELAY_SEC) ∧
            c.currentFieldLength ≠ E.sizeof_fc_unsigned_int_t))) ∧
      ((processHeaderField2_stmts E c).thrown = true →
        (processHeaderField2_stmts E c).c = c)) ∧
    ((processCtxFreeActions E c = (processCtxFreeActions_stmts E c).result) ∧
      ((processCtxFreeActions_stmts E c).thrown = true ↔
        (c.isSequence = false ∨ c.currentFieldLength ≠ 0)) ∧
      ((processCtxFreeActions_stmts E c).thrown = true →
        (processCtxFreeActions_stmts E c).c = c)) ∧
    ((processActions c = (processActions_stmts c).result) ∧
      ((processActions_stmts c).thrown = true ↔
        (c.isSequence = false ∨ c.currentFieldLength ≠ 1)) ∧
      ((processActions_stmts c).thrown = true → (processActions_stmts c).c = c)) ∧
    ((processTxExtensions E c = (processTxExtensions_stmts E c).result) ∧
      ((processTxExtensions_stmts E c).thrown = true ↔
        (c.isSequence = false ∨ c.currentFieldLength ≠ 0)) ∧
      ((processTxExtensions_stmts E c).thrown = true →
        (processTxExtensions_stmts E c).c = c)) ∧
    ((processCtxFreeData c = (processCtxFreeData_stmts c).result) ∧
      ((processCtxFreeData_stmts c).thrown = true ↔
        (c.isSequence = false ∨ c.currentFieldLength ≠ 0)) ∧
      ((processCtxFreeData_stmts c).thrown = true → (processCtxFreeData_stmts c).c = c)) ∧
    (∀ r, dispatch E c = .leave r → r.ctx = c ∧ r.status = STREAM_FAULT) := by
  refine ⟨⟨?_, ?_, ?_⟩, ⟨?_, ?_, ?_⟩, ⟨?_, ?_, ?_⟩, ⟨?_, ?_, ?_⟩, ⟨?_, ?_, ?_⟩, ⟨?_, ?_, ?_⟩,
    ⟨?_, ?_, ?_⟩, ?_⟩
  · exact processChainId_refines c
  · rw [processChainId_stmts_eq]
    split_ifs <;> simp_all
  · rw [processChainId_stmts_eq]
    split_ifs <;> simp
  · exact processHeaderField_refines c
  · rw [processHeaderField_stmts_eq]
    split_ifs <;> simp_all
  · rw [processHeaderField_stmts_eq]
    split_ifs <;> simp
  · exact processHeaderField2_refines E c
  · rw [processHeaderField2_stmts_eq]
    split_ifs <;> simp_all
  · rw [processHeaderField2_stmts_eq]
    split_ifs <;> simp
  · exact processCtxFreeActions_refines E c
  · rw [processCtxFreeActions_stmts_eq]
    split_ifs <;> simp_all
  · rw [processCtxFreeActions_stmts_eq]
    split_ifs <;> simp
  · exact processActions_refines c
  · rw [processActions_stmts_eq]
    split_ifs <;> simp_all
  · rw [processActions_stmts_eq]
    split_ifs <;> simp
  · exact processTxExtensions_refines E c
  · rw [processTxExtensions_stmts_eq]
    split_ifs <;> simp_all
  · rw [processTxExtensions_stmts_eq]
    split_ifs <;> simp
  · exact processCtxFreeData_refines c
  · rw [processCtxFreeData_stmts_eq]
    split_ifs <;> simp_all
  · rw [processCtxFreeData_stmts_eq]
    split_ifs <;> simp
  · intro r h
    exact dispatch_leave E h

/-! ## C12: what a consumer consumes -/

/-- The number of bytes a scalar consumer takes from the chunk. -/
theorem consumed_length (c : txProcessingContext_t) :
    (if c.commandLength < c.currentFieldLength - c.currentFieldPos
      then c.commandLength
      else c.currentFieldLength - c.currentFieldPos) =
    min c.commandLength (c.currentFieldLength - c.currentFieldPos) := by
  split_ifs with h
  · exact (Nat.min_eq_left (Nat.le_of_lt h)).symm
  · exact (Nat.min_eq_right (Nat.le_of_not_lt h)).symm

/-- What `hashFieldBytes` does to the chunk, the position, the state and
`processingField`. -/
theorem hashFieldBytes_consumes (c : txProcessingContext_t) :
    (hashFieldBytes c).workBuffer =
      c.workBuffer.drop (min c.commandLength (c.currentFieldLength - c.currentFieldPos)) ∧
    (hashFieldBytes c).currentFieldPos =
      c.currentFieldPos + min c.commandLength (c.currentFieldLength - c.currentFieldPos) ∧
    (hashFieldBytes c).currentFieldLength = c.currentFieldLength ∧
    ((hashFieldBytes c).currentFieldPos = (hashFieldBytes c).currentFieldLength →
      (hashFieldBytes c).processingField = false ∧
      (hashFieldBytes c).state = c.state + 1) := by
  unfold hashFieldBytes
  rw [consumed_length]
  by_cases h1 : c.currentFieldPos < c.currentFieldLength
  · simp only [h1, if_true, hashTxData]
    split_ifs with h2
    · exact ⟨rfl, rfl, rfl, fun _ => ⟨rfl, rfl⟩⟩
    · exact ⟨rfl, rfl, rfl, fun h => absurd h h2⟩
  · have hz : c.currentFieldLength - c.currentFieldPos = 0 := by omega
    simp only [h1, if_false, hz, Nat.min_zero, List.drop_zero, Nat.add_zero]
    split_ifs with h2
    · exact ⟨rfl, rfl, rfl, fun _ => ⟨rfl, rfl⟩⟩
    · exact ⟨rfl, rfl, rfl, fun h => absurd h h2⟩

/-- What `cacheFieldBytes` does to the chunk, the position, the state and
`processingField`. -/
theorem cacheFieldBytes_consumes (E : Platform) (c : txProcessingContext_t) :
    (cacheFieldBytes E c).workBuffer =
      c.workBuffer.drop (min c.commandLength (c.currentFieldLength - c.currentFieldPos)) ∧
    (cacheFieldBytes E c).currentFieldPos =
      c.currentFieldPos + min c.commandLength (c.currentFieldLength - c.currentFieldPos) ∧
    (cacheFieldBytes E c).currentFieldLength = c.currentFieldLength ∧
    ((cacheFieldBytes E c).currentFieldPos = (cacheFieldBytes E c).currentFieldLength →
      (cacheFieldBytes E c).processingField = false ∧
      (cacheFieldBytes E c).state = c.state + 1) := by
  unfold cacheFieldBytes
  rw [consumed_length]
  by_cases h1 : c.currentFieldPos < c.currentFieldLength
  · simp only [h1, if_true, hashTxData]
    split_ifs with h2
    · exact ⟨rfl, rfl, rfl, fun _ => ⟨rfl, rfl⟩⟩
    · exact ⟨rfl, rfl, rfl, fun h => absurd h h2⟩
  · have hz : c.currentFieldLength - c.currentFieldPos = 0 := by omega
    simp only [h1, if_false, hz, Nat.min_zero, List.drop_zero, Nat.add_zero, hashTxData]
    split_ifs with h2
    · exact ⟨rfl, rfl, rfl, fun _ => ⟨rfl, rfl⟩⟩
    · exact ⟨rfl, rfl, rfl, fun h => absurd h h2⟩

/-- A consumer of a sequence that returns was given the count 0. -/
theorem sequence_consumers_count (E : Platform) {c c1 : txProcessingContext_t} :
    (processCtxFreeActions E c = some c1 →
      c.currentFieldLength = 0 ∧
      c1 = { hashTxData c (E.pack_fc_unsigned_int 0) (E.pack_fc_unsigned_int 0).length with
        state := c.state + 1, processingField := false }) ∧
    (processTxExtensions E c = some c1 →
      c.currentFieldLength = 0 ∧
      c1 = { hashTxData c (E.pack_fc_unsigned_int 0) (E.pack_fc_unsigned_int 0).length with
        state := c.state + 1, processingField := false }) ∧
    (processCtxFreeData c = some c1 →
      c.currentFieldLength = 0 ∧
      c1 = { hashTxData c (List.replicate 32 0) (List.replicate 32 0).length with
        state := c.state + 1, processingField := false }) := by
  refine ⟨?_, ?_, ?_⟩
  · intro h
    unfold processCtxFreeActions at h
    split_ifs at h with h1 h2
    have hz : c.currentFieldLength = 0 := by simpa using h2
    exact ⟨hz, (Option.some.inj h).symm⟩
  · intro h
    unfold processTxExtensions at h
    split_ifs at h with h1 h2
    have hz : c.currentFieldLength = 0 := by simpa using h2
    exact ⟨hz, (Option.some.inj h).symm⟩
  · intro h
    unfold processCtxFreeData at h
    split_ifs at h with h1 h2
    have hz : c.currentFieldLength = 0 := by simpa using h2
    exact ⟨hz, (Option.some.inj h).symm⟩

/-- C12 as stated fails for the actions.  The consumer of the actions, given a
sequence tag of count 1 with a byte of the chunk unread, returns the context it
was given: it has not consumed the
byte that `min(commandLength, currentFieldLength - currentFieldPos) = 1` would
have it consume, and the position has not advanced by it. -/
theorem actions_consumer_consumes_nothing :
    processActions actionsCountOne = some actionsCountOne ∧
    min actionsCountOne.commandLength
      (actionsCountOne.currentFieldLength - actionsCountOne.currentFieldPos) = 1 ∧
    actionsCountOne.workBuffer ≠
      actionsCountOne.workBuffer.drop
        (min actionsCountOne.commandLength
          (actionsCountOne.currentFieldLength - actionsCountOne.currentFieldPos)) ∧
    actionsCountOne.currentFieldPos ≠
      actionsCountOne.currentFieldPos +
        min actionsCountOne.commandLength
          (actionsCountOne.currentFieldLength - actionsCountOne.currentFieldPos) := by
  decide

/-- C12 (as amended): every field consumer other than the one of the actions,
when it returns, has consumed exactly
`min(commandLength, currentFieldLength - currentFieldPos)` bytes of the chunk
(the difference being 0 when the position is not below the declared length):
the unread bytes lose that many bytes at the front, `commandLength` decreases
and `currentFieldPos` increases by that amount; and when the position then
equals the declared length, `processingField` is false and the state is one
more than before.  The consumer of the actions, when it returns, has consumed
no byte: unread bytes and position are as they were. -/
theorem consumers_consume_min (E : Platform) :
    (∀ (f : txProcessingContext_t → Option txProcessingContext_t)
        (c c1 : txProcessingContext_t),
      f = processChainId ∨ f = processHeaderField ∨ f = processHeaderField2 E ∨
        f = processCtxFreeActions E ∨ f = processTxExtensions E ∨
        f = processCtxFreeData →
      f c = some c1 →
      c1.workBuffer =
        c.workBuffer.drop (min c.commandLength (c.currentFieldLength - c.currentFieldPos)) ∧
      c1.commandLength =
        c.commandLength - min c.commandLength (c.currentFieldLength - c.currentFieldPos) ∧
      c1.currentFieldPos =
        c.currentFieldPos + min c.commandLength (c.currentFieldLength - c.currentFieldPos) ∧
      c1.currentFieldLength = c.currentFieldLength ∧
      (c1.currentFieldPos = c1.currentFieldLength →
        c1.processingField = false ∧ c1.state = c.state + 1)) ∧
    (∀ c c1 : txProcessingContext_t, processActions c = some c1 →
      c1.workBuffer = c.workBuffer ∧ c1.commandLength = c.commandLength ∧
      c1.currentFieldPos = c.currentFieldPos) := by
  constructor
  · intro f c c1 hf h
    have scalar : ∀ d : txProcessingContext_t,
        d.workBuffer =
          c.workBuffer.drop (min c.commandLength (c.currentFieldLength - c.currentFieldPos)) →
        d.currentFieldPos =
          c.currentFieldPos + min c.commandLength (c.currentFieldLength - c.currentFieldPos) →
        d.commandLength =
          c.commandLength - min c.commandLength (c.currentFieldLength - c.currentFieldPos) := by
      intro d hw _
      unfold txProcessingContext_t.commandLength
      rw [hw, List.length_drop]
      rfl
    have seq : ∀ d : txProcessingContext_t, c.currentFieldLength = 0 →
        d.workBuffer = c.workBuffer → d.currentFieldPos = c.currentFieldPos →
        d.currentFieldLength = c.currentFieldLength →
        d.processingField = false → d.state = c.state + 1 →
        d.workBuffer =
          c.workBuffer.drop (min c.commandLength (c.currentFieldLength - c.currentFieldPos)) ∧
        d.commandLength =
          c.commandLength - min c.commandLength (c.currentFieldLength - c.currentFieldPos) ∧
        d.currentFieldPos =
          c.currentFieldPos + min c.commandLength (c.currentFieldLength - c.currentFieldPos) ∧
        d.currentFieldLength = c.currentFieldLength ∧
        (d.currentFieldPos = d.currentFieldLength →
          d.processingField = false ∧ d.state = c.state + 1) := by
      intro d hz hw hp hl hpf hst
      have hm : min c.commandLength (c.currentFieldLength - c.currentFieldPos) = 0 := by
        rw [hz, Nat.zero_sub, Nat.min_zero]
      rw [hm]
      refine ⟨hw, ?_, hp, hl, fun _ => ⟨hpf, hst⟩⟩
      unfold txProcessingContext_t.commandLength
      rw [hw]
      rfl
    rcases hf with rfl | rfl | rfl | rfl | rfl | rfl
    · rw [processChainId_eq] at h
      split_ifs at h
      cases Option.some.inj h
      obtain ⟨a, b, l, d⟩ := hashFieldBytes_consumes c
      exact ⟨a, scalar _ a b, b, l, d⟩
    · rw [processHeaderField_eq] at h
      split_ifs at h
      cases Option.some.inj h
      obtain ⟨a, b, l, d⟩ := hashFieldBytes_consumes c
      exact ⟨a, scalar _ a b, b, l, d⟩
    · rw [processHeaderField2_eq] at h
      split_ifs at h
      cases Option.some.inj h
      obtain ⟨a, b, l, d⟩ := cacheFieldBytes_consumes E c
      exact ⟨a, scalar _ a b, b, l, d⟩
    · obtain ⟨hz, rfl⟩ := (sequence_consumers_count E).1 h
      exact seq _ hz rfl rfl rfl rfl rfl
    · obtain ⟨hz, rfl⟩ := (sequence_consumers_count E).2.1 h
      exact seq _ hz rfl rfl rfl rfl rfl
    · obtain ⟨hz, rfl⟩ := (@sequence_consumers_count E c c1).2.2 h
      exact seq _ hz rfl rfl rfl rfl rfl
  · intro c c1 h
    have e := processActions_eq h
    subst e
    exact ⟨rfl, rfl, rfl⟩

/-- C12 (as amended) at a concrete input: the consumer of the chain id, at
position 30 of 32 with the unread bytes `[1, 2, 3]`, consumes two of them,
completes the field, clears `processingField` and moves to the next state. -/
theorem consumers_consume_min_witness :
    processChainId
        { initTxContext demoPlatform with
          currentFieldLength := 32
          currentFieldPos := 30
          processingField := true
          workBuffer := [1, 2, 3] } =
      some { initTxContext demoPlatform with
          state := TLV_TX_HEADER_EXPITATION
          sha256 := [1, 2]
          currentFieldLength := 32
          currentFieldPos := 32
          processingField := false
          workBuffer := [3] } ∧
    ([3] : List Nat) = [1, 2, 3].drop (min 3 (32 - 30)) ∧
    (32 = 32 → false = false ∧ TLV_TX_HEADER_EXPITATION = TLV_TX_CHAIN_ID + 1) :=
  have e : processChainId
        { initTxContext demoPlatform with
          currentFieldLength := 32
          currentFieldPos := 30
          processingField := true
          workBuffer := [1, 2, 3] } =
      some { initTxContext demoPlatform with
          state := TLV_TX_HEADER_EXPITATION
          sha256 := [1, 2]
          currentFieldLength := 32
          currentFieldPos := 32
          processingField := false
          workBuffer := [3] } := by decide
  have k := (consumers_consume_min demoPlatform).1 processChainId _ _ (Or.inl rfl) e
  ⟨e, k.1, k.2.2.2.2⟩
/-! ## C13: the position stays within the declared length -/

/-- When the decoder records the length on completion only, the inner loop
leaves the declared length as it is unless it decodes a tag. -/
theorem tlvDecodeLoop_length (E : Platform) (hE : RecordsLengthOnCompletion E) :
    ∀ (w : List Nat) (c c1 : txProcessingContext_t),
      tlvDecodeLoop E w c = .pending c1 ∨ tlvDecodeLoop E w c = .fault c1 →
      c1.currentFieldLength = c.currentFieldLength := by
  intro w
  induction w with
  | nil =>
    intro c c1 h
    simp only [tlvDecodeLoop] at h
    rcases h with h | h
    · cases h; rfl
    · cases h
  | cons b rest ih =>
    intro c c1 h
    simp only [tlvDecodeLoop, readTxByte] at h
    rcases hE ((c.tlvBuffer.set c.tlvBufferPos b).take ((c.tlvBufferPos + 1) % 4294967296))
      with hn | ⟨hv, hd⟩
    · simp only [hn, Option.getD_none] at h
      split_ifs at h
      · rcases h with h | h
        · cases h
        · cases h; rfl
      · rcases h with h | h <;> cases h
      · rcases h with h | h
        · cases h
        · cases h; rfl
      · have key := ih _ c1 h
        exact key
    · simp only [hv, hd, Bool.not_true, if_true] at h
      simp at h

/-- The consumers the `switch` can call. -/
theorem selectConsumer_cases (E : Platform) {state : Nat}
    {f : txProcessingContext_t → Option txProcessingContext_t}
    (h : selectConsumer E state = some f) :
    f = processChainId ∨ f = processHeaderField ∨ f = processHeaderField2 E ∨
    f = processCtxFreeActions E ∨ f = processActions ∨ f = processTxExtensions E ∨
    f = processCtxFreeData := by
  unfold selectConsumer at h
  split_ifs at h <;> cases Option.some.inj h <;> simp

/-- A pass of the `switch` that goes on is a consumer that returned. -/
theorem dispatch_again_consumer (E : Platform) {c c1 : txProcessingContext_t}
    (h : dispatch E c = .again c1) :
    ∃ f, selectConsumer E c.state = some f ∧ f c = some c1 := by
  rw [dispatch_eq] at h
  cases hsel : selectConsumer E c.state with
  | none => rw [hsel] at h; cases h
  | some f =>
    rw [hsel] at h
    exact ⟨f, rfl, afterConsumer_again.1 h⟩

/-- What `hashFieldBytes` leaves alone. -/
theorem hashFieldBytes_frame (c : txProcessingContext_t) :
    (hashFieldBytes c).tlvBuffer = c.tlvBuffer ∧
    (hashFieldBytes c).tlvBufferPos = c.tlvBufferPos ∧
    (hashFieldBytes c).isSequence = c.isSequence ∧
    (hashFieldBytes c).tempHeaderValue = c.tempHeaderValue := by
  unfold hashFieldBytes hashTxData
  dsimp only
  split_ifs <;> exact ⟨rfl, rfl, rfl, rfl⟩

/-- What `cacheFieldBytes` leaves alone. -/
theorem cacheFieldBytes_frame (E : Platform) (c : txProcessingContext_t) :
    (cacheFieldBytes E c).tlvBuffer = c.tlvBuffer ∧
    (cacheFieldBytes E c).tlvBufferPos = c.tlvBufferPos ∧
    (cacheFieldBytes E c).isSequence = c.isSequence := by
  unfold cacheFieldBytes hashTxData
  dsimp only
  split_ifs <;> exact ⟨rfl, rfl, rfl⟩

/-- What every consumer leaves alone, and the bound on the position it keeps. -/
theorem consumer_frame (E : Platform)
    {f : txProcessingContext_t → Option txProcessingContext_t}
    (hf : f = processChainId ∨ f = processHeaderField ∨ f = processHeaderField2 E ∨
      f = processCtxFreeActions E ∨ f = processActions ∨ f = processTxExtensions E ∨
      f = processCtxFreeData)
    {c c1 : txProcessingContext_t} (h : f c = some c1) :
    c1.tlvBuffer = c.tlvBuffer ∧ c1.tlvBufferPos = c.tlvBufferPos ∧
    c1.isSequence = c.isSequence ∧ c1.currentFieldLength = c.currentFieldLength ∧
    (c.currentFieldPos ≤ c.currentFieldLength →
      c1.currentFieldPos ≤ c1.currentFieldLength) := by
  have bound : ∀ d : txProcessingContext_t,
      d.currentFieldPos =
        c.currentFieldPos + min c.commandLength (c.currentFieldLength - c.currentFieldPos) →
      d.currentFieldLength = c.currentFieldLength →
      c.currentFieldPos ≤ c.currentFieldLength → d.currentFieldPos ≤ d.currentFieldLength := by
    intro d hp hl hle
    rw [hp, hl]
    have := Nat.min_le_right c.commandLength (c.currentFieldLength - c.currentFieldPos)
    omega
  rcases hf with rfl | rfl | rfl | rfl | rfl | rfl | rfl
  · rw [processChainId_eq] at h
    split_ifs at h
    cases Option.some.inj h
    obtain ⟨a1, a2, a3, _⟩ := hashFieldBytes_frame c
    obtain ⟨_, b2, b3, _⟩ := hashFieldBytes_consumes c
    exact ⟨a1, a2, a3, b3, bound _ b2 b3⟩
  · rw [processHeaderField_eq] at h
    split_ifs at h
    cases Option.some.inj h
    obtain ⟨a1, a2, a3, _⟩ := hashFieldBytes_frame c
    obtain ⟨_, b2, b3, _⟩ := hashFieldBytes_consumes c
    exact ⟨a1, a2, a3, b3, bound _ b2 b3⟩
  · rw [processHeaderField2_eq] at h
    split_ifs at h
    cases Option.some.inj h
    obtain ⟨a1, a2, a3⟩ := cacheFieldBytes_frame E c
    obtain ⟨_, b2, b3, _⟩ := cacheFieldBytes_consumes E c
    exact ⟨a1, a2, a3, b3, bound _ b2 b3⟩
  · obtain ⟨_, rfl⟩ := (sequence_consumers_count E).1 h
    exact ⟨rfl, rfl, rfl, rfl, fun x => x⟩
  · cases processActions_eq h
    exact ⟨rfl, rfl, rfl, rfl, fun x => x⟩
  · obtain ⟨_, rfl⟩ := (sequence_consumers_count E).2.1 h
    exact ⟨rfl, rfl, rfl, rfl, fun x => x⟩
  · obtain ⟨_, rfl⟩ := (@sequence_consumers_count E c c1).2.2 h
    exact ⟨rfl, rfl, rfl, rfl, fun x => x⟩

/-- What the `switch` leaves alone, and the bound on the position it keeps. -/
theorem dispatch_frame (E : Platform) (c : txProcessingContext_t) :
    (dispatch E c).ctx.tlvBuffer = c.tlvBuffer ∧
    (dispatch E c).ctx.tlvBufferPos = c.tlvBufferPos ∧
    (dispatch E c).ctx.isSequence = c.isSequence ∧
    (dispatch E c).ctx.currentFieldLength = c.currentFieldLength ∧
    (c.currentFieldPos ≤ c.currentFieldLength →
      (dispatch E c).ctx.currentFieldPos ≤ (dispatch E c).ctx.currentFieldLength) := by
  cases hd : dispatch E c with
  | leave r =>
    have e : r.ctx = c := (dispatch_leave E hd).1
    show r.ctx.tlvBuffer = c.tlvBuffer ∧ r.ctx.tlvBufferPos = c.tlvBufferPos ∧
      r.ctx.isSequence = c.isSequence ∧ r.ctx.currentFieldLength = c.currentFieldLength ∧
      (c.currentFieldPos ≤ c.currentFieldLength →
        r.ctx.currentFieldPos ≤ r.ctx.currentFieldLength)
    rw [e]
    exact ⟨rfl, rfl, rfl, rfl, fun x => x⟩
  | again c1 =>
    obtain ⟨f, hsel, hf⟩ := dispatch_again_consumer E hd
    exact consumer_frame E (selectConsumer_cases E hsel) hf

/-- An invariant of the loop body holds of everything a call can end with. -/
theorem processTxInternal_invariant (E : Platform)
    (P : txProcessingContext_t → Prop) (Q : Completion → Prop)
    (hagain : ∀ c c1, P c → loopBody E c = .again c1 → P c1)
    (hleave : ∀ c r, P c → loopBody E c = .leave r → Q r) :
    ∀ (fuel : Nat) (c : txProcessingContext_t) (r : Completion),
      P c → processTxInternal E fuel c = some r → Q r := by
  intro fuel
  induction fuel with
  | zero => intro c r _ h; simp [processTxInternal] at h
  | succ n ih =>
    intro c r hP h
    simp only [processTxInternal] at h
    cases hb : loopBody E c with
    | leave r1 =>
      rw [hb] at h
      cases Option.some.inj h
      exact hleave c _ hP hb
    | again c1 =>
      rw [hb] at h
      exact ih c1 r (hagain c c1 hP hb) h

/-- When the decoder records the length on completion only, the head of the
loop keeps the position within the declared length. -/
theorem loopHead_position (E : Platform) (hE : RecordsLengthOnCompletion E)
    (c : txProcessingContext_t) (hc : c.currentFieldPos ≤ c.currentFieldLength) :
    (loopHead E c).ctx.currentFieldPos ≤ (loopHead E c).ctx.currentFieldLength := by
  unfold loopHead
  split_ifs
  · exact hc
  · exact hc
  · have fr := (tlvDecodeLoop_frame E c.workBuffer c).2.2.2.1
    cases hd : tlvDecodeLoop E c.workBuffer c with
    | fault c1 =>
      rw [hd] at fr
      have hl := tlvDecodeLoop_length E hE _ _ _ (Or.inr hd)
      show c1.currentFieldPos ≤ c1.currentFieldLength
      simp only [TlvLoop.ctx] at fr
      omega
    | raised c1 => exact absurd hd (tlvDecodeLoop_ne_raised E _ _ _)
    | pending c1 =>
      rw [hd] at fr
      have hl := tlvDecodeLoop_length E hE _ _ _ (Or.inl hd)
      show c1.currentFieldPos ≤ c1.currentFieldLength
      simp only [TlvLoop.ctx] at fr
      omega
    | decoded c1 =>
      show 0 ≤ c1.currentFieldLength
      omega
  · exact hc

/-- When the decoder records the length on completion only, a pass of the loop
body keeps the position within the declared length. -/
theorem loopBody_position (E : Platform) (hE : RecordsLengthOnCompletion E)
    (c : txProcessingContext_t) (hc : c.currentFieldPos ≤ c.currentFieldLength) :
    (loopBody E c).ctx.currentFieldPos ≤ (loopBody E c).ctx.currentFieldLength := by
  have hh := loopHead_position E hE c hc
  unfold loopBody
  cases hd : loopHead E c with
  | leave r =>
    rw [hd] at hh
    exact hh
  | again c1 =>
    rw [hd] at hh
    exact (dispatch_frame E c1).2.2.2.2 hh

/-- Under the guard of the consumers the machine difference is the exact one. -/
theorem sub32_of_lt {a b : Nat} (h : b < a) (ha : a < 4294967296) : sub32 a b = a - b := by
  unfold sub32
  omega

/-- The subtraction in `hashFieldBytes` does not wrap around. -/
theorem hashFieldBytes32_eq (c : txProcessingContext_t)
    (hl : c.currentFieldLength < 4294967296) : hashFieldBytes32 c = hashFieldBytes c := by
  unfold hashFieldBytes32 hashFieldBytes
  by_cases h : c.currentFieldPos < c.currentFieldLength
  · rw [sub32_of_lt h hl]
  · simp only [h, if_false]

/-- The subtraction in `cacheFieldBytes` does not wrap around. -/
theorem cacheFieldBytes32_eq (E : Platform) (c : txProcessingContext_t)
    (hl : c.currentFieldLength < 4294967296) :
    cacheFieldBytes32 E c = cacheFieldBytes E c := by
  unfold cacheFieldBytes32 cacheFieldBytes
  by_cases h : c.currentFieldPos < c.currentFieldLength
  · rw [sub32_of_lt h hl]
  · simp only [h, if_false]

/-- The decoder of `demoPlatform` records the length on completion only. -/
theorem demoPlatform_records : RecordsLengthOnCompletion demoPlatform := by
  intro bytes
  show (demoTlvTryDecode bytes).fieldLength = none ∨
    ((demoTlvTryDecode bytes).valid = true ∧ (demoTlvTryDecode bytes).decoded = true)
  match bytes with
  | [] => exact Or.inl rfl
  | [_] => exact Or.inl rfl
  | [k, n] =>
    show (if k = 4 then (⟨true, true, some n, some false⟩ : TlvResult)
        else if k = 48 then ⟨true, true, some n, some true⟩
        else ⟨false, false, none, none⟩).fieldLength = none ∨
      ((if k = 4 then (⟨true, true, some n, some false⟩ : TlvResult)
        else if k = 48 then ⟨true, true, some n, some true⟩
        else ⟨false, false, none, none⟩).valid = true ∧
       (if k = 4 then (⟨true, true, some n, some false⟩ : TlvResult)
        else if k = 48 then ⟨true, true, some n, some true⟩
        else ⟨false, false, none, none⟩).decoded = true)
    split_ifs
    · exact Or.inr ⟨rfl, rfl⟩
    · exact Or.inr ⟨rfl, rfl⟩
    · exact Or.inl rfl
  | _ :: _ :: _ :: _ => exact Or.inl rfl

/-- Without the assumption on the decoder the bound on the position can be
lost: with a decoder that writes the length 0 on the kind byte of a tag, the
chain id followed by the kind byte of the next tag leaves the position 32 above
the declared length 0. -/
theorem position_bound_needs_recording :
    ¬ RecordsLengthOnCompletion eagerPlatform ∧
    (feedChunks eagerPlatform 3 (initTxContext eagerPlatform)
        [[4, 32] ++ List.replicate 32 171, [4]]).map
      (fun r => (r.1, r.2.currentFieldPos, r.2.currentFieldLength)) =
      some ([STREAM_PROCESSING, STREAM_PROCESSING], 32, 0) := by
  constructor
  · intro h
    have := h [4]
    simp [eagerPlatform, eagerTlvTryDecode] at this
  · decide

/-- C13: the predicate `currentFieldPos <= currentFieldLength` is an invariant
of the session, the decoder recording the declared length on completion of a
tag only.  It holds in the context `initTxContext` produces; if it holds before
a call of `parseTx` it holds when the call returns, for every chunk and every
returned status; hence it holds after any number of calls from the initial
context.  The subtraction `currentFieldLength - currentFieldPos` in the
consumers does not wrap around: computed on unsigned 32-bit integers it gives
the same result, for every context. -/
theorem position_within_length (E : Platform) (hE : RecordsLengthOnCompletion E) :
    (initTxContext E).currentFieldPos ≤ (initTxContext E).currentFieldLength ∧
    (∀ (fuel : Nat) (c c1 : txProcessingContext_t) (buffer : List Nat) (s : parserStatus_e),
      c.currentFieldPos ≤ c.currentFieldLength →
      parseTx E fuel c buffer = some (s, c1) →
      c1.currentFieldPos ≤ c1.currentFieldLength) ∧
    (∀ (fuel : Nat) (chunks : List (List Nat)) (ss : List parserStatus_e)
        (c1 : txProcessingContext_t),
      feedChunks E fuel (initTxContext E) chunks = some (ss, c1) →
      c1.currentFieldPos ≤ c1.currentFieldLength) ∧
    (∀ c : txProcessingContext_t, c.currentFieldLength < 4294967296 →
      hashFieldBytes32 c = hashFieldBytes c ∧ cacheFieldBytes32 E c = cacheFieldBytes E c) := by
  have call : ∀ (fuel : Nat) (c c1 : txProcessingContext_t) (buffer : List Nat)
      (s : parserStatus_e), c.currentFieldPos ≤ c.currentFieldLength →
      parseTx E fuel c buffer = some (s, c1) →
      c1.currentFieldPos ≤ c1.currentFieldLength := by
    intro fuel c c1 buffer s hc h
    obtain ⟨r, hr, _, rfl⟩ := (parseTx_eq_some E).1 h
    refine processTxInternal_invariant E
      (fun c => c.currentFieldPos ≤ c.currentFieldLength)
      (fun r => r.ctx.currentFieldPos ≤ r.ctx.currentFieldLength) ?_ ?_ fuel
      { c with workBuffer := buffer } r hc hr
    · intro c c1 hP hb
      have := loopBody_position E hE c hP
      rw [hb] at this
      exact this
    · intro c r hP hb
      have := loopBody_position E hE c hP
      rw [hb] at this
      exact this
  have session : ∀ (fuel : Nat) (chunks : List (List Nat)) (c : txProcessingContext_t)
      (ss : List parserStatus_e) (c1 : txProcessingContext_t),
      c.currentFieldPos ≤ c.currentFieldLength →
      feedChunks E fuel c chunks = some (ss, c1) →
      c1.currentFieldPos ≤ c1.currentFieldLength := by
    intro fuel chunks
    induction chunks with
    | nil =>
      intro c ss c1 hc h
      simp only [feedChunks] at h
      cases h
      exact hc
    | cons b more ih =>
      intro c ss c1 hc h
      simp only [feedChunks] at h
      cases hp : parseTx E fuel c b with
      | none => rw [hp] at h; cases h
      | some p =>
        obtain ⟨s, c2⟩ := p
        rw [hp] at h
        simp only at h
        cases hm : feedChunks E fuel c2 more with
        | none => rw [hm] at h; cases h
        | some q =>
          obtain ⟨ss2, c3⟩ := q
          rw [hm] at h
          simp only at h
          have e3 : c3 = c1 := by
            have := Option.some.inj h
            exact (Prod.mk.inj this).2
          rw [← e3]
          exact ih c2 ss2 c3 (call fuel c c2 b s hc hp) hm
  refine ⟨Nat.le_refl _, call, ?_, ?_⟩
  · intro fuel chunks ss c1 h
    exact session fuel chunks _ ss c1 (Nat.le_refl _) h
  · intro c hl
    exact ⟨hashFieldBytes32_eq c hl, cacheFieldBytes32_eq E c hl⟩

/-- C13 at a concrete input: for `demoPlatform`, whose decoder records the
length on completion only, the tag of the chain id and one byte of it leave the
position 1 within the declared length 32. -/
theorem position_within_length_witness :
    RecordsLengthOnCompletion demoPlatform ∧
    parseTx demoPlatform 2 (initTxContext demoPlatform) [4, 32, 171] =
      some (STREAM_PROCESSING,
        { initTxContext demoPlatform with
          sha256 := [171]
          currentFieldLength := 32
          currentFieldPos := 1
          processingField := true
          tlvBuffer := [4, 32, 0, 0, 0] }) ∧
    (1 : Nat) ≤ 32 :=
  have e : parseTx demoPlatform 2 (initTxContext demoPlatform) [4, 32, 171] =
      some (STREAM_PROCESSING,
        { initTxContext demoPlatform with
          sha256 := [171]
          currentFieldLength := 32
          currentFieldPos := 1
          processingField := true
          tlvBuffer := [4, 32, 0, 0, 0] }) := by decide
  ⟨demoPlatform_records, e,
    (position_within_length demoPlatform demoPlatform_records).2.1 2 _ _ _ _
      (Nat.le_refl 0) e⟩

/-! ## C17: the scratch buffer -/

/-- The inner loop keeps the size of the scratch array. -/
theorem tlvDecodeLoop_tlvBuffer_length (E : Platform) :
    ∀ (w : List Nat) (c : txProcessingContext_t),
      (tlvDecodeLoop E w c).ctx.tlvBuffer.length = c.tlvBuffer.length := by
  intro w
  induction w with
  | nil => intro c; rfl
  | cons b rest ih =>
    intro c
    simp only [tlvDecodeLoop, readTxByte]
    split_ifs
    · simp [TlvLoop.ctx]
    · simp [TlvLoop.ctx]
    · simp [TlvLoop.ctx]
    · rw [ih]
      simp

/-- While the inner loop goes on, the index of the next write is below the size
of the scratch buffer. -/
theorem tlvDecodeLoop_pos (E : Platform) :
    ∀ (w : List Nat) (c c1 : txProcessingContext_t),
      c.tlvBufferPos < E.sizeof_tlvBuffer →
      tlvDecodeLoop E w c = .pending c1 →
      c1.tlvBufferPos < E.sizeof_tlvBuffer := by
  intro w
  induction w with
  | nil =>
    intro c c1 hc h
    simp only [tlvDecodeLoop] at h
    cases h
    exact hc
  | cons b rest ih =>
    intro c c1 hc h
    simp only [tlvDecodeLoop, readTxByte] at h
    split_ifs at h with h1 h2 h3
    refine ih _ c1 ?_ h
    show (c.tlvBufferPos + 1) % 4294967296 < E.sizeof_tlvBuffer
    have h3 : (c.tlvBufferPos + 1) % 4294967296 ≠ E.sizeof_tlvBuffer := h3
    have := Nat.mod_le (c.tlvBufferPos + 1) 4294967296
    omega

/-- The head of the loop keeps the index of the next write below the size of
the scratch buffer, unless it ends the call with a fault. -/
theorem loopHead_scratch (E : Platform) (c : txProcessingContext_t)
    (hc : c.tlvBufferPos < E.sizeof_tlvBuffer ∧ c.tlvBuffer.length = E.sizeof_tlvBuffer) :
    (∀ c1, loopHead E c = .again c1 →
      c1.tlvBufferPos < E.sizeof_tlvBuffer ∧ c1.tlvBuffer.length = E.sizeof_tlvBuffer) ∧
    (∀ r, loopHead E c = .leave r → r.status ≠ STREAM_FAULT →
      r.ctx.tlvBufferPos < E.sizeof_tlvBuffer ∧
      r.ctx.tlvBuffer.length = E.sizeof_tlvBuffer) := by
  have hlen := tlvDecodeLoop_tlvBuffer_length E c.workBuffer c
  unfold loopHead
  split_ifs
  · refine ⟨fun c1 h => (by cases h), fun r h _ => ?_⟩
    cases h
    exact hc
  · refine ⟨fun c1 h => (by cases h), fun r h _ => ?_⟩
    cases h
    exact hc
  · cases hd : tlvDecodeLoop E c.workBuffer c with
    | fault c1 =>
      refine ⟨fun c2 h => (by cases h), fun r h hr => ?_⟩
      cases h
      exact absurd rfl hr
    | raised c1 => exact absurd hd (tlvDecodeLoop_ne_raised E _ _ _)
    | pending c1 =>
      rw [hd] at hlen
      refine ⟨fun c2 h => (by cases h), fun r h _ => ?_⟩
      cases h
      exact ⟨tlvDecodeLoop_pos E _ _ _ hc.1 hd, hlen.trans hc.2⟩
    | decoded c1 =>
      rw [hd] at hlen
      refine ⟨fun c2 h => ?_, fun r h _ => by cases h⟩
      cases h
      exact ⟨by show 0 < E.sizeof_tlvBuffer; omega, hlen.trans hc.2⟩
  · refine ⟨fun c1 h => ?_, fun r h _ => by cases h⟩
    cases h
    exact hc

/-- A pass of the loop body keeps the index of the next write below the size
of the scratch buffer, unless it ends the call with a fault. -/
theorem loopBody_scratch (E : Platform) (c : txProcessingContext_t)
    (hc : c.tlvBufferPos < E.sizeof_tlvBuffer ∧ c.tlvBuffer.length = E.sizeof_tlvBuffer) :
    (∀ c1, loopBody E c = .again c1 →
      c1.tlvBufferPos < E.sizeof_tlvBuffer ∧ c1.tlvBuffer.length = E.sizeof_tlvBuffer) ∧
    (∀ r, loopBody E c = .leave r → r.status ≠ STREAM_FAULT →
      r.ctx.tlvBufferPos < E.sizeof_tlvBuffer ∧
      r.ctx.tlvBuffer.length = E.sizeof_tlvBuffer) := by
  obtain ⟨ha, hl⟩ := loopHead_scratch E c hc
  constructor
  · intro c2 h
    obtain ⟨c1, h1, h2⟩ := (loopBody_again_iff E).1 h
    have fr := dispatch_frame E c1
    rw [h2] at fr
    obtain ⟨p, q⟩ := ha c1 h1
    exact ⟨by rw [show c2.tlvBufferPos = c1.tlvBufferPos from fr.2.1]; exact p,
      by rw [show c2.tlvBuffer = c1.tlvBuffer from fr.1]; exact q⟩
  · intro r h hr
    rcases (loopBody_leave_iff E).1 h with h1 | ⟨c1, _, h2⟩
    · exact hl r h1 hr
    · exact absurd (dispatch_leave E h2).2 hr

/-- A call that does not return a fault keeps the index of the next write
below the size of the scratch buffer. -/
theorem parseTx_scratch (E : Platform) {fuel : Nat} {c c1 : txProcessingContext_t}
    {buffer : List Nat} {s : parserStatus_e}
    (hc : c.tlvBufferPos < E.sizeof_tlvBuffer ∧ c.tlvBuffer.length = E.sizeof_tlvBuffer)
    (h : parseTx E fuel c buffer = some (s, c1)) (hs : s ≠ STREAM_FAULT) :
    c1.tlvBufferPos < E.sizeof_tlvBuffer ∧ c1.tlvBuffer.length = E.sizeof_tlvBuffer := by
  obtain ⟨r, hr, rfl, rfl⟩ := (parseTx_eq_some E).1 h
  exact processTxInternal_invariant E
    (fun c => c.tlvBufferPos < E.sizeof_tlvBuffer ∧ c.tlvBuffer.length = E.sizeof_tlvBuffer)
    (fun r => r.status ≠ STREAM_FAULT →
      r.ctx.tlvBufferPos < E.sizeof_tlvBuffer ∧ r.ctx.tlvBuffer.length = E.sizeof_tlvBuffer)
    (fun c c1 hP hb => (loopBody_scratch E c hP).1 c1 hb)
    (fun c r hP hb => (loopBody_scratch E c hP).2 r hb)
    fuel { c with workBuffer := buffer } r hc hr hs

/-- Calls none of which returns a fault keep the index of the next write below
the size of the scratch buffer. -/
theorem feedChunks_scratch (E : Platform) (fuel : Nat) :
    ∀ (chunks : List (List Nat)) (c : txProcessingContext_t)
      (ss : List parserStatus_e) (c1 : txProcessingContext_t),
      c.tlvBufferPos < E.sizeof_tlvBuffer ∧ c.tlvBuffer.length = E.sizeof_tlvBuffer →
      feedChunks E fuel c chunks = some (ss, c1) → STREAM_FAULT ∉ ss →
      c1.tlvBufferPos < E.sizeof_tlvBuffer ∧ c1.tlvBuffer.length = E.sizeof_tlvBuffer := by
  intro chunks
  induction chunks with
  | nil =>
    intro c ss c1 hc h _
    simp only [feedChunks] at h
    cases h
    exact hc
  | cons b more ih =>
    intro c ss c1 hc h hno
    simp only [feedChunks] at h
    cases hp : parseTx E fuel c b with
    | none => rw [hp] at h; cases h
    | some p =>
      obtain ⟨s, c2⟩ := p
      rw [hp] at h
      simp only at h
      cases hm : feedChunks E fuel c2 more with
      | none => rw [hm] at h; cases h
      | some q =>
        obtain ⟨ss2, c3⟩ := q
        rw [hm] at h
        simp only at h
        have e := Prod.mk.inj (Option.some.inj h)
        rw [← e.1] at hno
        rw [← e.2]
        have hs : s ≠ STREAM_FAULT := fun x => hno (by rw [x]; exact List.mem_cons_self _ _)
        have hss : STREAM_FAULT ∉ ss2 := fun x => hno (List.mem_cons_of_mem _ x)
        exact ih c2 ss2 c3 (parseTx_scratch E hc hp hs) hm hss

/-- A byte that fills the scratch buffer without making the tag decodable ends
the call with a fault, the bytes behind it unread. -/
theorem parseTx_scratch_full (E : Platform) (fuel : Nat) (c ck : txProcessingContext_t)
    (pre : List Nat) (b : Nat) (rest : List Nat)
    (hpf : c.processingField = false) (hs : c.state ≠ TLV_TX_DONE)
    (hpre : tlvDecodeLoop E pre c = .pending ck)
    (hfull : (ck.tlvBufferPos + 1) % 4294967296 = E.sizeof_tlvBuffer)
    (hdec : (E.tlvTryDecode ((ck.tlvBuffer.set ck.tlvBufferPos b).take
      E.sizeof_tlvBuffer)).decoded = false) :
    ∃ c1, parseTx E (fuel + 1) c (pre ++ b :: rest) = some (STREAM_FAULT, c1) ∧
      c1.workBuffer = rest ∧ c1.tlvBufferPos = E.sizeof_tlvBuffer ∧
      c1.state = c.state ∧ c1.sha256 = c.sha256 := by
  have hloop : ∃ c1, tlvDecodeLoop E (pre ++ b :: rest) c = .fault c1 ∧
      c1.workBuffer = rest ∧ c1.tlvBufferPos = E.sizeof_tlvBuffer ∧
      c1.state = ck.state ∧ c1.sha256 = ck.sha256 := by
    rw [tlvDecodeLoop_append, hpre]
    simp only [tlvDecodeLoop, readTxByte, hfull, hdec]
    split_ifs with h1
    all_goals first
      | exact ⟨_, rfl, rfl, rfl, rfl, rfl⟩
      | (exfalso; assumption)
  obtain ⟨c1, h1, h2, h3, h4, h5⟩ := hloop
  have fr := tlvDecodeLoop_frame E pre c
  rw [hpre] at fr
  have hb : loopBody E { c with workBuffer := pre ++ b :: rest } =
      .leave (.returned STREAM_FAULT c1) := by
    apply (loopBody_leave_iff E).2
    left
    unfold loopHead
    have hne : ({ c with workBuffer := pre ++ b :: rest } :
        txProcessingContext_t).commandLength ≠ 0 := by
      simp [txProcessingContext_t.commandLength]
    rw [if_neg (show ¬ ({ c with workBuffer := pre ++ b :: rest } :
        txProcessingContext_t).state = TLV_TX_DONE from hs), if_neg hne]
    rw [if_pos (show (!({ c with workBuffer := pre ++ b :: rest } :
        txProcessingContext_t).processingField) = true by
      show (!c.processingField) = true
      rw [hpf]; rfl)]
    rw [show ({ c with workBuffer := pre ++ b :: rest } :
        txProcessingContext_t).workBuffer = pre ++ b :: rest from rfl,
      tlvDecodeLoop_workBuffer, h1]
  refine ⟨c1, parseTx_of_loopBody_leave E fuel hb, h2, h3, ?_, ?_⟩
  · rw [h4]; exact fr.1
  · rw [h5]; exact fr.2.1

/-- C17: the scratch-buffer bound.  In every context reached from
`initTxContext` through calls of `parseTx` none of which has returned
`STREAM_FAULT`, `tlvBufferPos` is below `sizeof(tlvBuffer)` (the size of the
array); from such a context every pass of the loop of a call begins with
`tlvBufferPos` below that size, and so does every turn of the inner loop: the
index at which the byte behind any beginning `pre` of the unread bytes is written
is within the array.  And when a byte makes the scratch buffer full while
`tlvTryDecode` still reports the tag as not decoded, `parseTx` returns
`STREAM_FAULT` with the bytes behind that byte unread. -/
theorem scratch_buffer_bound (E : Platform) (hS : 0 < E.sizeof_tlvBuffer) :
    (∀ (fuel : Nat) (chunks : List (List Nat)) (ss : List parserStatus_e)
        (c : txProcessingContext_t),
      feedChunks E fuel (initTxContext E) chunks = some (ss, c) → STREAM_FAULT ∉ ss →
      c.tlvBufferPos < E.sizeof_tlvBuffer ∧ c.tlvBuffer.length = E.sizeof_tlvBuffer) ∧
    (∀ c c1 : txProcessingContext_t,
      c.tlvBufferPos < E.sizeof_tlvBuffer ∧ c.tlvBuffer.length = E.sizeof_tlvBuffer →
      loopBody E c = .again c1 →
      c1.tlvBufferPos < E.sizeof_tlvBuffer ∧ c1.tlvBuffer.length = E.sizeof_tlvBuffer) ∧
    (∀ (c ck : txProcessingContext_t) (pre : List Nat),
      c.tlvBufferPos < E.sizeof_tlvBuffer ∧ c.tlvBuffer.length = E.sizeof_tlvBuffer →
      tlvDecodeLoop E pre c = .pending ck →
      ck.tlvBufferPos < E.sizeof_tlvBuffer ∧ ck.tlvBufferPos < ck.tlvBuffer.length) ∧
    (∀ (fuel : Nat) (c ck : txProcessingContext_t) (pre : List Nat) (b : Nat)
        (rest : List Nat),
      c.processingField = false → c.state ≠ TLV_TX_DONE →
      tlvDecodeLoop E pre c = .pending ck →
      (ck.tlvBufferPos + 1) % 4294967296 = E.sizeof_tlvBuffer →
      (E.tlvTryDecode ((ck.tlvBuffer.set ck.tlvBufferPos b).take
        E.sizeof_tlvBuffer)).decoded = false →
      ∃ c1, parseTx E (fuel + 1) c (pre ++ b :: rest) = some (STREAM_FAULT, c1) ∧
        c1.workBuffer = rest ∧ c1.tlvBufferPos = E.sizeof_tlvBuffer ∧
        c1.state = c.state ∧ c1.sha256 = c.sha256) := by
  refine ⟨?_, ?_, ?_, ?_⟩
  · intro fuel chunks ss c h hno
    refine feedChunks_scratch E fuel chunks (initTxContext E) ss c ⟨hS, ?_⟩ h hno
    simp [initTxContext]
  · intro c c1 hc h
    exact (loopBody_scratch E c hc).1 c1 h
  · intro c ck pre hc h
    have p := tlvDecodeLoop_pos E pre c ck hc.1 h
    have l := tlvDecodeLoop_tlvBuffer_length E pre c
    rw [h] at l
    have l2 : ck.tlvBuffer.length = c.tlvBuffer.length := l
    exact ⟨p, by omega⟩
  · intro fuel c ck pre b rest hpf hs hpre hfull hdec
    exact parseTx_scratch_full E fuel c ck pre b rest hpf hs hpre hfull hdec

/-- C17 at a concrete input: for the 5-byte scratch buffer of `demoPlatform`,
after the kind byte of the first tag the index of the next write is 1. -/
theorem scratch_buffer_bound_witness :
    0 < demoPlatform.sizeof_tlvBuffer ∧
    feedChunks demoPlatform 1 (initTxContext demoPlatform) [[4]] =
      some ([STREAM_PROCESSING],
        { initTxContext demoPlatform with tlvBuffer := [4, 0, 0, 0, 0], tlvBufferPos := 1 }) ∧
    (1 : Nat) < 5 ∧ [4, 0, 0, 0, 0].length = 5 :=
  have e : feedChunks demoPlatform 1 (initTxContext demoPlatform) [[4]] =
      some ([STREAM_PROCESSING],
        { initTxContext demoPlatform with
          tlvBuffer := [4, 0, 0, 0, 0], tlvBufferPos := 1 }) := by decide
  ⟨by decide, e,
    (scratch_buffer_bound demoPlatform (by decide)).1 1 [[4]] _ _ e (by decide)⟩

/-! ## C11: truncated input -/

/-- In a scalar state, on a tag of the kind and width the state requires, the
`switch` runs the consumer behind its checks. -/
theorem dispatch_scalar_valid (E : Platform) (c : txProcessingContext_t)
    (hq : c.isSequence = false)
    (hw : requiredWidth E c.state = some c.currentFieldLength) :
    dispatch E c = .again (consumeFieldBytes E c) := by
  have sv := state_values
  unfold requiredWidth at hw
  split_ifs at hw with h0 h1 h2 h3 h4 h5 h6
  all_goals have hl := Option.some.inj hw
  · have e : consumeFieldBytes E c = hashFieldBytes c := by
      unfold consumeFieldBytes
      rw [if_neg (by omega)]
    rw [e, dispatch_of_select E (f := processChainId) (by rw [h0]; rfl), processChainId_eq]
    simp [hq, ← hl, afterConsumer]
  · have e : consumeFieldBytes E c = hashFieldBytes c := by
      unfold consumeFieldBytes
      rw [if_neg (by omega)]
    rw [e, dispatch_of_select E (f := processHeaderField) (by rw [h1]; rfl),
      processHeaderField_eq]
    simp [hq, ← hl, h1, afterConsumer]
  · have e : consumeFieldBytes E c = hashFieldBytes c := by
      unfold consumeFieldBytes
      rw [if_neg (by omega)]
    rw [e, dispatch_of_select E (f := processHeaderField) (by rw [h2]; rfl),
      processHeaderField_eq]
    simp [hq, ← hl, h2, afterConsumer]
  · have e : consumeFieldBytes E c = hashFieldBytes c := by
      unfold consumeFieldBytes
      rw [if_neg (by omega)]
    rw [e, dispatch_of_select E (f := processHeaderField) (by rw [h3]; rfl),
      processHeaderField_eq]
    simp [hq, ← hl, h3, afterConsumer]
  · have e : consumeFieldBytes E c = cacheFieldBytes E c := by
      unfold consumeFieldBytes
      rw [if_pos (Or.inl h4)]
    rw [e, dispatch_of_select E (f := processHeaderField2 E) (by rw [h4]; rfl),
      processHeaderField2_eq]
    simp [hq, ← hl, afterConsumer]
  · have e : consumeFieldBytes E c = hashFieldBytes c := by
      unfold consumeFieldBytes
      rw [if_neg (by omega)]
    rw [e, dispatch_of_select E (f := processHeaderField) (by rw [h5]; rfl),
      processHeaderField_eq]
    simp [hq, ← hl, h5, afterConsumer]
  · have e : consumeFieldBytes E c = cacheFieldBytes E c := by
      unfold consumeFieldBytes
      rw [if_pos (Or.inr h6)]
    rw [e, dispatch_of_select E (f := processHeaderField2 E) (by rw [h6]; rfl),
      processHeaderField2_eq]
    simp [hq, ← hl, afterConsumer]

/-- A scalar state is not the terminal one. -/
theorem requiredWidth_ne_done (E : Platform) {state w : Nat}
    (h : requiredWidth E state = some w) : state ≠ TLV_TX_DONE := by
  have sv := state_values
  unfold requiredWidth at h
  split_ifs at h <;> omega

/-- The consumer behind its checks, on a chunk that does not bring the last
byte of the field: the chunk is used up and the position advances by its
length; state, declared length, kind and `processingField` stay. -/
theorem consumeFieldBytes_short (E : Platform) (c : txProcessingContext_t)
    (h : c.currentFieldPos + c.workBuffer.length < c.currentFieldLength) :
    (consumeFieldBytes E c).workBuffer = [] ∧
    (consumeFieldBytes E c).currentFieldPos = c.currentFieldPos + c.workBuffer.length ∧
    (consumeFieldBytes E c).state = c.state ∧
    (consumeFieldBytes E c).currentFieldLength = c.currentFieldLength ∧
    (consumeFieldBytes E c).isSequence = c.isSequence ∧
    (consumeFieldBytes E c).processingField = c.processingField := by
  unfold consumeFieldBytes
  split_ifs
  · rw [cacheFieldBytes_short E c (by omega) (by omega)]
    exact ⟨rfl, rfl, rfl, rfl, rfl, rfl⟩
  · rw [hashFieldBytes_short c (by omega) (by omega)]
    exact ⟨rfl, rfl, rfl, rfl, rfl, rfl⟩

/-- A chunk that ends before the last byte of a scalar field whose tag is of
the required kind and width (the tag decoded in this call, or the field already
in progress): the call returns `STREAM_PROCESSING`, in at most two passes of the
loop, and leaves the context in the middle of that field. -/
theorem parseTx_field_truncated (E : Platform) (fuel : Nat)
    {c c1 : txProcessingContext_t} {buffer : List Nat}
    (hh : loopHead E { c with workBuffer := buffer } = .again c1)
    (hq : c1.isSequence = false)
    (hw : requiredWidth E c1.state = some c1.currentFieldLength)
    (hshort : c1.currentFieldPos + c1.workBuffer.length < c1.currentFieldLength) :
    parseTx E (fuel + 2) c buffer = some (STREAM_PROCESSING, consumeFieldBytes E c1) ∧
    MidField E (consumeFieldBytes E c1) ∧
    (consumeFieldBytes E c1).state = c1.state ∧
    (consumeFieldBytes E c1).currentFieldLength = c1.currentFieldLength ∧
    (consumeFieldBytes E c1).currentFieldPos =
      c1.currentFieldPos + c1.workBuffer.length := by
  obtain ⟨k1, k2, k3, k4, k5, k6⟩ := consumeFieldBytes_short E c1 hshort
  have hpf := (loopHead_again E hh).2.2.1
  have hb : loopBody E { c with workBuffer := buffer } = .again (consumeFieldBytes E c1) :=
    (loopBody_again_iff E).2 ⟨c1, hh, dispatch_scalar_valid E c1 hq hw⟩
  have hs2 : (consumeFieldBytes E c1).state ≠ TLV_TX_DONE := by
    rw [k3]
    exact requiredWidth_ne_done E hw
  have hrun : processTxInternal E (fuel + 2) { c with workBuffer := buffer } =
      some (.returned STREAM_PROCESSING (consumeFieldBytes E c1)) := by
    rw [processTxInternal_again E hb (fuel + 1)]
    simp only [processTxInternal, loopBody_of_empty E k1 hs2]
  refine ⟨(parseTx_eq_some E).2 ⟨_, hrun, rfl, rfl⟩, ⟨?_, ?_, ?_, ?_⟩, k3, k4, k2⟩
  · rw [k6]; exact hpf
  · rw [k5]; exact hq
  · rw [k3, k4]; exact hw
  · rw [k2, k4]; exact hshort

/-- In the middle of a scalar field, a chunk that does not bring the last byte
of the field: the call returns `STREAM_PROCESSING` and leaves the context in the
middle of the field, the position advanced by the length of the chunk. -/
theorem parseTx_midField (E : Platform) (fuel : Nat) (c : txProcessingContext_t)
    (buffer : List Nat) (hc : MidField E c)
    (hshort : c.currentFieldPos + buffer.length < c.currentFieldLength) :
    ∃ c1, parseTx E (fuel + 2) c buffer = some (STREAM_PROCESSING, c1) ∧
      MidField E c1 ∧ c1.state = c.state ∧
      c1.currentFieldLength = c.currentFieldLength ∧
      c1.currentFieldPos = c.currentFieldPos + buffer.length := by
  obtain ⟨hpf, hq, hw, hlt⟩ := hc
  have hs := requiredWidth_ne_done E hw
  cases buffer with
  | nil =>
    refine ⟨{ c with workBuffer := [] }, ?_, ⟨hpf, hq, hw, hlt⟩, rfl, rfl, rfl⟩
    exact parseTx_of_loopBody_leave E (fuel + 1)
      (loopBody_of_empty E (c := { c with workBuffer := [] }) rfl hs)
  | cons b bs =>
    have hh : loopHead E { c with workBuffer := b :: bs } =
        .again { c with workBuffer := b :: bs } := by
      unfold loopHead
      rw [if_neg (show ¬ ({ c with workBuffer := b :: bs } :
          txProcessingContext_t).state = TLV_TX_DONE from hs),
        if_neg (show ¬ ({ c with workBuffer := b :: bs } :
          txProcessingContext_t).commandLength = 0 by
            simp [txProcessingContext_t.commandLength]),
        if_neg (show ¬ (!({ c with workBuffer := b :: bs } :
          txProcessingContext_t).processingField) = true by
            show ¬ (!c.processingField) = true
            rw [hpf]; simp)]
    obtain ⟨h1, h2, h3, h4, h5⟩ :=
      parseTx_field_truncated E fuel hh hq hw hshort
    exact ⟨_, h1, h2, h3, h4, h5⟩

/-- In the middle of a scalar field, chunks that together do not bring the last
byte of the field: every call returns `STREAM_PROCESSING`. -/
theorem feedChunks_midField (E : Platform) (fuel : Nat) :
    ∀ (chunks : List (List Nat)) (c : txProcessingContext_t),
      MidField E c →
      c.currentFieldPos + chunks.flatten.length < c.currentFieldLength →
      ∃ c1, feedChunks E (fuel + 2) c chunks =
          some (List.replicate chunks.length STREAM_PROCESSING, c1) ∧
        MidField E c1 ∧ c1.state = c.state ∧
        c1.currentFieldLength = c.currentFieldLength ∧
        c1.currentFieldPos = c.currentFieldPos + chunks.flatten.length := by
  intro chunks
  induction chunks with
  | nil =>
    intro c hc _
    exact ⟨c, rfl, hc, rfl, rfl, rfl⟩
  | cons b more ih =>
    intro c hc hshort
    have hlen : (b :: more).flatten.length = b.length + more.flatten.length := by
      simp
    rw [hlen] at hshort
    obtain ⟨c1, h1, h2, h3, h4, h5⟩ := parseTx_midField E fuel c b hc (by omega)
    obtain ⟨c2, g1, g2, g3, g4, g5⟩ := ih c1 h2 (by rw [h4, h5]; omega)
    refine ⟨c2, ?_, g2, g3.trans h3, g4.trans h4, ?_⟩
    · simp only [feedChunks, h1, g1, List.length_cons, List.replicate_succ]
    · rw [g5, h5, hlen]
      omega

/-- Bytes that leave a tag pending, split in two. -/
theorem tagStaysPending_append (E : Platform) {acc b more : List Nat}
    (h : TagStaysPending E acc (b ++ more)) :
    TagStaysPending E acc b ∧ TagStaysPending E (acc ++ b) more := by
  obtain ⟨hroom, hund⟩ := h
  simp only [List.length_append] at hroom
  refine ⟨⟨by omega, ?_⟩, ⟨by simp only [List.length_append]; omega, ?_⟩⟩
  · intro k hk hle
    have := hund k hk (by simp only [List.length_append]; omega)
    rw [List.take_append_of_le_length hle] at this
    exact this
  · intro k hk hle
    have := hund (b.length + k) (by omega) (by simp only [List.length_append]; omega)
    rw [List.take_append, ← List.append_assoc] at this
    exact this

/-- The inner loop on bytes that leave the tag pending: the bytes are appended
to the tag bytes in the scratch buffer, and the loop ends for want of bytes. -/
theorem tlvDecodeLoop_stays_pending (E : Platform) (hS : E.sizeof_tlvBuffer ≤ 4294967296) :
    ∀ (bytes : List Nat) (c : txProcessingContext_t),
      c.tlvBuffer.length = E.sizeof_tlvBuffer →
      TagStaysPending E (c.tlvBuffer.take c.tlvBufferPos) bytes →
      ∃ c1, tlvDecodeLoop E bytes c = .pending c1 ∧
        c1.tlvBufferPos = c.tlvBufferPos + bytes.length ∧
        c1.tlvBuffer.take c1.tlvBufferPos = c.tlvBuffer.take c.tlvBufferPos ++ bytes ∧
        c1.tlvBuffer.length = E.sizeof_tlvBuffer := by
  intro bytes
  induction bytes with
  | nil =>
    intro c hlen _
    exact ⟨{ c with workBuffer := [] }, rfl, rfl, by simp, hlen⟩
  | cons b bs ih =>
    intro c hlen hp
    have hp0 := hp
    obtain ⟨hroom, hund⟩ := hp
    simp only [List.length_take, List.length_cons] at hroom
    have hpos : c.tlvBufferPos < c.tlvBuffer.length := by
      rcases Nat.lt_or_ge c.tlvBufferPos c.tlvBuffer.length with h | h
      · exact h
      · rw [Nat.min_eq_right h] at hroom
        omega
    rw [Nat.min_eq_left (Nat.le_of_lt hpos)] at hroom
    have hpl : (c.tlvBuffer.take c.tlvBufferPos).length = c.tlvBufferPos := by
      rw [List.length_take]
      exact Nat.min_eq_left (Nat.le_of_lt hpos)
    have hmod : (c.tlvBufferPos + 1) % 4294967296 = c.tlvBufferPos + 1 :=
      Nat.mod_eq_of_lt (by omega)
    have hbytes : (c.tlvBuffer.set c.tlvBufferPos b).take (c.tlvBufferPos + 1) =
        c.tlvBuffer.take c.tlvBufferPos ++ [b] := by
      have := take_set_succ c.tlvBuffer (c.tlvBuffer.take c.tlvBufferPos) b
        (by rw [hpl]) (by rw [hpl]; exact hpos)
      rw [hpl] at this
      exact this
    obtain ⟨hv, hd⟩ := hund 1 (by omega) (by simp)
    simp only [List.take_succ_cons, List.take_zero] at hv hd
    have hns : ¬ c.tlvBufferPos + 1 = E.sizeof_tlvBuffer := by omega
    simp only [tlvDecodeLoop, readTxByte, hmod, hbytes, hv, hd, Bool.not_true,
      Bool.false_eq_true, if_false, hns]
    have hp2 : TagStaysPending E (c.tlvBuffer.take c.tlvBufferPos ++ [b]) bs :=
      (@tagStaysPending_append E _ [b] bs hp0).2
    obtain ⟨c1, h1, h2, h3, h4⟩ := ih
      { c with
        workBuffer := bs
        tlvBuffer := c.tlvBuffer.set c.tlvBufferPos b
        tlvBufferPos := c.tlvBufferPos + 1
        currentFieldLength :=
          (E.tlvTryDecode (c.tlvBuffer.take c.tlvBufferPos ++ [b])).fieldLength.getD
            c.currentFieldLength
        isSequence :=
          (E.tlvTryDecode (c.tlvBuffer.take c.tlvBufferPos ++ [b])).isSequence.getD
            c.isSequence }
      (by simpa using hlen)
      (by show TagStaysPending E
            ((c.tlvBuffer.set c.tlvBufferPos b).take (c.tlvBufferPos + 1)) bs
          rw [hbytes]; exact hp2)
    refine ⟨c1, h1, ?_, ?_, h4⟩
    · rw [h2]
      show c.tlvBufferPos + 1 + bs.length = c.tlvBufferPos + (bs.length + 1)
      omega
    · rw [h3]
      show (c.tlvBuffer.set c.tlvBufferPos b).take (c.tlvBufferPos + 1) ++ bs = _
      rw [hbytes]
      simp

/-- In the middle of a tag, a chunk whose bytes leave the tag pending: the call
returns `STREAM_PROCESSING` in the first pass of the loop and leaves the context
in the middle of the tag, the bytes of the chunk appended to the tag bytes. -/
theorem parseTx_midTag (E : Platform) (hS : E.sizeof_tlvBuffer ≤ 4294967296) (fuel : Nat)
    (c : txProcessingContext_t) (buffer : List Nat) (hc : MidTag E c)
    (hp : TagStaysPending E (c.tlvBuffer.take c.tlvBufferPos) buffer) :
    ∃ c1, parseTx E (fuel + 1) c buffer = some (STREAM_PROCESSING, c1) ∧
      MidTag E c1 ∧ c1.state = c.state ∧ c1.sha256 = c.sha256 ∧
      c1.tlvBufferPos = c.tlvBufferPos + buffer.length ∧
      c1.tlvBuffer.take c1.tlvBufferPos = c.tlvBuffer.take c.tlvBufferPos ++ buffer := by
  obtain ⟨hpf, hs, hlen, hpos⟩ := hc
  obtain ⟨c1, h1, h2, h3, h4⟩ := tlvDecodeLoop_stays_pending E hS buffer c hlen hp
  have fr := tlvDecodeLoop_frame E buffer c
  rw [h1] at fr
  simp only [TlvLoop.ctx] at fr
  have hroom := hp.1
  have hpl : (c.tlvBuffer.take c.tlvBufferPos).length = c.tlvBufferPos := by
    rw [List.length_take]
    exact Nat.min_eq_left (by omega)
  rw [hpl] at hroom
  refine ⟨c1, ?_, ⟨by rw [fr.2.2.1]; exact hpf, by rw [fr.1]; exact hs, h4,
    by rw [h2]; exact hroom⟩, fr.1, fr.2.1, h2, h3⟩
  cases buffer with
  | nil =>
    simp only [tlvDecodeLoop] at h1
    cases h1
    exact parseTx_of_loopBody_leave E fuel
      (loopBody_of_empty E (c := { c with workBuffer := [] }) rfl hs)
  | cons b bs =>
    apply parseTx_of_loopBody_leave E fuel (r := .returned STREAM_PROCESSING c1)
    apply (loopBody_leave_iff E).2
    left
    unfold loopHead
    rw [if_neg (show ¬ ({ c with workBuffer := b :: bs } :
        txProcessingContext_t).state = TLV_TX_DONE from hs),
      if_neg (show ¬ ({ c with workBuffer := b :: bs } :
        txProcessingContext_t).commandLength = 0 by
          simp [txProcessingContext_t.commandLength]),
      if_pos (show (!({ c with workBuffer := b :: bs } :
        txProcessingContext_t).processingField) = true by
          show (!c.processingField) = true
          rw [hpf]; rfl)]
    rw [show ({ c with workBuffer := b :: bs } :
        txProcessingContext_t).workBuffer = b :: bs from rfl,
      tlvDecodeLoop_workBuffer, h1]

/-- In the middle of a tag, chunks whose bytes together leave the tag pending:
every call returns `STREAM_PROCESSING`. -/
theorem feedChunks_midTag (E : Platform) (hS : E.sizeof_tlvBuffer ≤ 4294967296)
    (fuel : Nat) :
    ∀ (chunks : List (List Nat)) (c : txProcessingContext_t),
      MidTag E c →
      TagStaysPending E (c.tlvBuffer.take c.tlvBufferPos) chunks.flatten →
      ∃ c1, feedChunks E (fuel + 1) c chunks =
          some (List.replicate chunks.length STREAM_PROCESSING, c1) ∧
        MidTag E c1 ∧ c1.state = c.state ∧ c1.sha256 = c.sha256 ∧
        c1.tlvBuffer.take c1.tlvBufferPos =
          c.tlvBuffer.take c.tlvBufferPos ++ chunks.flatten := by
  intro chunks
  induction chunks with
  | nil =>
    intro c hc _
    exact ⟨c, rfl, hc, rfl, rfl, by simp⟩
  | cons b more ih =>
    intro c hc hp
    rw [List.flatten_cons] at hp
    obtain ⟨hp1, hp2⟩ := tagStaysPending_append E hp
    obtain ⟨c1, h1, h2, h3, h4, _, h6⟩ := parseTx_midTag E hS fuel c b hc hp1
    obtain ⟨c2, g1, g2, g3, g4, g5⟩ := ih c1 h2 (by rw [h6]; exact hp2)
    refine ⟨c2, ?_, g2, g3.trans h3, g4.trans h4, ?_⟩
    · simp only [feedChunks, h1, g1, List.length_cons, List.replicate_succ]
    · rw [g5, h6, List.flatten_cons, List.append_assoc]

/-- A fault of the inner loop: the last byte read made the tag invalid, or
filled the scratch buffer. -/
theorem tlvDecodeLoop_fault (E : Platform) :
    ∀ (w : List Nat) (c c1 : txProcessingContext_t),
      tlvDecodeLoop E w c = .fault c1 →
      (E.tlvTryDecode (c1.tlvBuffer.take c1.tlvBufferPos)).valid = false ∨
      c1.tlvBufferPos = E.sizeof_tlvBuffer := by
  intro w
  induction w with
  | nil => intro c c1 h; simp [tlvDecodeLoop] at h
  | cons b rest ih =>
    intro c c1 h
    simp only [tlvDecodeLoop, readTxByte] at h
    split_ifs at h with h1 h2 h3
    · cases h
      left
      simpa using h1
    · cases h
      right
      exact h3
    · exact ih _ c1 h

/-- How a call can end: with `STREAM_PROCESSING`; with `STREAM_FINISHED` in the
terminal state; with a fault of the inner loop, no field being in progress, the
tag bytes invalid or the scratch buffer full; or with a fault of the `switch`, a
field being in progress. -/
theorem processTxInternal_endings (E : Platform) (fuel : Nat)
    (c : txProcessingContext_t) (r : Completion)
    (h : processTxInternal E fuel c = some r) :
    r.status = STREAM_PROCESSING ∨
    (r.status = STREAM_FINISHED ∧ r.ctx.state = TLV_TX_DONE) ∨
    (r.status = STREAM_FAULT ∧ r.ctx.processingField = false ∧
      ((E.tlvTryDecode (r.ctx.tlvBuffer.take r.ctx.tlvBufferPos)).valid = false ∨
        r.ctx.tlvBufferPos = E.sizeof_tlvBuffer)) ∨
    (r.status = STREAM_FAULT ∧ r.ctx.processingField = true ∧
      dispatch E r.ctx = .leave r) := by
  refine processTxInternal_invariant E (fun _ => True)
    (fun r => r.status = STREAM_PROCESSING ∨
      (r.status = STREAM_FINISHED ∧ r.ctx.state = TLV_TX_DONE) ∨
      (r.status = STREAM_FAULT ∧ r.ctx.processingField = false ∧
        ((E.tlvTryDecode (r.ctx.tlvBuffer.take r.ctx.tlvBufferPos)).valid = false ∨
          r.ctx.tlvBufferPos = E.sizeof_tlvBuffer)) ∨
      (r.status = STREAM_FAULT ∧ r.ctx.processingField = true ∧
        dispatch E r.ctx = .leave r))
    (fun _ _ _ _ => trivial) ?_ fuel c r trivial h
  intro c r _ hb
  rcases (loopBody_leave_iff E).1 hb with h1 | ⟨c1, h1, h2⟩
  · unfold loopHead at h1
    split_ifs at h1 with hs hn hp
    · cases h1
      exact Or.inr (Or.inl ⟨rfl, hs⟩)
    · cases h1
      exact Or.inl rfl
    · have fr := (tlvDecodeLoop_frame E c.workBuffer c).2.2.1
      cases hd : tlvDecodeLoop E c.workBuffer c with
      | fault c1 =>
        rw [hd] at h1 fr
        cases h1
        refine Or.inr (Or.inr (Or.inl ⟨rfl, ?_, tlvDecodeLoop_fault E _ _ _ hd⟩))
        show c1.processingField = false
        have : c1.processingField = c.processingField := fr
        rw [this]
        simpa using hp
      | raised c1 => exact absurd hd (tlvDecodeLoop_ne_raised E _ _ _)
      | pending c1 =>
        rw [hd] at h1
        cases h1
        exact Or.inl rfl
      | decoded c1 =>
        rw [hd] at h1
        cases h1
  · obtain ⟨e1, e2⟩ := dispatch_leave E h2
    have hpf := (loopHead_again E h1).2.2.1
    refine Or.inr (Or.inr (Or.inr ⟨e2, ?_, ?_⟩))
    · rw [e1]; exact hpf
    · rw [e1]; exact h2

/-- A call that leaves the context in the middle of a scalar field, or in the
middle of a valid tag, has returned `STREAM_PROCESSING`. -/
theorem parseTx_truncated_status (E : Platform) {fuel : Nat}
    {c c1 : txProcessingContext_t} {buffer : List Nat} {s : parserStatus_e}
    (h : parseTx E fuel c buffer = some (s, c1))
    (hc : MidField E c1 ∨
      (MidTag E c1 ∧ (E.tlvTryDecode (c1.tlvBuffer.take c1.tlvBufferPos)).valid = true)) :
    s = STREAM_PROCESSING := by
  obtain ⟨r, hr, rfl, rfl⟩ := (parseTx_eq_some E).1 h
  rcases processTxInternal_endings E fuel _ r hr with e | ⟨_, e⟩ | ⟨_, e1, e2⟩ | ⟨_, e1, e2⟩
  · exact e
  · rcases hc with ⟨_, _, hw, _⟩ | ⟨⟨_, hs, _, _⟩, _⟩
    · exact absurd e (requiredWidth_ne_done E hw)
    · exact absurd e hs
  · rcases hc with ⟨hpf, _, _, _⟩ | ⟨⟨_, _, _, hpos⟩, hv⟩
    · rw [hpf] at e1
      cases e1
    · rcases e2 with e2 | e2
      · rw [hv] at e2
        cases e2
      · omega
  · rcases hc with ⟨_, hq, hw, _⟩ | ⟨⟨hpf, _, _, _⟩, _⟩
    · rw [dispatch_scalar_valid E r.ctx hq hw] at e2
      cases e2
    · rw [hpf] at e1
      cases e1

/-- C11: truncated input.  A chunk that ends before the last byte of a scalar
field whose tag has the kind and width its state requires (the tag decoded in
this call, or the field already in progress) makes `parseTx` return
`STREAM_PROCESSING` and leaves the context in the middle of that field; from a
context in the middle of such a field, chunks that together do not bring its
last byte all return `STREAM_PROCESSING`.  From a context in the middle of a
tag, chunks whose bytes leave the tag valid and not yet decodable without
filling the scratch buffer all return `STREAM_PROCESSING`.  And any call after
which the context is in the middle of such a field, or in the middle of a valid
tag that has not filled the scratch buffer, has returned `STREAM_PROCESSING`,
not `STREAM_FINISHED` or `STREAM_FAULT`. -/
theorem truncated_input_is_processing (E : Platform)
    (hS : E.sizeof_tlvBuffer ≤ 4294967296) :
    (∀ (fuel : Nat) (c c1 : txProcessingContext_t) (buffer : List Nat),
      loopHead E { c with workBuffer := buffer } = .again c1 →
      c1.isSequence = false →
      requiredWidth E c1.state = some c1.currentFieldLength →
      c1.currentFieldPos + c1.workBuffer.length < c1.currentFieldLength →
      ∃ c2, parseTx E (fuel + 2) c buffer = some (STREAM_PROCESSING, c2) ∧
        MidField E c2 ∧ c2.state = c1.state ∧
        c2.currentFieldPos = c1.currentFieldPos + c1.workBuffer.length) ∧
    (∀ (fuel : Nat) (chunks : List (List Nat)) (c : txProcessingContext_t),
      MidField E c →
      c.currentFieldPos + chunks.flatten.length < c.currentFieldLength →
      ∃ c1, feedChunks E (fuel + 2) c chunks =
          some (List.replicate chunks.length STREAM_PROCESSING, c1) ∧
        MidField E c1 ∧ c1.state = c.state ∧
        c1.currentFieldPos = c.currentFieldPos + chunks.flatten.length) ∧
    (∀ (fuel : Nat) (chunks : List (List Nat)) (c : txProcessingContext_t),
      MidTag E c →
      TagStaysPending E (c.tlvBuffer.take c.tlvBufferPos) chunks.flatten →
      ∃ c1, feedChunks E (fuel + 1) c chunks =
          some (List.replicate chunks.length STREAM_PROCESSING, c1) ∧
        MidTag E c1 ∧ c1.state = c.state ∧
        c1.tlvBuffer.take c1.tlvBufferPos =
          c.tlvBuffer.take c.tlvBufferPos ++ chunks.flatten) ∧
    (∀ (fuel : Nat) (c c1 : txProcessingContext_t) (buffer : List Nat) (s : parserStatus_e),
      parseTx E fuel c buffer = some (s, c1) →
      MidField E c1 ∨
        (MidTag E c1 ∧
          (E.tlvTryDecode (c1.tlvBuffer.take c1.tlvBufferPos)).valid = true) →
      s = STREAM_PROCESSING) := by
  refine ⟨?_, ?_, ?_, ?_⟩
  · intro fuel c c1 buffer hh hq hw hshort
    obtain ⟨h1, h2, h3, _, h5⟩ := parseTx_field_truncated E fuel hh hq hw hshort
    exact ⟨_, h1, h2, h3, h5⟩
  · intro fuel chunks c hc hshort
    obtain ⟨c1, h1, h2, h3, _, h5⟩ := feedChunks_midField E fuel chunks c hc hshort
    exact ⟨c1, h1, h2, h3, h5⟩
  · intro fuel chunks c hc hp
    obtain ⟨c1, h1, h2, h3, _, h5⟩ := feedChunks_midTag E hS fuel chunks c hc hp
    exact ⟨c1, h1, h2, h3, h5⟩
  · intro fuel c c1 buffer s h hc
    exact parseTx_truncated_status E h hc

/-- C11 at a concrete input: at position 2 of the 32 bytes of the chain id, the
chunks `[1, 2]` and `[3]` both return `STREAM_PROCESSING` and leave the position
at 5. -/
theorem truncated_input_is_processing_witness :
    demoPlatform.sizeof_tlvBuffer ≤ 4294967296 ∧
    ∃ c1, feedChunks demoPlatform 2
        { initTxContext demoPlatform with
          currentFieldLength := 32
          currentFieldPos := 2
          processingField := true } [[1, 2], [3]] =
        some ([STREAM_PROCESSING, STREAM_PROCESSING], c1) ∧
      c1.currentFieldPos = 5 := by
  refine ⟨by decide, ?_⟩
  obtain ⟨c1, h1, _, _, h4⟩ :=
    (truncated_input_is_processing demoPlatform (by decide)).2.1 0 [[1, 2], [3]]
      { initTxContext demoPlatform with
        currentFieldLength := 32
        currentFieldPos := 2
        processingField := true }
      ⟨rfl, rfl, rfl, by decide⟩ (by decide)
  exact ⟨c1, h1, h4⟩

/-! ## C19: the cached scalar holds zero -/

/-- The consumer behind the checks of `processHeaderField2` does not write to
`tempHeaderValue`. -/
theorem cacheFieldBytes_tempHeaderValue (E : Platform) (c : txProcessingContext_t) :
    (cacheFieldBytes E c).tempHeaderValue = c.tempHeaderValue := by
  unfold cacheFieldBytes hashTxData
  dsimp only
  split_ifs <;> rfl

/-- No consumer writes to `tempHeaderValue`. -/
theorem consumer_tempHeaderValue (E : Platform)
    {f : txProcessingContext_t → Option txProcessingContext_t}
    (hf : f = processChainId ∨ f = processHeaderField ∨ f = processHeaderField2 E ∨
      f = processCtxFreeActions E ∨ f = processActions ∨ f = processTxExtensions E ∨
      f = processCtxFreeData)
    {c c1 : txProcessingContext_t} (h : f c = some c1) :
    c1.tempHeaderValue = c.tempHeaderValue := by
  rcases hf with rfl | rfl | rfl | rfl | rfl | rfl | rfl
  · rw [processChainId_eq] at h
    split_ifs at h
    cases Option.some.inj h
    exact (hashFieldBytes_frame c).2.2.2
  · rw [processHeaderField_eq] at h
    split_ifs at h
    cases Option.some.inj h
    exact (hashFieldBytes_frame c).2.2.2
  · rw [processHeaderField2_eq] at h
    split_ifs at h
    cases Option.some.inj h
    exact cacheFieldBytes_tempHeaderValue E c
  · obtain ⟨_, rfl⟩ := (sequence_consumers_count E).1 h
    rfl
  · cases processActions_eq h
    rfl
  · obtain ⟨_, rfl⟩ := (sequence_consumers_count E).2.1 h
    rfl
  · obtain ⟨_, rfl⟩ := (@sequence_consumers_count E c c1).2.2 h
    rfl

/-- A pass of the loop body does not write to `tempHeaderValue`. -/
theorem loopBody_tempHeaderValue (E : Platform) (c : txProcessingContext_t) :
    (loopBody E c).ctx.tempHeaderValue = c.tempHeaderValue := by
  cases hb : loopBody E c with
  | leave r =>
    rcases (loopBody_leave_iff E).1 hb with hh | ⟨c1, hh, hd⟩
    · exact (loopHead_leave E hh).2.2.1
    · have e : r.ctx = c1 := (dispatch_leave E hd).1
      show r.ctx.tempHeaderValue = c.tempHeaderValue
      rw [e]
      exact (loopHead_again E hh).2.2.2.2.2
  | again c2 =>
    obtain ⟨c1, hh, hd⟩ := (loopBody_again_iff E).1 hb
    obtain ⟨f, hsel, hf⟩ := dispatch_again_consumer E hd
    show c2.tempHeaderValue = c.tempHeaderValue
    rw [consumer_tempHeaderValue E (selectConsumer_cases E hsel) hf]
    exact (loopHead_again E hh).2.2.2.2.2

/-- C4, decided against the code.  From the initial context, for every stream
made of a scalar tag of length 32 and the chain-id bytes `C`, scalar fields `X`
(expiration, 4 bytes), `N` (2 bytes), `P` (4 bytes), a cached field `W` of the
width of `fc_unsigned_int_t`, `U` (1 byte), a cached field `D` of the same
width, and a sequence tag with count 0, delivered in any chunking: every call
returns `STREAM_PROCESSING`, the parser ends in state `TLV_TX_ACTIONS`, no tag
byte is hashed, and the bytes fed to the hash are
`C ++ X ++ N ++ P ++ pack(0) ++ U ++ pack(0) ++ pack(0)`.  The two cached fields
contribute `pack(0)` whatever their bytes `W` and `D` are, not `pack(W)` and
`pack(D)`: `processHeaderField2` packs `tempHeaderValue`, which holds 0 since
`initTxContext` because the bytes of the field are copied to the address its
value denotes (line 137 has no `&`). -/
theorem header_hash_input_packs_zero (E : Platform)
    (t1 t2 t3 t4 t5 t6 t7 t8 C X N P W U D : List Nat) (chunks : List (List Nat))
    (h1 : IsTag E t1 32 false) (hC : C.length = 32)
    (h2 : IsTag E t2 4 false) (hX : X.length = 4)
    (h3 : IsTag E t3 2 false) (hN : N.length = 2)
    (h4 : IsTag E t4 4 false) (hP : P.length = 4)
    (h5 : IsTag E t5 E.sizeof_fc_unsigned_int_t false)
    (hW : W.length = E.sizeof_fc_unsigned_int_t)
    (h6 : IsTag E t6 1 false) (hU : U.length = 1)
    (h7 : IsTag E t7 E.sizeof_fc_unsigned_int_t false)
    (hD : D.length = E.sizeof_fc_unsigned_int_t)
    (h8 : IsTag E t8 0 true)
    (hchunks : chunks.flatten =
      t1 ++ C ++ t2 ++ X ++ t3 ++ N ++ t4 ++ P ++ t5 ++ W ++ t6 ++ U ++ t7 ++ D ++ t8) :
    ∃ fuel cF,
      feedChunks E fuel (initTxContext E) chunks =
        some (List.replicate chunks.length STREAM_PROCESSING, cF) ∧
      cF.sha256 = C ++ X ++ N ++ P ++ E.pack_fc_unsigned_int 0 ++ U ++
        E.pack_fc_unsigned_int 0 ++ E.pack_fc_unsigned_int 0 ∧
      cF.state = TLV_TX_ACTIONS := by
  have hchunks : chunks.flatten =
      t1 ++ (C ++ (t2 ++ (X ++ (t3 ++ (N ++ (t4 ++ (P ++ (t5 ++ (W ++ (t6 ++ (U ++
        (t7 ++ (D ++ (t8 ++ [])))))))))))))) := by
    simpa [List.append_assoc] using hchunks
  have aw0 : AwaitingTag E { initTxContext E with workBuffer := chunks.flatten } := by
    simp [AwaitingTag, initTxContext]
  have keeps : ∀ {c d : txProcessingContext_t}, loopBody E c = .again d →
      d.tempHeaderValue = c.tempHeaderValue := by
    intro c d h
    have := loopBody_tempHeaderValue E c
    rw [h] at this
    exact this
  have z0 : loadLE ({ initTxContext E with workBuffer := chunks.flatten } :
      txProcessingContext_t).tempHeaderValue = 0 :=
    loadLE_replicate_zero E.sizeof_fc_unsigned_int_t
  obtain ⟨c1, b1, a1, s1, x1, w1⟩ := loopBody_hashed_field E
    { initTxContext E with workBuffer := chunks.flatten } t1 C _ 32 aw0 (Or.inl rfl) rfl h1 hC
    hchunks
  have s1 : c1.state = TLV_TX_HEADER_EXPITATION := s1
  have x1 : c1.sha256 = C := by simpa [initTxContext] using x1
  obtain ⟨c2, b2, a2, s2, x2, w2⟩ := loopBody_hashed_field E c1 t2 X _ 4 a1
    (Or.inr (Or.inl s1)) (by rw [s1]; rfl) h2 hX w1
  have s2 : c2.state = TLV_TX_HEADER_REF_BLOCK_NUM := by rw [s2, s1]
  obtain ⟨c3, b3, a3, s3, x3, w3⟩ := loopBody_hashed_field E c2 t3 N _ 2 a2
    (Or.inr (Or.inr (Or.inl s2))) (by rw [s2]; rfl) h3 hN w2
  have s3 : c3.state = TLV_TX_HEADER_REF_BLOCK_PREFIX := by rw [s3, s2]
  obtain ⟨c4, b4, a4, s4, x4, w4⟩ := loopBody_hashed_field E c3 t4 P _ 4 a3
    (Or.inr (Or.inr (Or.inr (Or.inl s3)))) (by rw [s3]; rfl) h4 hP w3
  have s4 : c4.state = TLV_TX_HEADER_MAX_NET_USAGE_WORDS := by rw [s4, s3]
  have z4 : loadLE c4.tempHeaderValue = 0 := by
    rw [keeps b4, keeps b3, keeps b2, keeps b1]
    exact z0
  obtain ⟨c5, b5, a5, s5, x5, w5⟩ := loopBody_cached_field E c4 t5 W _ a4
    (Or.inl s4) h5 hW w4
  rw [z4] at x5
  have s5 : c5.state = TLV_TX_HEADER_MAX_CPU_USAGE_MS := by rw [s5, s4]
  obtain ⟨c6, b6, a6, s6, x6, w6⟩ := loopBody_hashed_field E c5 t6 U _ 1 a5
    (Or.inr (Or.inr (Or.inr (Or.inr s5)))) (by rw [s5]; rfl) h6 hU w5
  have s6 : c6.state = TLV_TX_HEADER_DELAY_SEC := by rw [s6, s5]
  have z6 : loadLE c6.tempHeaderValue = 0 := by
    rw [keeps b6, keeps b5]
    exact z4
  obtain ⟨c7, b7, a7, s7, x7, w7⟩ := loopBody_cached_field E c6 t7 D _ a6
    (Or.inr s6) h7 hD w6
  rw [z6] at x7
  have s7 : c7.state = TLV_TX_CONTEXT_FREE_ACTIONS := by rw [s7, s6]
  obtain ⟨c8, b8, a8, s8, x8, w8⟩ := loopBody_ctxFreeActions E c7 t8 [] a7 s7 h8 w7
  have st8 : c8.state = TLV_TX_ACTIONS := by rw [s8, s7]
  have last : loopBody E c8 = .leave (.returned STREAM_PROCESSING c8) :=
    loopBody_of_empty E w8 (by rw [st8]; decide)
  have run : processTxInternal E 9 { initTxContext E with workBuffer := chunks.flatten } =
      some (.returned STREAM_PROCESSING c8) := by
    rw [processTxInternal_again E b1, processTxInternal_again E b2,
      processTxInternal_again E b3, processTxInternal_again E b4,
      processTxInternal_again E b5, processTxInternal_again E b6,
      processTxInternal_again E b7, processTxInternal_again E b8]
    simp only [processTxInternal, last]
  have hne : chunks ≠ [] := by
    intro e
    rw [e] at hchunks
    have : t1 ≠ [] := h1.1
    simp at hchunks
    exact this hchunks.1
  obtain ⟨fuel, hf⟩ := feedChunks_of_flatten E chunks (initTxContext E) c8 9 hne
    ((parseTx_eq_processing E).2 run)
  refine ⟨fuel, c8, hf, ?_, st8⟩
  rw [x8, x7, x6, x5, x4, x3, x2, x1]

/-- C4 at a concrete input: a header with max-net-usage-words `[1, 2, 0, 0]`
(513, whose encoding is `[129, 4]`) and delay-sec `[200, 0, 0, 0]` (200, whose
encoding is `[200, 1]`), delivered in chunks of 3 bytes.  The hash receives the
byte 0 for each of the two fields. -/
theorem header_hash_input_packs_zero_witness :
    (∃ fuel cF,
      feedChunks demoPlatform fuel (initTxContext demoPlatform)
          (chunksOf 2 23
            ([4, 32] ++ List.replicate 32 171 ++ [4, 4] ++ [1, 2, 3, 4] ++ [4, 2] ++ [5, 6] ++
              [4, 4] ++ [7, 8, 9, 10] ++ [4, 4] ++ [1, 2, 0, 0] ++ [4, 1] ++ [11] ++
              [4, 4] ++ [200, 0, 0, 0] ++ [48, 0])) =
        some (List.replicate 23 STREAM_PROCESSING, cF) ∧
      cF.sha256 = List.replicate 32 171 ++ [1, 2, 3, 4] ++ [5, 6] ++ [7, 8, 9, 10] ++
        [0] ++ [11] ++ [0] ++ [0] ∧
      cF.state = TLV_TX_ACTIONS) ∧
    demoPlatform.pack_fc_unsigned_int (loadLE [1, 2, 0, 0]) = [129, 4] ∧
    demoPlatform.pack_fc_unsigned_int (loadLE [200, 0, 0, 0]) = [200, 1] :=
  ⟨header_hash_input_packs_zero demoPlatform [4, 32] [4, 4] [4, 2] [4, 4] [4, 4] [4, 1]
    [4, 4] [48, 0]
    (List.replicate 32 171) [1, 2, 3, 4] [5, 6] [7, 8, 9, 10] [1, 2, 0, 0] [11] [200, 0, 0, 0]
    (chunksOf 2 23
      ([4, 32] ++ List.replicate 32 171 ++ [4, 4] ++ [1, 2, 3, 4] ++ [4, 2] ++ [5, 6] ++
        [4, 4] ++ [7, 8, 9, 10] ++ [4, 4] ++ [1, 2, 0, 0] ++ [4, 1] ++ [11] ++
        [4, 4] ++ [200, 0, 0, 0] ++ [48, 0]))
    (by decide) (by decide) (by decide) (by decide) (by decide) (by decide) (by decide)
    (by decide) (by decide) (by decide) (by decide) (by decide) (by decide) (by decide)
    (by decide) (by decide), by decide, by decide⟩

/-! ## C20: what a call that returns `STREAM_PROCESSING` has done with the chunk -/

end EosStream
